import Mathlib

/-!
# B+ tree index (`btree.cpp`), INTEGER key domain

A shallow embedding of `BTreeIndex` for the `INTEGER` attribute type: the page
structs, the page cache the index talks to, the insertion engine
(`insertEntry`, `traversal`, `insertLeaf`, `splitLeaf`, `insertNonLeaf`,
`splitNon`) and the range scan
(`startScan`, `scanNext`, `endScan`), followed by theorems about them.

Conventions.

* C arrays are total maps from `Int` indices; an index outside the declared
  bounds stands for the bytes next to the array, and is kept apart from the
  other fields of the struct.
* `int` fields (`slot`, `level`, `nextEntry`) and keys are `Int`; the code only
  compares keys and increments counters.
* A method is a function from the index state to an outcome and the state it
  leaves behind: a C++ exception keeps the assignments made before the `throw`.
* Unbounded `while` loops take a step budget; running out of it is the outcome
  `Res.timeout`.
-/

namespace BTree

/-! ## Data model -/

/-- Page numbers (`PageId` in the source) are natural numbers; 0 is no page. -/
abbrev PageId := Nat

/-- The scan operators of `btree.h`; `invalid` stands for any enum value other
than the four enumerators. -/
inductive Operator where
  | LT
  | LTE
  | GTE
  | GT
  | invalid (raw : Nat)
  deriving DecidableEq

/-- Record identifier: `page_number == 0` marks an unused leaf slot. -/
structure RecordId where
  page_number : Nat
  slot_number : Nat
  deriving DecidableEq

/-- Header page contents (`IndexMetaInfo`), the fields the index code uses. -/
structure IndexMetaInfo where
  attrByteOffset : Int
  rootPageNo : Nat
  rootLeaf : Bool

/-- Leaf page of the INTEGER index (`LeafNodeInt`). -/
structure LeafNodeInt where
  slot : Int
  keyArray : Int → Int
  ridArray : Int → RecordId
  rightSibPageNo : Nat

/-- Non-leaf page of the INTEGER index (`NonLeafNodeInt`). -/
structure NonLeafNodeInt where
  level : Int
  slot : Int
  keyArray : Int → Int
  pageNoArray : Int → Nat

/-- What a page of the index file holds: nothing yet (all zero bytes), or the
struct that was last written through a pointer to it. -/
inductive Page where
  | blank
  | meta (m : IndexMetaInfo)
  | leaf (l : LeafNodeInt)
  | node (n : NonLeafNodeInt)

/-- The code reads pages through `reinterpret_cast`; what a page written as one
struct reads as through a pointer to another struct depends on the struct
declarations of `btree.h`, which are taken as a parameter. -/
structure Layout where
  metaAsLeaf : IndexMetaInfo → LeafNodeInt
  nodeAsLeaf : NonLeafNodeInt → LeafNodeInt
  metaAsNode : IndexMetaInfo → NonLeafNodeInt
  leafAsNode : LeafNodeInt → NonLeafNodeInt
  leafAsMeta : LeafNodeInt → IndexMetaInfo
  nodeAsMeta : NonLeafNodeInt → IndexMetaInfo
  /-- Value found in the uninitialised local `int i` of `parentSearch`. -/
  uninitInt : Int
  /-- Contents found in the uninitialised stack arrays of `splitNon`. -/
  stackKeyArray : Int → Int
  stackPageNoArray : Int → Nat
  /-- The call `memcpy(dst, src, n)` on key arrays: `n` counts bytes. -/
  memcpyKeys : (Int → Int) → (Int → Int) → Int → (Int → Int)
  /-- The call `memcpy(dst, src, n)` on page-number arrays. -/
  memcpyPageNos : (Int → Nat) → (Int → Nat) → Int → (Int → Nat)

def zeroLeaf : LeafNodeInt :=
  { slot := 0, keyArray := fun _ => 0, ridArray := fun _ => ⟨0, 0⟩, rightSibPageNo := 0 }

def zeroNode : NonLeafNodeInt :=
  { level := 0, slot := 0, keyArray := fun _ => 0, pageNoArray := fun _ => 0 }

def zeroMeta : IndexMetaInfo :=
  { attrByteOffset := 0, rootPageNo := 0, rootLeaf := false }

/-- The cast `(LeafNodeInt*) page`. -/
def Page.asLeaf (ly : Layout) : Page → LeafNodeInt
  | .blank => zeroLeaf
  | .leaf l => l
  | .meta m => ly.metaAsLeaf m
  | .node n => ly.nodeAsLeaf n

/-- The cast `(NonLeafNodeInt*) page`. -/
def Page.asNode (ly : Layout) : Page → NonLeafNodeInt
  | .blank => zeroNode
  | .node n => n
  | .meta m => ly.metaAsNode m
  | .leaf l => ly.leafAsNode l

/-- The cast `(IndexMetaInfo*) page`. -/
def Page.asMeta (ly : Layout) : Page → IndexMetaInfo
  | .blank => zeroMeta
  | .meta m => m
  | .leaf l => ly.leafAsMeta l
  | .node n => ly.nodeAsMeta n

/-- Pointwise update of a total map. -/
def upd {α β : Type} [DecidableEq α] (f : α → β) (a : α) (b : β) : α → β :=
  fun x => if x = a then b else f x

/-! ## Page cache -/

/-- Modelled from the spec: the buffered page cache and blob file of §4.1
(`BufMgr`, `BlobFile`), which are not part of `btree.cpp`. `readPage` pins a
page, `allocPage` hands out the next page number with a zeroed, pinned page,
`unPinPage` releases one pin. The spec names no failure of these operations,
so they are total here. -/
structure BufMgr where
  pages : Nat → Page
  pinCnt : Nat → Nat
  numPages : Nat

def BufMgr.readPage (b : BufMgr) (p : Nat) : BufMgr :=
  { b with pinCnt := upd b.pinCnt p (b.pinCnt p + 1) }

def BufMgr.unPinPage (b : BufMgr) (p : Nat) : BufMgr :=
  { b with pinCnt := upd b.pinCnt p (b.pinCnt p - 1) }

def BufMgr.allocPage (b : BufMgr) : Nat × BufMgr :=
  (b.numPages + 1,
    { pages := upd b.pages (b.numPages + 1) Page.blank,
      pinCnt := upd b.pinCnt (b.numPages + 1) (b.pinCnt (b.numPages + 1) + 1),
      numPages := b.numPages + 1 })

/-- Modelled from the spec: `deletePage` frees the page; its bytes are gone. -/
def BufMgr.deletePage (b : BufMgr) (p : Nat) : BufMgr :=
  { b with pages := upd b.pages p Page.blank }

def BufMgr.write (b : BufMgr) (p : Nat) (c : Page) : BufMgr :=
  { b with pages := upd b.pages p c }

/-- A newly created, empty index file. -/
def BufMgr.empty : BufMgr :=
  { pages := fun _ => Page.blank, pinCnt := fun _ => 0, numPages := 0 }

/-! ## Index object -/

/-- Exceptions raised by the index code itself. -/
inductive Exn where
  | BadOpcodes
  | ScanNotInitialized
  | IndexScanCompleted
  | FileNotFound
  deriving DecidableEq

/-- Outcome of a call. -/
inductive Res (α : Type) where
  | ok (a : α)
  | exc (e : Exn)
  | timeout
  deriving DecidableEq

/-- Members of `BTreeIndex` (INTEGER instance) together with the page cache it
drives. `currentPageData` is the page whose frame the pointer of that name
addresses. -/
structure BTreeIndex where
  bufMgr : BufMgr
  headerPageNum : Nat
  rootPageNum : Nat
  attrByteOffset : Int
  leafOccupancy : Int
  nodeOccupancy : Int
  scanExecuting : Bool
  nextEntry : Int
  currentPageNum : Nat
  currentPageData : Nat
  lowValInt : Int
  highValInt : Int
  lowOp : Operator
  highOp : Operator

def BTreeIndex.readPage (s : BTreeIndex) (p : Nat) : BTreeIndex :=
  { s with bufMgr := s.bufMgr.readPage p }

def BTreeIndex.unPinPage (s : BTreeIndex) (p : Nat) : BTreeIndex :=
  { s with bufMgr := s.bufMgr.unPinPage p }

def BTreeIndex.allocPage (s : BTreeIndex) : Nat × BTreeIndex :=
  (s.bufMgr.allocPage.1, { s with bufMgr := s.bufMgr.allocPage.2 })

def BTreeIndex.deletePage (s : BTreeIndex) (p : Nat) : BTreeIndex :=
  { s with bufMgr := s.bufMgr.deletePage p }

def BTreeIndex.write (s : BTreeIndex) (p : Nat) (c : Page) : BTreeIndex :=
  { s with bufMgr := s.bufMgr.write p c }

def BTreeIndex.leafAt (ly : Layout) (s : BTreeIndex) (p : Nat) : LeafNodeInt :=
  (s.bufMgr.pages p).asLeaf ly

def BTreeIndex.nodeAt (ly : Layout) (s : BTreeIndex) (p : Nat) : NonLeafNodeInt :=
  (s.bufMgr.pages p).asNode ly

def BTreeIndex.metaAt (ly : Layout) (s : BTreeIndex) (p : Nat) : IndexMetaInfo :=
  (s.bufMgr.pages p).asMeta ly

/-- A parameter of type `PageId&`, as `insertLeaf` and `splitLeaf` take their
page: the caller passed the member `rootPageNum` itself (`insertEntry`,
line 224) or a local variable that holds `p` (line 236). -/
inductive PageRef where
  | rootMember
  | localVar (p : Nat)

/-- The page number read through the reference in state `s`. -/
def PageRef.get (r : PageRef) (s : BTreeIndex) : Nat :=
  match r with
  | .rootMember => s.rootPageNum
  | .localVar p => p

/-! ## Range scan -/

/-- The operator test of `startScan` (line 727). -/
def badOpcodes (lowOp highOp : Operator) : Bool :=
  (lowOp != Operator.LT && lowOp != Operator.LTE && lowOp != Operator.GTE
      && lowOp != Operator.GT)
    || (highOp != Operator.LT && highOp != Operator.LTE && highOp != Operator.GTE
      && highOp != Operator.GT)

/-- Inner loop of the descent above level 1 (line 754):
`while (keyArray[i] < lowValInt && i < nodeOccupancy && pageNoArray[i+1] != 0) i++`.
The loop stops at `i = nodeOccupancy` at the latest, so `n = nodeOccupancy`
rounds are all it can make. -/
def startScanUpperIdx (itr : NonLeafNodeInt) (lowVal nodeOcc : Int) : Nat → Int → Int
  | 0, i => i
  | n + 1, i =>
    if itr.keyArray i < lowVal ∧ i < nodeOcc ∧ itr.pageNoArray (i + 1) ≠ 0 then
      startScanUpperIdx itr lowVal nodeOcc n (i + 1)
    else i

/-- Loop at the level-1 node (line 772):
`while (keyArray[j] > lowValInt && pageNoArray[j+1] != 0 && j < nodeOccupancy) j++`. -/
def startScanLeafIdx (itr : NonLeafNodeInt) (lowVal nodeOcc : Int) : Nat → Int → Int
  | 0, j => j
  | n + 1, j =>
    if itr.keyArray j > lowVal ∧ itr.pageNoArray (j + 1) ≠ 0 ∧ j < nodeOcc then
      startScanLeafIdx itr lowVal nodeOcc n (j + 1)
    else j

/-- One move of the scan cursor to page `nextNum` (lines 761-763, 779-781). -/
def scanMoveTo (s : BTreeIndex) (nextNum : Nat) : BTreeIndex :=
  let s1 := { s.readPage nextNum with currentPageData := nextNum }
  let s2 := s1.unPinPage s1.currentPageNum
  { s2 with currentPageNum := nextNum }

/-- The `while (itr->level != 1)` loop of `startScan` and the step to the leaf
that follows it (lines 750-786). -/
def startScanDescend (ly : Layout) : Nat → BTreeIndex → Res Unit × BTreeIndex
  | 0, s => (Res.timeout, s)
  | fuel + 1, s =>
    let itr := s.nodeAt ly s.currentPageData
    if itr.level ≠ 1 then
      let i := startScanUpperIdx itr s.lowValInt s.nodeOccupancy s.nodeOccupancy.toNat 0
      startScanDescend ly fuel (scanMoveTo s (itr.pageNoArray i))
    else
      let j := startScanLeafIdx itr s.lowValInt s.nodeOccupancy s.nodeOccupancy.toNat 0
      let s1 := scanMoveTo s (itr.pageNoArray j)
      (Res.ok (), { s1 with nextEntry := 0 })

/-- Method `BTreeIndex::startScan`, INTEGER case. -/
def startScan (ly : Layout) (fuel : Nat) (lowValParm : Int) (lowOpParm : Operator)
    (highValParm : Int) (highOpParm : Operator) (s : BTreeIndex) :
    Res Unit × BTreeIndex :=
  let s0 := { s with scanExecuting := true, lowOp := lowOpParm, highOp := highOpParm }
  if badOpcodes s0.lowOp s0.highOp then
    (Res.exc Exn.BadOpcodes, s0)
  else
    let s1 := s0.readPage s0.headerPageNum
    let s2 := { s1 with currentPageNum := s1.headerPageNum }
    let s3 := { s2.readPage s2.currentPageNum with currentPageData := s2.currentPageNum }
    let s4 := { s3 with lowValInt := lowValParm, highValInt := highValParm }
    startScanDescend ly fuel s4

/-- The `while (!done)` loop of `scanNext`, INTEGER case (lines 906-964). -/
def scanNextLoop (ly : Layout) : Nat → BTreeIndex → Res RecordId × BTreeIndex
  | 0, s => (Res.timeout, s)
  | fuel + 1, s =>
    let curr := s.leafAt ly s.currentPageData
    if s.nextEntry ≥ s.nodeOccupancy ∨ (curr.ridArray s.nextEntry).page_number = 0 then
      let nextNum := curr.rightSibPageNo
      if nextNum = 0 then
        (Res.exc Exn.IndexScanCompleted, s)
      else
        let s1 := { s with currentPageNum := nextNum }
        let s2 := s1.unPinPage s1.currentPageNum
        let s3 := { s2.readPage s2.currentPageNum with currentPageData := s2.currentPageNum }
        scanNextLoop ly fuel { s3 with nextEntry := 0 }
    else if s.lowOp = Operator.GT ∨ s.lowOp = Operator.GTE then
      if s.lowOp = Operator.GT then
        if curr.keyArray s.nextEntry > s.lowValInt then
          scanNextLoop ly fuel { s with nextEntry := s.nextEntry + 1 }
        else scanNextLoop ly fuel s
      else
        if curr.keyArray s.nextEntry ≤ s.lowValInt then
          scanNextLoop ly fuel { s with nextEntry := s.nextEntry + 1 }
        else scanNextLoop ly fuel s
    else if s.highOp = Operator.LT ∨ s.highOp = Operator.LTE then
      if s.highOp = Operator.LT then
        if curr.keyArray s.nextEntry < s.highValInt then
          (Res.exc Exn.IndexScanCompleted, s)
        else scanNextLoop ly fuel s
      else
        if curr.keyArray s.nextEntry ≤ s.highValInt then
          (Res.exc Exn.IndexScanCompleted, s)
        else scanNextLoop ly fuel s
    else
      (Res.ok (curr.ridArray s.nextEntry), { s with nextEntry := s.nextEntry + 1 })

/-- Method `BTreeIndex::scanNext`, INTEGER case. -/
def scanNext (ly : Layout) (fuel : Nat) (s : BTreeIndex) : Res RecordId × BTreeIndex :=
  if s.scanExecuting = false then
    (Res.exc Exn.ScanNotInitialized, s)
  else
    let s1 := { s.readPage s.currentPageNum with currentPageData := s.currentPageNum }
    scanNextLoop ly fuel s1

/-- Method `BTreeIndex::endScan`. -/
def endScan (s : BTreeIndex) : Res Unit × BTreeIndex :=
  if s.scanExecuting = false then
    (Res.exc Exn.ScanNotInitialized, s)
  else
    let s1 := { s with scanExecuting := false }
    if s1.currentPageNum ≠ 0 then
      (Res.ok (), s1.unPinPage s1.currentPageNum)
    else
      (Res.ok (), s1)

/-! ## Insertion engine -/

/-- Method `BTreeIndex::insertLeafData`, INTEGER case: store at index `slot`. -/
def insertLeafData (ly : Layout) (s : BTreeIndex) (current : Nat) (key : Int)
    (rid : RecordId) : BTreeIndex :=
  let curr := s.leafAt ly current
  s.write current (Page.leaf
    { curr with keyArray := upd curr.keyArray curr.slot key,
                ridArray := upd curr.ridArray curr.slot rid })

/-- Method `BTreeIndex::insertNodeData`, INTEGER case: store at index `slot`. -/
def insertNodeData (ly : Layout) (s : BTreeIndex) (current : Nat) (key : Int)
    (pagenum : Nat) : BTreeIndex :=
  let curr := s.nodeAt ly current
  s.write current (Page.node
    { curr with keyArray := upd curr.keyArray curr.slot key,
                pageNoArray := upd curr.pageNoArray curr.slot pagenum })

/-- Assignment to `((leaf*) page)->slot`. -/
def setLeafSlot (ly : Layout) (s : BTreeIndex) (p : Nat) (v : Int) : BTreeIndex :=
  s.write p (Page.leaf { s.leafAt ly p with slot := v })

/-- Assignment to `((leaf*) page)->rightSibPageNo`. -/
def setLeafSib (ly : Layout) (s : BTreeIndex) (p : Nat) (v : Nat) : BTreeIndex :=
  s.write p (Page.leaf { s.leafAt ly p with rightSibPageNo := v })

/-- Assignment to `((node*) page)->slot`. -/
def setNodeSlot (ly : Layout) (s : BTreeIndex) (p : Nat) (v : Int) : BTreeIndex :=
  s.write p (Page.node { s.nodeAt ly p with slot := v })

/-- Assignment to `((node*) page)->level`. -/
def setNodeLevel (ly : Layout) (s : BTreeIndex) (p : Nat) (v : Int) : BTreeIndex :=
  s.write p (Page.node { s.nodeAt ly p with level := v })

/-- Assignment to `((node*) page)->pageNoArray[i]`. -/
def setNodePageNo (ly : Layout) (s : BTreeIndex) (p : Nat) (i : Int) (v : Nat) :
    BTreeIndex :=
  let n := s.nodeAt ly p
  s.write p (Page.node { n with pageNoArray := upd n.pageNoArray i v })

/-- Assignment to the header fields through `(IndexMetaInfo*) page`. -/
def setMeta (s : BTreeIndex) (p : Nat) (m : IndexMetaInfo) : BTreeIndex :=
  s.write p (Page.meta m)

/-- The `for (i = 0; i <= rootptr->slot; i++)` search of `traversal`
(lines 292-299): the first `i` with `key < keyArray[i]` decides the child. -/
def traversalFor (rootptr : NonLeafNodeInt) (key : Int) : Nat → Int → Option Nat
  | 0, _ => none
  | n + 1, i =>
    if key < rootptr.keyArray i then some (rootptr.pageNoArray i)
    else traversalFor rootptr key n (i + 1)

/-- The `while (level >= 1)` loop of `traversal` (lines 286-323). `rootFrame` is
the page `rootptr` addresses, `root` the argument of that name and `recur` the
recursive call of line 319. -/
def traversalWhile (ly : Layout) (key : Int)
    (recur : Nat → BTreeIndex → Res Nat × BTreeIndex)
    (rootFrame : Nat) (level : Int) (root : Nat) :
    Nat → BTreeIndex → Res Nat × BTreeIndex
  | 0, s => (Res.timeout, s)
  | n + 1, s =>
    let rootptr := s.nodeAt ly rootFrame
    let childPageNum :=
      match traversalFor rootptr key (rootptr.slot + 1).toNat 0 with
      | some c => c
      | none => rootptr.pageNoArray rootptr.slot
    let s1 := s.unPinPage root
    let s2 := s1.readPage childPageNum
    if level = 1 then
      let childnode := s2.nodeAt ly childPageNum
      match traversalFor childnode key childnode.slot.toNat 0 with
      | some p => (Res.ok p, s2)
      | none => traversalWhile ly key recur rootFrame level root n s2
    else
      recur childPageNum s2

/-- Method `BTreeIndex::traversal`. -/
def traversal (ly : Layout) (key : Int) : Nat → Nat → BTreeIndex → Res Nat × BTreeIndex
  | 0, _, s => (Res.timeout, s)
  | fuel + 1, root, s =>
    let s1 := s.readPage s.rootPageNum
    let level := (s1.nodeAt ly s1.rootPageNum).level
    if level ≥ 1 then
      traversalWhile ly key (traversal ly key fuel) s1.rootPageNum level root (fuel + 1) s1
    else
      (Res.ok (2 ^ 32 - 1), s1)

/-- Inner loop of `parentSearch` (lines 600-608):
`while (i < target_level) { if (obj_key >= keyArray[i]) i++; else break; }`. -/
def parentSearchIdx (root : NonLeafNodeInt) (objKey targetLevel : Int) : Nat → Int → Int
  | 0, i => i
  | n + 1, i =>
    if i < targetLevel then
      if objKey ≥ root.keyArray i then parentSearchIdx root objKey targetLevel n (i + 1)
      else i
    else i

/-- Method `BTreeIndex::parentSearch`. -/
def parentSearch (ly : Layout) (key : Int) (targetLevel : Int) :
    Nat → Nat → BTreeIndex → Res Nat × BTreeIndex
  | 0, _, s => (Res.timeout, s)
  | fuel + 1, rootId, s =>
    let s1 := s.readPage s.headerPageNum
    if (s1.metaAt ly s1.headerPageNum).rootLeaf then
      let s2 := s1.unPinPage s1.headerPageNum
      (Res.ok s2.rootPageNum, s2)
    else
      let s2 := s1.readPage rootId
      let root := s2.nodeAt ly rootId
      let level := root.level
      if level ≥ targetLevel then
        let i := parentSearchIdx root key targetLevel (targetLevel - ly.uninitInt).toNat
          ly.uninitInt
        let childNum := root.pageNoArray i
        let s3 := s2.unPinPage rootId
        if level = targetLevel then (Res.ok childNum, s3)
        else parentSearch ly key targetLevel fuel childNum s3
      else
        (Res.ok (2 ^ 32 - 1), s2)

/-- Copy loop of `splitNon` (lines 446-449), `n` rounds from index `i`. -/
def splitNonCopy (ly : Layout) (firstID secondID : Nat) : Nat → Int → BTreeIndex → BTreeIndex
  | 0, _, s => s
  | n + 1, i, s =>
    let firstNode := s.nodeAt ly firstID
    let s1 := insertNodeData ly s secondID (firstNode.keyArray i) (firstNode.pageNoArray i)
    let s2 := setNodeSlot ly s1 secondID ((s1.nodeAt ly secondID).slot + 1)
    splitNonCopy ly firstID secondID n (i + 1) s2

/-- Merge loop of `splitNon` (lines 481-502) over the stack arrays
`newKeyArray` and `newPageNoArray`; `i` is the loop-local offset. -/
def splitNonMerge (target : NonLeafNodeInt) (entryKey : Int) (newAlloc : Nat) :
    Nat → Int → Int → (Int → Int) × (Int → Nat) → (Int → Int) × (Int → Nat)
  | 0, _, _, arrs => arrs
  | n + 1, i, inserter, (newKeyArray, newPageNoArray) =>
    let newPageNoArray1 :=
      if inserter = 0 then
        if entryKey ≤ target.keyArray 0 then upd newPageNoArray 0 newAlloc
        else upd newPageNoArray 0 (target.pageNoArray 0)
      else newPageNoArray
    if entryKey > target.keyArray inserter then
      splitNonMerge target entryKey newAlloc n i (inserter + 1)
        (upd newKeyArray (inserter + i) (target.keyArray inserter),
         upd newPageNoArray1 (inserter + 1 + i) (target.pageNoArray (inserter + 1)))
    else
      splitNonMerge target entryKey newAlloc n (i + 1) (inserter + 1)
        (upd newKeyArray (inserter + i) entryKey,
         upd newPageNoArray1 (inserter + 1 + i) newAlloc)

/-- First part of `splitNon` (lines 425-451): allocate the parent and the
second node and move the entries from index `nodeOccupancy/2` on to the second
node. Returns `parentID` and `secondID`. -/
def splitNonMove (ly : Layout) (firstID : Nat) (s : BTreeIndex) : (Nat × Nat) × BTreeIndex :=
  let s1 := s.readPage firstID
  let (parentID, s2) := s1.allocPage
  let (secondID, s3) := s2.allocPage
  let start := Int.tdiv s3.nodeOccupancy 2
  let s4 := setNodeSlot ly s3 secondID 0
  let s5 := splitNonCopy ly firstID secondID ((s4.nodeAt ly firstID).slot - start).toNat start s4
  ((parentID, secondID), setNodeSlot ly s5 firstID start)

/-- Second part of `splitNon` (lines 454-461): fill in the parent. -/
def splitNonParent (ly : Layout) (firstID parentID secondID : Nat) (s : BTreeIndex) :
    BTreeIndex :=
  let s7 := setNodeSlot ly s parentID 0
  let s8 := setNodePageNo ly s7 parentID 0 firstID
  let s9 := insertNodeData ly s8 parentID ((s8.nodeAt ly secondID).keyArray 0)
    ((s8.nodeAt ly secondID).pageNoArray 0)
  let s10 := setNodeLevel ly s9 parentID ((s9.nodeAt ly firstID).level + 1)
  s10.unPinPage parentID

/-- Third part of `splitNon` (lines 463-508): put the entry of page `newAlloc`
into the first or the second node. -/
def splitNonInsert (ly : Layout) (firstID secondID newAlloc : Nat) (s : BTreeIndex) :
    BTreeIndex :=
  let s12 := s.readPage newAlloc
  let entryKey := (s12.nodeAt ly newAlloc).keyArray 0
  let target := if entryKey ≥ (s12.nodeAt ly secondID).keyArray 0 then secondID else firstID
  let s13 := setNodeSlot ly s12 target ((s12.nodeAt ly target).slot + 1)
  let tnode := s13.nodeAt ly target
  let arrs := splitNonMerge tnode ((s13.nodeAt ly newAlloc).keyArray 0) newAlloc
    tnode.slot.toNat 0 0 (ly.stackKeyArray, ly.stackPageNoArray)
  let s14 := s13.write target (Page.node
    { tnode with keyArray := ly.memcpyKeys tnode.keyArray arrs.1 tnode.slot })
  let tnode1 := s14.nodeAt ly target
  let s15 := s14.write target (Page.node
    { tnode1 with pageNoArray := ly.memcpyPageNos tnode1.pageNoArray arrs.2 tnode1.slot })
  let s16 := s15.unPinPage firstID
  let s17 := s16.unPinPage secondID
  s17.unPinPage newAlloc

/-- Method `BTreeIndex::splitNon`; `insertNonLeaf` is the call of line 511. -/
def splitNon (ly : Layout)
    (insertNonLeaf : Nat → Int → BTreeIndex → Res Unit × BTreeIndex)
    (firstID newAlloc : Nat) (s : BTreeIndex) : Res Unit × BTreeIndex :=
  let ((parentID, secondID), s6) := splitNonMove ly firstID s
  let s11 := splitNonParent ly firstID parentID secondID s6
  let s18 := splitNonInsert ly firstID secondID newAlloc s11
  insertNonLeaf parentID (s18.nodeAt ly parentID).level s18

/-- Loop of `insertNonLeaf` (lines 552-556): it appends to the very node it
reads its bound from. -/
def insertNonLeafFor (ly : Layout) (nodeID : Nat) : Nat → Int → BTreeIndex → Res Unit × BTreeIndex
  | 0, _, s => (Res.timeout, s)
  | n + 1, j, s =>
    let curr := s.nodeAt ly nodeID
    if j < curr.slot then
      let s1 := insertNodeData ly s nodeID (curr.keyArray j) (curr.pageNoArray (j + 1))
      let s2 := setNodeSlot ly s1 nodeID ((s1.nodeAt ly nodeID).slot + 1)
      insertNonLeafFor ly nodeID n (j + 1) s2
    else (Res.ok (), s)

/-- Method `BTreeIndex::insertNonLeaf`. -/
def insertNonLeaf (ly : Layout) : Nat → Nat → Int → BTreeIndex → Res Unit × BTreeIndex
  | 0, _, _, s => (Res.timeout, s)
  | fuel + 1, nodeID, level, s =>
    let s1 := s.readPage s.rootPageNum
    let root := s1.nodeAt ly s1.rootPageNum
    if level ≥ root.level then
      let s2 := s1.readPage s1.headerPageNum
      let s3 := setMeta s2 s2.headerPageNum
        { s2.metaAt ly s2.headerPageNum with rootPageNo := nodeID }
      let s4 := { s3 with rootPageNum := nodeID }
      let s5 := s4.unPinPage s4.headerPageNum
      (Res.ok (), s5.unPinPage s5.rootPageNum)
    else
      let s2 := s1.readPage nodeID
      let key := (s2.nodeAt ly nodeID).keyArray 0
      match parentSearch ly key level fuel s2.rootPageNum s2 with
      | (Res.ok parentID, s3) =>
        let s4 := s3.readPage parentID
        let i := (s4.nodeAt ly parentID).slot
        if i < s4.nodeOccupancy then
          let s5 := setNodePageNo ly s4 parentID i ((s4.nodeAt ly nodeID).pageNoArray 0)
          match insertNonLeafFor ly nodeID fuel 0 s5 with
          | (Res.ok _, s6) =>
            let s7 := s6.unPinPage nodeID
            let s8 := s7.unPinPage parentID
            (Res.ok (), s8.deletePage nodeID)
          | r => r
        else
          let s5 := s4.unPinPage nodeID
          let s6 := s5.unPinPage parentID
          splitNon ly (insertNonLeaf ly fuel) parentID nodeID s6
      | (Res.exc e, s3) => (Res.exc e, s3)
      | (Res.timeout, s3) => (Res.timeout, s3)

/-- Copy loop of `splitLeaf` (lines 649-652), `n` rounds from index `i`. -/
def splitLeafCopy (ly : Layout) (leafNum newLeaf : Nat) : Nat → Int → BTreeIndex → BTreeIndex
  | 0, _, s => s
  | n + 1, i, s =>
    let orgLeaf := s.leafAt ly leafNum
    let s1 := insertLeafData ly s newLeaf (orgLeaf.keyArray i) (orgLeaf.ridArray i)
    let s2 := setLeafSlot ly s1 newLeaf ((s1.leafAt ly newLeaf).slot + 1)
    splitLeafCopy ly leafNum newLeaf n (i + 1) s2

/-- First part of `splitLeaf` (lines 633-669): allocate the new leaf, move the
upper half of the entries to it, store the new entry in one of the two leaves
and link the siblings. Returns `newLeafPageNum`. -/
def splitLeafMove (ly : Layout) (leafNum : Nat) (key : Int) (rid : RecordId)
    (s : BTreeIndex) : Nat × BTreeIndex :=
  let s1 := s.readPage leafNum
  let (newLeafPageNum, s2) := s1.allocPage
  let s3 := setLeafSlot ly s2 newLeafPageNum 0
  let startCopy := Int.tdiv s3.leafOccupancy 2
  let s4 := splitLeafCopy ly leafNum newLeafPageNum
    ((s3.leafAt ly leafNum).slot - startCopy).toNat startCopy s3
  let s5 := setLeafSlot ly s4 leafNum startCopy
  let s6 :=
    if key < (s5.leafAt ly newLeafPageNum).keyArray 0 then
      let t := insertLeafData ly s5 leafNum key rid
      setLeafSlot ly t leafNum ((t.leafAt ly leafNum).slot + 1)
    else
      let t := insertLeafData ly s5 newLeafPageNum key rid
      setLeafSlot ly t newLeafPageNum ((t.leafAt ly newLeafPageNum).slot + 1)
  let s7 := setLeafSib ly s6 newLeafPageNum (s6.leafAt ly leafNum).rightSibPageNo
  (newLeafPageNum, setLeafSib ly s7 leafNum newLeafPageNum)

/-- Second part of `splitLeaf` (lines 671-684): allocate the non-leaf page that
points to the new leaf and unpin the two leaves. Returns `nonleaf_pageid`. -/
def splitLeafNewNode (ly : Layout) (leafNum newLeafPageNum : Nat) (s : BTreeIndex) :
    Nat × BTreeIndex :=
  let (nonleafPageid, s9) := s.allocPage
  let s10 := setNodeLevel ly s9 nonleafPageid 1
  let s11 := setNodeSlot ly s10 nonleafPageid 0
  let s12 := insertNodeData ly s11 nonleafPageid
    ((s11.leafAt ly newLeafPageNum).keyArray 0) newLeafPageNum
  let s13 := setNodeSlot ly s12 nonleafPageid ((s12.nodeAt ly nonleafPageid).slot + 1)
  let s14 := s13.unPinPage newLeafPageNum
  (nonleafPageid, s14.unPinPage leafNum)

/-- Last part of `splitLeaf` (lines 686-706): on a root that was a leaf, make
the new non-leaf page the root; otherwise hand it to `insertNonLeaf`. Line 697
reads `leafNum` after `rootPageNum` was assigned at line 694. -/
def splitLeafRoot (ly : Layout) (fuel : Nat) (leafNum : PageRef) (nonleafPageid : Nat)
    (s : BTreeIndex) : Res Unit × BTreeIndex :=
  let s16 := s.readPage s.headerPageNum
  if (s16.metaAt ly s16.headerPageNum).rootLeaf then
    let s17 := setMeta s16 s16.headerPageNum
      { s16.metaAt ly s16.headerPageNum with rootLeaf := false }
    let s18 := { s17 with rootPageNum := nonleafPageid }
    let s19 := setMeta s18 s18.headerPageNum
      { s18.metaAt ly s18.headerPageNum with rootPageNo := nonleafPageid }
    let s20 := s19.unPinPage s19.headerPageNum
    let s21 := setNodePageNo ly s20 nonleafPageid 0 (leafNum.get s20)
    (Res.ok (), s21.unPinPage nonleafPageid)
  else
    let s17 := s16.unPinPage s16.headerPageNum
    let s18 := s17.unPinPage nonleafPageid
    insertNonLeaf ly fuel nonleafPageid (s18.nodeAt ly nonleafPageid).level s18

/-- Method `BTreeIndex::splitLeaf`; `fuel` bounds the calls made by
`insertNonLeaf`. `leafNum` is a `PageId&`; `rootPageNum` is not assigned in
lines 633-684, so the first two parts take the value read through it. -/
def splitLeaf (ly : Layout) (fuel : Nat) (leafNum : PageRef) (key : Int) (rid : RecordId)
    (s : BTreeIndex) : Res Unit × BTreeIndex :=
  let p := leafNum.get s
  let (newLeafPageNum, s8) := splitLeafMove ly p key rid s
  let (nonleafPageid, s15) := splitLeafNewNode ly p newLeafPageNum s8
  splitLeafRoot ly fuel leafNum nonleafPageid s15

/-- Method `BTreeIndex::insertLeaf`. `target` is a `PageId&`; `rootPageNum` is
not assigned before the call of `splitLeaf`, so the page number is read
through it once. -/
def insertLeaf (ly : Layout) (fuel : Nat) (target : PageRef) (key : Int) (rid : RecordId)
    (s : BTreeIndex) : Res Unit × BTreeIndex :=
  let p := target.get s
  let s1 := s.readPage p
  let targetNode := s1.leafAt ly p
  if targetNode.slot < s1.leafOccupancy then
    let s2 := insertLeafData ly s1 p key rid
    let s3 := setLeafSlot ly s2 p ((s2.leafAt ly p).slot + 1)
    (Res.ok (), s3.unPinPage p)
  else
    let s2 := s1.unPinPage p
    splitLeaf ly fuel target key rid s2

/-- Method `BTreeIndex::insertEntry`, INTEGER case. -/
def insertEntry (ly : Layout) (fuel : Nat) (key : Int) (rid : RecordId) (s : BTreeIndex) :
    Res Unit × BTreeIndex :=
  let s1 := s.readPage s.headerPageNum
  let rootLeaf := (s1.metaAt ly s1.headerPageNum).rootLeaf
  let s2 := s1.unPinPage s1.headerPageNum
  if rootLeaf then
    insertLeaf ly fuel PageRef.rootMember key rid s2
  else
    match traversal ly key fuel s2.rootPageNum s2 with
    | (Res.ok leafNum, s3) => insertLeaf ly fuel (PageRef.localVar leafNum) key rid s3
    | (Res.exc e, s3) => (Res.exc e, s3)
    | (Res.timeout, s3) => (Res.timeout, s3)

/-- The build loop of the constructor (lines 146-177) over the records the
relation scanner yields, given as their keys and record ids. -/
def buildLoop (ly : Layout) (fuel : Nat) :
    List (Int × RecordId) → BTreeIndex → Res Unit × BTreeIndex
  | [], s => (Res.ok (), s)
  | (key, rid) :: rest, s =>
    match insertEntry ly fuel key rid s with
    | (Res.ok _, s1) => buildLoop ly fuel rest s1
    | r => r

/-- The constructor `BTreeIndex::BTreeIndex`, INTEGER case. `self` is the storage the object is
constructed in: a member the constructor does not assign keeps what `self`
holds. `indexFile` is the index file if it is already on disc, `relation` the
records of the relation file if it exists, `leafSize` and `nodeSize` the
constants `INTARRAYLEAFSIZE` and `INTARRAYNONLEAFSIZE` of `btree.h`. -/
def BTreeIndex.construct (ly : Layout) (fuel : Nat) (self : BTreeIndex)
    (relation : Option (List (Int × RecordId))) (indexFile : Option BufMgr)
    (attrByteOffset : Int) (leafSize nodeSize : Int) : Res Unit × BTreeIndex :=
  let s0 := { self with attrByteOffset := attrByteOffset, headerPageNum := 1 }
  match relation with
  | none => (Res.exc Exn.FileNotFound, s0)
  | some records =>
    let s1 := { s0 with leafOccupancy := leafSize, nodeOccupancy := nodeSize }
    match indexFile with
    | some file =>
      let s2 := { s1 with bufMgr := file }
      let s3 := s2.readPage s2.headerPageNum
      let s4 := { s3 with rootPageNum := (s3.metaAt ly s3.headerPageNum).rootPageNo }
      (Res.ok (), s4.unPinPage s4.headerPageNum)
    | none =>
      let s2 := { s1 with bufMgr := BufMgr.empty }
      let (h, s3) := s2.allocPage
      let s4 := { s3 with headerPageNum := h }
      let (r, s5) := s4.allocPage
      let s6 := { s5 with rootPageNum := r }
      let s7 := setMeta s6 s6.headerPageNum
        { attrByteOffset := attrByteOffset, rootPageNo := s6.rootPageNum, rootLeaf := true }
      let s8 := setLeafSlot ly s7 s7.rootPageNum 0
      match buildLoop ly fuel records s8 with
      | (Res.ok _, s9) =>
        let s10 := s9.unPinPage s9.headerPageNum
        (Res.ok (), s10.unPinPage s10.rootPageNum)
      | r => r

/-! ## Fixtures for concrete runs -/

/-- A layout under which a page read through a pointer to another struct reads
as zero bytes, uninitialised locals hold zero and `memcpy` leaves the
destination as it is. The runs evaluated below never depend on it. -/
def Layout.zeros : Layout :=
  { metaAsLeaf := fun _ => zeroLeaf, nodeAsLeaf := fun _ => zeroLeaf,
    metaAsNode := fun _ => zeroNode, leafAsNode := fun _ => zeroNode,
    leafAsMeta := fun _ => zeroMeta, nodeAsMeta := fun _ => zeroMeta,
    uninitInt := 0, stackKeyArray := fun _ => 0, stackPageNoArray := fun _ => 0,
    memcpyKeys := fun dst _ _ => dst, memcpyPageNos := fun dst _ _ => dst }

/-- Object storage filled with zero bytes. -/
def BTreeIndex.zeroed : BTreeIndex :=
  { bufMgr := BufMgr.empty, headerPageNum := 0, rootPageNum := 0, attrByteOffset := 0,
    leafOccupancy := 0, nodeOccupancy := 0, scanExecuting := false, nextEntry := 0,
    currentPageNum := 0, currentPageData := 0, lowValInt := 0, highValInt := 0,
    lowOp := Operator.LT, highOp := Operator.LT }

/-- A freshly built index over `records` with `leafOccupancy = 4` and
`nodeOccupancy = 3`, the sizes of the spec's scenarios. -/
def freshIndex (ly : Layout) (fuel : Nat) (self : BTreeIndex)
    (records : List (Int × RecordId)) : BTreeIndex :=
  (BTreeIndex.construct ly fuel self (some records) none 0 4 3).2

/-- The index of four records with keys 1, 2, 3, 4: its root leaf is full. -/
def fullRootLeaf : BTreeIndex :=
  freshIndex Layout.zeros 10 BTreeIndex.zeroed
    [(1, ⟨11, 0⟩), (2, ⟨12, 0⟩), (3, ⟨13, 0⟩), (4, ⟨14, 0⟩)]

/-- The index of five records with keys 1 to 5: the fifth insert has split the
root leaf (page 2) into pages 2 and 3 and made the fresh page 4 the root. Page 4
has `slot = 1`, `keyArray[0] = 3`, `pageNoArray[0] = 4` (line 697 reads
`leafNum`, a reference to `rootPageNum`, after line 694) and
`pageNoArray[1] = 0`. -/
def fiveKeys : BTreeIndex :=
  freshIndex Layout.zeros 10 BTreeIndex.zeroed
    [(1, ⟨11, 0⟩), (2, ⟨12, 0⟩), (3, ⟨13, 0⟩), (4, ⟨14, 0⟩), (5, ⟨15, 0⟩)]

/-- The members a scan positioned at entry 0 of leaf `page` has stored. -/
def positioned (s : BTreeIndex) (page : Nat) (lowVal : Int) (lowOp : Operator)
    (highVal : Int) (highOp : Operator) : BTreeIndex :=
  { s with scanExecuting := true, currentPageNum := page, currentPageData := page,
           nextEntry := 0, lowValInt := lowVal, highValInt := highVal,
           lowOp := lowOp, highOp := highOp }

/-! ## Closed forms used by the theorems -/

/-- Replacing the page table of the cache of an index. -/
def BTreeIndex.withPages (s : BTreeIndex) (pages : Nat → Page) : BTreeIndex :=
  { s with bufMgr := { s.bufMgr with pages := pages } }

/-- Closed form of the copy loop of `splitLeaf`: leaf `R` after `n` entries of
`L`, from index `i` on, were appended to it. -/
def copyResult (L R : LeafNodeInt) (n : Nat) (i : Int) : LeafNodeInt :=
  { R with
    slot := R.slot + n
    keyArray := fun x =>
      if R.slot ≤ x ∧ x < R.slot + n then L.keyArray (i + (x - R.slot)) else R.keyArray x
    ridArray := fun x =>
      if R.slot ≤ x ∧ x < R.slot + n then L.ridArray (i + (x - R.slot)) else R.ridArray x }

/-- The new leaf right after the copy loop of `splitLeaf` on leaf `L`. -/
def copiedHalf (occ : Int) (L : LeafNodeInt) : LeafNodeInt :=
  copyResult L zeroLeaf (L.slot - Int.tdiv occ 2).toNat (Int.tdiv occ 2)

/-- Closed form of the left leaf after `splitLeafMove` on leaf `L`. -/
def splitLeft (occ : Int) (L : LeafNodeInt) (key : Int) (rid : RecordId) (newLeaf : Nat) :
    LeafNodeInt :=
  if key < (copiedHalf occ L).keyArray 0 then
    { slot := Int.tdiv occ 2 + 1,
      keyArray := upd L.keyArray (Int.tdiv occ 2) key,
      ridArray := upd L.ridArray (Int.tdiv occ 2) rid,
      rightSibPageNo := newLeaf }
  else
    { L with slot := Int.tdiv occ 2, rightSibPageNo := newLeaf }

/-- Closed form of the new right leaf after `splitLeafMove` on leaf `L`. -/
def splitRight (occ : Int) (L : LeafNodeInt) (key : Int) (rid : RecordId) : LeafNodeInt :=
  if key < (copiedHalf occ L).keyArray 0 then
    { copiedHalf occ L with rightSibPageNo := L.rightSibPageNo }
  else
    { slot := (copiedHalf occ L).slot + 1,
      keyArray := upd (copiedHalf occ L).keyArray (copiedHalf occ L).slot key,
      ridArray := upd (copiedHalf occ L).ridArray (copiedHalf occ L).slot rid,
      rightSibPageNo := L.rightSibPageNo }

/-! ## Predicates used by the theorems -/

/-- Pin counts during the descent of `startScan`, relative to the counts `base`
before the call: one pin more on the header page, one on the current page. -/
def scanPins (base : Nat → Nat) (hdr : Nat) (s : BTreeIndex) : Prop :=
  ∀ q, s.bufMgr.pinCnt q
    = base q + (if q = hdr then 1 else 0) + (if q = s.currentPageNum then 1 else 0)

/-- The call leaves at least as many pins on page `q` as it found, and does not
shrink the file. -/
def PinsKept (q : Nat) (s t : BTreeIndex) : Prop :=
  s.bufMgr.pinCnt q ≤ t.bufMgr.pinCnt q ∧ s.bufMgr.numPages ≤ t.bufMgr.numPages

/-! ## Entry lists, further closed forms and fixtures -/

/-- The live entries of a leaf, in index order. -/
def liveEntries (L : LeafNodeInt) : List (Int × RecordId) :=
  (List.range L.slot.toNat).map (fun (j : Nat) => (L.keyArray (j : Int), L.ridArray (j : Int)))

/-- The `n` entries of a leaf from index `i` on. -/
def entriesFrom (L : LeafNodeInt) (i : Int) (n : Nat) : List (Int × RecordId) :=
  (List.range n).map (fun (j : Nat) => (L.keyArray (i + (j : Int)), L.ridArray (i + (j : Int))))

/-- The leaf that is split, as the first part of `splitLeaf` leaves it. -/
def leftAfterMove (ly : Layout) (s : BTreeIndex) (leafNum : Nat) (key : Int)
    (rid : RecordId) : LeafNodeInt :=
  (splitLeafMove ly leafNum key rid s).2.leafAt ly leafNum

/-- The new leaf, as the first part of `splitLeaf` leaves it. -/
def rightAfterMove (ly : Layout) (s : BTreeIndex) (leafNum : Nat) (key : Int)
    (rid : RecordId) : LeafNodeInt :=
  (splitLeafMove ly leafNum key rid s).2.leafAt ly (splitLeafMove ly leafNum key rid s).1

/-- The index of keys 1 to 5 after the pair `(6, rid 16)` was stored in its
right leaf (page 3) by `insertLeaf`: page 3 holds keys 3, 4, 5, 6 and is full,
the root is still the level-1 page 4. -/
def sixKeys : BTreeIndex :=
  (insertLeaf Layout.zeros 0 (PageRef.localVar 3) 6 ⟨16, 0⟩ fiveKeys).2

/-- The index `sixKeys` with its two leaves (pages 2 and 3) entered by hand as
children 0 and 1 of the root: a well-formed tree of a level-1 root with one
separator and two leaves, the right one full. -/
def sixKeysLinked : BTreeIndex :=
  setNodePageNo Layout.zeros (setNodePageNo Layout.zeros sixKeys 4 0 2) 4 1 3

/-- The child the loop of `traversal` chooses at node `rootptr`
(lines 292-302): `pageNoArray[i]` for the first `i <= slot` with
`key < keyArray[i]`, else `pageNoArray[slot]`. -/
def chosenChild (rootptr : NonLeafNodeInt) (key : Int) : Nat :=
  match traversalFor rootptr key (rootptr.slot + 1).toNat 0 with
  | some c => c
  | none => rootptr.pageNoArray rootptr.slot

/-- The tree `sixKeysLinked` with its two leaves at each other's page numbers:
the root (page 4) has children page 3 (keys 1, 2) and page 2 (keys 3, 4, 5, 6),
and the left leaf names page 2 as its right sibling. -/
def sixKeysSwapped : BTreeIndex :=
  let left := sixKeysLinked.leafAt Layout.zeros 2
  let right := sixKeysLinked.leafAt Layout.zeros 3
  let s1 := sixKeysLinked.write 3 (Page.leaf { left with rightSibPageNo := 2 })
  let s2 := s1.write 2 (Page.leaf right)
  let s3 := setNodePageNo Layout.zeros s2 4 0 3
  setNodePageNo Layout.zeros s3 4 1 2

/-- Closed form of the copy loop of `splitNon`: node `R` after `n` entries of
`N`, from index `i` on, were appended to it, each key with the page number at
the same index. -/
def nodeCopyResult (N R : NonLeafNodeInt) (n : Nat) (i : Int) : NonLeafNodeInt :=
  { R with
    slot := R.slot + n
    keyArray := fun x =>
      if R.slot ≤ x ∧ x < R.slot + n then N.keyArray (i + (x - R.slot)) else R.keyArray x
    pageNoArray := fun x =>
      if R.slot ≤ x ∧ x < R.slot + n then N.pageNoArray (i + (x - R.slot))
      else R.pageNoArray x }

/-- The new sibling right after the copy loop of `splitNon` on node `N`. -/
def copiedUpper (occ : Int) (N : NonLeafNodeInt) : NonLeafNodeInt :=
  nodeCopyResult N zeroNode (N.slot - Int.tdiv occ 2).toNat (Int.tdiv occ 2)

/-- An index (`nodeOccupancy = 3`) whose root, page 4, is a full non-leaf node
of level 1 with keys 10, 20, 30 and children pages 2, 3, 5, 6. Page 8 is the
one-entry non-leaf page `splitLeaf` builds for a new leaf (page 7, first key
5) and hands to `insertNonLeaf`. The contents of the leaf pages play no role
in `splitNon` and are left blank. -/
def fullRootNode : BTreeIndex :=
  { BTreeIndex.zeroed with
    bufMgr :=
      { pages :=
          upd (upd (upd (fun _ => Page.blank)
            1 (Page.meta { attrByteOffset := 0, rootPageNo := 4, rootLeaf := false }))
            4 (Page.node
                { level := 1, slot := 3,
                  keyArray := upd (upd (upd (fun _ => 0) 0 10) 1 20) 2 30,
                  pageNoArray := upd (upd (upd (upd (fun _ => 0) 0 2) 1 3) 2 5) 3 6 }))
            8 (Page.node
                { level := 1, slot := 1,
                  keyArray := upd (fun _ => 0) 0 5,
                  pageNoArray := upd (fun _ => 0) 0 7 }),
        pinCnt := fun _ => 0,
        numPages := 8 },
    headerPageNum := 1, rootPageNum := 4, leafOccupancy := 4, nodeOccupancy := 3 }

/-- The parent page as the first two parts of `splitNon` (lines 425-461) leave
it, read as a non-leaf node. -/
def parentAfterSplit (ly : Layout) (s : BTreeIndex) (firstID : Nat) : NonLeafNodeInt :=
  (splitNonParent ly firstID (splitNonMove ly firstID s).1.1 (splitNonMove ly firstID s).1.2
    (splitNonMove ly firstID s).2).nodeAt ly (splitNonMove ly firstID s).1.1

/-- The state in which `startScan` enters its descent (lines 722-748), after
an operator test that passed. -/
def scanEntryState (s : BTreeIndex) (lowValParm : Int) (lowOpParm : Operator)
    (highValParm : Int) (highOpParm : Operator) : BTreeIndex :=
  let s0 := { s with scanExecuting := true, lowOp := lowOpParm, highOp := highOpParm }
  let s1 := s0.readPage s0.headerPageNum
  let s2 := { s1 with currentPageNum := s1.headerPageNum }
  let s3 := { s2.readPage s2.currentPageNum with currentPageData := s2.currentPageNum }
  { s3 with lowValInt := lowValParm, highValInt := highValParm }

/-! ## Theorems: range scan -/

section ScanFrame

@[simp] theorem readPage_lowOp (s : BTreeIndex) (p : Nat) :
    (s.readPage p).lowOp = s.lowOp := rfl

@[simp] theorem unPinPage_lowOp (s : BTreeIndex) (p : Nat) :
    (s.unPinPage p).lowOp = s.lowOp := rfl

@[simp] theorem scanMoveTo_lowOp (s : BTreeIndex) (p : Nat) :
    (scanMoveTo s p).lowOp = s.lowOp := rfl

end ScanFrame

/-- With a low operator `GT` or `GTE` the loop of `scanNext` has no path to its
emitting branch. -/
theorem scanNextLoop_lowOp_no_emit (ly : Layout) (fuel : Nat) :
    ∀ s : BTreeIndex, (s.lowOp = Operator.GT ∨ s.lowOp = Operator.GTE) →
      ∀ rid, (scanNextLoop ly fuel s).1 ≠ Res.ok rid := by
  induction fuel with
  | zero => intro s _ rid; simp [scanNextLoop]
  | succ n ih =>
    intro s h rid
    unfold scanNextLoop
    simp only []
    split_ifs <;> first
      | (simp; done)
      | exact ih _ (by simpa using h) rid

theorem scanNext_lowOp_no_emit (ly : Layout) (fuel : Nat) (s : BTreeIndex)
    (h : s.lowOp = Operator.GT ∨ s.lowOp = Operator.GTE) (rid : RecordId) :
    (scanNext ly fuel s).1 ≠ Res.ok rid := by
  unfold scanNext
  split_ifs
  · simp
  · exact scanNextLoop_lowOp_no_emit ly fuel _ (by simpa using h) rid

theorem startScanDescend_lowOp (ly : Layout) (fuel : Nat) :
    ∀ s : BTreeIndex, (startScanDescend ly fuel s).2.lowOp = s.lowOp := by
  induction fuel with
  | zero => intro s; simp [startScanDescend]
  | succ n ih =>
    intro s
    unfold startScanDescend
    simp only []
    split_ifs
    · rw [ih]; rfl
    · rfl

theorem startScan_lowOp (ly : Layout) (fuel : Nat) (lv hv : Int) (lo ho : Operator)
    (s : BTreeIndex) : (startScan ly fuel lv lo hv ho s).2.lowOp = lo := by
  unfold startScan
  simp only []
  split_ifs
  · rfl
  · rw [startScanDescend_lowOp]; rfl

/-- The descent of `startScan` raises no exception of the index. -/
theorem startScanDescend_no_exc (ly : Layout) (fuel : Nat) :
    ∀ (s : BTreeIndex) (e : Exn), (startScanDescend ly fuel s).1 ≠ Res.exc e := by
  induction fuel with
  | zero => intro s e; simp [startScanDescend]
  | succ n ih =>
    intro s e
    unfold startScanDescend
    simp only []
    split_ifs
    · exact ih _ e
    · simp

theorem badOpcodes_iff (lo ho : Operator) :
    badOpcodes lo ho = true ↔
      ((lo ≠ Operator.LT ∧ lo ≠ Operator.LTE ∧ lo ≠ Operator.GT ∧ lo ≠ Operator.GTE) ∨
       (ho ≠ Operator.LT ∧ ho ≠ Operator.LTE ∧ ho ≠ Operator.GT ∧ ho ≠ Operator.GTE)) := by
  unfold badOpcodes
  simp only [Bool.or_eq_true, Bool.and_eq_true, bne_iff_ne, ne_eq]
  tauto

/-- C1 (evaluated on the code): after `startScan` with a low operator `GT` or
`GTE`, on any index whatever was inserted into it, `scanNext` returns no record
id at all: it ends in `IndexScanCompleted` or never leaves its loop. The scan of
scenario S1 therefore does not yield `[c, a, b]`. -/
theorem C1_scan_with_low_bound_returns_no_rid (ly : Layout) (fuel fuel2 : Nat)
    (lowVal highVal : Int) (lowOp highOp : Operator) (s : BTreeIndex)
    (h : lowOp = Operator.GT ∨ lowOp = Operator.GTE) (rid : RecordId) :
    (scanNext ly fuel2 (startScan ly fuel lowVal lowOp highVal highOp s).2).1
      ≠ Res.ok rid :=
  scanNext_lowOp_no_emit ly fuel2 _ (by rw [startScan_lowOp]; exact h) rid

/-- C1 at scenario S1: insert `(10,a)`, `(20,b)`, `(5,c)`, scan `GTE 0, LT 100`;
the first `scanNext` does not return `c`. -/
theorem C1_scan_S1_first_call :
    (Operator.GTE = Operator.GT ∨ Operator.GTE = Operator.GTE) ∧
    (scanNext Layout.zeros 50 (startScan Layout.zeros 50 0 Operator.GTE 100 Operator.LT
        (freshIndex Layout.zeros 10 BTreeIndex.zeroed
          [(10, ⟨1, 0⟩), (20, ⟨2, 0⟩), (5, ⟨3, 0⟩)])).2).1 ≠ Res.ok ⟨3, 0⟩ :=
  ⟨Or.inr rfl,
    C1_scan_with_low_bound_returns_no_rid Layout.zeros 50 50 0 100 Operator.GTE
      Operator.LT _ (Or.inr rfl) ⟨3, 0⟩⟩

/-- C3: `startScan` fails with `BadOpcodes` exactly when `lowOp` or `highOp` is
none of `LT`, `LTE`, `GT`, `GTE`; in particular no pair of operators from that
set, in either position, raises it. -/
theorem C3_startScan_BadOpcodes_iff (ly : Layout) (fuel : Nat) (lowVal highVal : Int)
    (lowOp highOp : Operator) (s : BTreeIndex) :
    (startScan ly fuel lowVal lowOp highVal highOp s).1 = Res.exc Exn.BadOpcodes ↔
      ((lowOp ≠ Operator.LT ∧ lowOp ≠ Operator.LTE ∧ lowOp ≠ Operator.GT ∧
          lowOp ≠ Operator.GTE) ∨
       (highOp ≠ Operator.LT ∧ highOp ≠ Operator.LTE ∧ highOp ≠ Operator.GT ∧
          highOp ≠ Operator.GTE)) := by
  rw [← badOpcodes_iff]
  unfold startScan
  simp only []
  split_ifs with h
  · simp [h]
  · constructor
    · intro h2; exact absurd h2 (startScanDescend_no_exc ly fuel _ _)
    · intro h2; exact absurd h2 h

/-- C4 as stated fails: on an index built over one record, `startScan` with
`lowOp = GT` and `highOp = GT` does not end in `BadOpcodes`. -/
theorem C4_GT_GT_counterexample :
    (startScan Layout.zeros 20 0 Operator.GT 100 Operator.GT
        (freshIndex Layout.zeros 10 BTreeIndex.zeroed [(10, ⟨1, 0⟩)])).1
      ≠ Res.exc Exn.BadOpcodes := by
  unfold startScan
  simp only []
  split_ifs with h
  · simp [badOpcodes] at h
  · exact startScanDescend_no_exc _ _ _ _

/-- C4 amended: for every index and every `lowVal` and `highVal`, `startScan`
with `lowOp = GT` and `highOp = GT` does not fail with `BadOpcodes`: the
operator test accepts `GT` for both bounds. -/
theorem C4_GT_GT_not_BadOpcodes (ly : Layout) (fuel : Nat) (lowVal highVal : Int)
    (s : BTreeIndex) :
    (startScan ly fuel lowVal Operator.GT highVal Operator.GT s).1
      ≠ Res.exc Exn.BadOpcodes := by
  unfold startScan
  simp only []
  split_ifs with h
  · simp [badOpcodes] at h
  · exact startScanDescend_no_exc ly fuel _ _

theorem scanNext_idle (ly : Layout) (fuel : Nat) (s : BTreeIndex)
    (h : s.scanExecuting = false) :
    scanNext ly fuel s = (Res.exc Exn.ScanNotInitialized, s) := by
  simp [scanNext, h]

theorem endScan_idle (s : BTreeIndex) (h : s.scanExecuting = false) :
    endScan s = (Res.exc Exn.ScanNotInitialized, s) := by
  simp [endScan, h]

/-- C6: `endScan` fails with `ScanNotInitialized` exactly when `scanExecuting`
is false, and then leaves the state as it was; when `scanExecuting` is true it
succeeds and clears the flag, so that a `scanNext` or a second `endScan` right
after it fails with `ScanNotInitialized`. -/
theorem C6_endScan (s : BTreeIndex) :
    ((endScan s).1 = Res.exc Exn.ScanNotInitialized ↔ s.scanExecuting = false) ∧
    (s.scanExecuting = false → (endScan s).2 = s) ∧
    (s.scanExecuting = true →
      (endScan s).1 = Res.ok () ∧ (endScan s).2.scanExecuting = false ∧
      (∀ (ly : Layout) (fuel : Nat),
        (scanNext ly fuel (endScan s).2).1 = Res.exc Exn.ScanNotInitialized) ∧
      (endScan (endScan s).2).1 = Res.exc Exn.ScanNotInitialized) := by
  cases hs : s.scanExecuting with
  | false => simp [endScan, hs]
  | true =>
    have h1 : (endScan s).2.scanExecuting = false := by
      unfold endScan; simp only [hs]; split_ifs <;> first | rfl | simp_all
    have h0 : (endScan s).1 = Res.ok () := by
      unfold endScan; simp only [hs]; split_ifs <;> first | rfl | simp_all
    refine ⟨by simp [h0], by simp, fun _ => ⟨h0, h1, ?_, ?_⟩⟩
    · intro ly fuel
      rw [scanNext_idle ly fuel _ h1]
    · rw [endScan_idle _ h1]

/-! ## Theorems: the scan flag is outside the reach of the insertion engine -/

section Frame
variable (ly : Layout) (s : BTreeIndex) (p : Nat)
@[simp] theorem readPage_scanExecuting : (s.readPage p).scanExecuting = s.scanExecuting := rfl
@[simp] theorem unPinPage_scanExecuting : (s.unPinPage p).scanExecuting = s.scanExecuting := rfl
@[simp] theorem deletePage_scanExecuting : (s.deletePage p).scanExecuting = s.scanExecuting := rfl
@[simp] theorem allocPage_scanExecuting : s.allocPage.2.scanExecuting = s.scanExecuting := rfl
@[simp] theorem write_scanExecuting (c : Page) : (s.write p c).scanExecuting = s.scanExecuting := rfl
@[simp] theorem insertLeafData_scanExecuting (k : Int) (r : RecordId) :
    (insertLeafData ly s p k r).scanExecuting = s.scanExecuting := rfl
@[simp] theorem insertNodeData_scanExecuting (k : Int) (q : Nat) :
    (insertNodeData ly s p k q).scanExecuting = s.scanExecuting := rfl
@[simp] theorem setLeafSlot_scanExecuting (v : Int) :
    (setLeafSlot ly s p v).scanExecuting = s.scanExecuting := rfl
@[simp] theorem setLeafSib_scanExecuting (v : Nat) :
    (setLeafSib ly s p v).scanExecuting = s.scanExecuting := rfl
@[simp] theorem setNodeSlot_scanExecuting (v : Int) :
    (setNodeSlot ly s p v).scanExecuting = s.scanExecuting := rfl
@[simp] theorem setNodeLevel_scanExecuting (v : Int) :
    (setNodeLevel ly s p v).scanExecuting = s.scanExecuting := rfl
@[simp] theorem setNodePageNo_scanExecuting (i : Int) (v : Nat) :
    (setNodePageNo ly s p i v).scanExecuting = s.scanExecuting := rfl
@[simp] theorem setMeta_scanExecuting (m : IndexMetaInfo) :
    (setMeta s p m).scanExecuting = s.scanExecuting := rfl
end Frame

theorem traversalWhile_scanExecuting (ly : Layout) (key : Int)
    (recur : Nat → BTreeIndex → Res Nat × BTreeIndex)
    (hrec : ∀ c t, (recur c t).2.scanExecuting = t.scanExecuting)
    (rootFrame : Nat) (level : Int) (root : Nat) (n : Nat) :
    ∀ s, (traversalWhile ly key recur rootFrame level root n s).2.scanExecuting
      = s.scanExecuting := by
  induction n with
  | zero => intro s; rfl
  | succ n ih =>
    intro s
    unfold traversalWhile
    simp only []
    split_ifs
    · split
      · rfl
      · rw [ih]; rfl
    · rw [hrec]; rfl

theorem traversal_scanExecuting (ly : Layout) (key : Int) (fuel : Nat) :
    ∀ root s, (traversal ly key fuel root s).2.scanExecuting = s.scanExecuting := by
  induction fuel with
  | zero => intro root s; rfl
  | succ n ih =>
    intro root s
    unfold traversal
    simp only []
    split_ifs
    · rw [traversalWhile_scanExecuting ly key _ (fun c t => ih c t)]; rfl
    · rfl

theorem parentSearch_scanExecuting (ly : Layout) (key level : Int) (fuel : Nat) :
    ∀ root s, (parentSearch ly key level fuel root s).2.scanExecuting = s.scanExecuting := by
  induction fuel with
  | zero => intro root s; rfl
  | succ n ih =>
    intro root s
    unfold parentSearch
    simp only []
    split_ifs <;> first | rfl | (rw [ih]; rfl)

theorem splitNonCopy_scanExecuting (ly : Layout) (a b : Nat) (n : Nat) :
    ∀ i s, (splitNonCopy ly a b n i s).scanExecuting = s.scanExecuting := by
  induction n with
  | zero => intro i s; rfl
  | succ n ih => intro i s; unfold splitNonCopy; simp only []; rw [ih]; rfl

theorem splitLeafCopy_scanExecuting (ly : Layout) (a b : Nat) (n : Nat) :
    ∀ i s, (splitLeafCopy ly a b n i s).scanExecuting = s.scanExecuting := by
  induction n with
  | zero => intro i s; rfl
  | succ n ih => intro i s; unfold splitLeafCopy; simp only []; rw [ih]; rfl

theorem insertNonLeafFor_scanExecuting (ly : Layout) (a : Nat) (n : Nat) :
    ∀ j s, (insertNonLeafFor ly a n j s).2.scanExecuting = s.scanExecuting := by
  induction n with
  | zero => intro j s; rfl
  | succ n ih =>
    intro j s; unfold insertNonLeafFor; simp only []
    split_ifs
    · rw [ih]; rfl
    · rfl

theorem splitNonMove_scanExecuting (ly : Layout) (a : Nat) (s : BTreeIndex) :
    (splitNonMove ly a s).2.scanExecuting = s.scanExecuting := by
  unfold splitNonMove
  simp [splitNonCopy_scanExecuting]

theorem splitNonParent_scanExecuting (ly : Layout) (a b c : Nat) (s : BTreeIndex) :
    (splitNonParent ly a b c s).scanExecuting = s.scanExecuting := rfl

theorem splitNonInsert_scanExecuting (ly : Layout) (a b c : Nat) (s : BTreeIndex) :
    (splitNonInsert ly a b c s).scanExecuting = s.scanExecuting := by
  unfold splitNonInsert
  simp

theorem splitNon_scanExecuting (ly : Layout)
    (k : Nat → Int → BTreeIndex → Res Unit × BTreeIndex)
    (hk : ∀ c l t, (k c l t).2.scanExecuting = t.scanExecuting)
    (a b : Nat) (s : BTreeIndex) :
    (splitNon ly k a b s).2.scanExecuting = s.scanExecuting := by
  unfold splitNon
  simp only []
  rw [hk, splitNonInsert_scanExecuting, splitNonParent_scanExecuting,
    splitNonMove_scanExecuting]

theorem insertNonLeaf_scanExecuting (ly : Layout) (fuel : Nat) :
    ∀ nodeID level s,
      (insertNonLeaf ly fuel nodeID level s).2.scanExecuting = s.scanExecuting := by
  induction fuel with
  | zero => intro nodeID level s; rfl
  | succ n ih =>
    intro nodeID level s
    unfold insertNonLeaf
    simp only []
    split_ifs
    · rfl
    · split
      · rename_i parentID s3 heq
        have hp : s3.scanExecuting = s.scanExecuting := by
          have h := congrArg (fun r => r.2.scanExecuting) heq
          simp only [parentSearch_scanExecuting] at h
          simpa using h.symm
        split_ifs
        · split
          · rename_i u s6 heq2
            have h := congrArg (fun r => r.2.scanExecuting) heq2
            simp only [insertNonLeafFor_scanExecuting] at h
            simp [← h, hp]
          · rw [insertNonLeafFor_scanExecuting]; simp [hp]
        · rw [splitNon_scanExecuting ly _ (fun c l t => ih c l t)]
          simp [hp]
      · rename_i e s3 heq
        have h := congrArg (fun r => r.2.scanExecuting) heq
        simp only [parentSearch_scanExecuting] at h
        simpa using h.symm
      · rename_i s3 heq
        have h := congrArg (fun r => r.2.scanExecuting) heq
        simp only [parentSearch_scanExecuting] at h
        simpa using h.symm

theorem splitLeafMove_scanExecuting (ly : Layout) (leafNum : Nat) (key : Int)
    (rid : RecordId) (s : BTreeIndex) :
    (splitLeafMove ly leafNum key rid s).2.scanExecuting = s.scanExecuting := by
  unfold splitLeafMove
  simp only []
  split_ifs <;> simp [splitLeafCopy_scanExecuting]

theorem splitLeafNewNode_scanExecuting (ly : Layout) (leafNum newLeaf : Nat)
    (s : BTreeIndex) :
    (splitLeafNewNode ly leafNum newLeaf s).2.scanExecuting = s.scanExecuting := rfl

theorem splitLeafRoot_scanExecuting (ly : Layout) (fuel : Nat) (leafNum : PageRef) (p : Nat)
    (s : BTreeIndex) :
    (splitLeafRoot ly fuel leafNum p s).2.scanExecuting = s.scanExecuting := by
  unfold splitLeafRoot
  simp only []
  split_ifs
  · rfl
  · rw [insertNonLeaf_scanExecuting]; rfl

theorem splitLeaf_eq (ly : Layout) (fuel : Nat) (leafNum : PageRef) (key : Int)
    (rid : RecordId) (s : BTreeIndex) :
    splitLeaf ly fuel leafNum key rid s
      = splitLeafRoot ly fuel leafNum
          (splitLeafNewNode ly (leafNum.get s) (splitLeafMove ly (leafNum.get s) key rid s).1
            (splitLeafMove ly (leafNum.get s) key rid s).2).1
          (splitLeafNewNode ly (leafNum.get s) (splitLeafMove ly (leafNum.get s) key rid s).1
            (splitLeafMove ly (leafNum.get s) key rid s).2).2 := rfl

theorem splitLeaf_scanExecuting (ly : Layout) (fuel : Nat) (leafNum : PageRef) (key : Int)
    (rid : RecordId) (s : BTreeIndex) :
    (splitLeaf ly fuel leafNum key rid s).2.scanExecuting = s.scanExecuting := by
  rw [splitLeaf_eq, splitLeafRoot_scanExecuting, splitLeafNewNode_scanExecuting,
    splitLeafMove_scanExecuting]

theorem insertLeaf_scanExecuting (ly : Layout) (fuel : Nat) (target : PageRef) (key : Int)
    (rid : RecordId) (s : BTreeIndex) :
    (insertLeaf ly fuel target key rid s).2.scanExecuting = s.scanExecuting := by
  unfold insertLeaf
  simp only []
  split_ifs
  · rfl
  · rw [splitLeaf_scanExecuting]; rfl

theorem insertEntry_scanExecuting (ly : Layout) (fuel : Nat) (key : Int) (rid : RecordId)
    (s : BTreeIndex) :
    (insertEntry ly fuel key rid s).2.scanExecuting = s.scanExecuting := by
  unfold insertEntry
  simp only []
  split_ifs
  · rw [insertLeaf_scanExecuting]; rfl
  · split <;> rename_i heq <;>
      have h := congrArg (fun r => r.2.scanExecuting) heq <;>
      simp only [traversal_scanExecuting] at h
    · rw [insertLeaf_scanExecuting]; simpa using h.symm
    · simpa using h.symm
    · simpa using h.symm

theorem buildLoop_scanExecuting (ly : Layout) (fuel : Nat) (records : List (Int × RecordId)) :
    ∀ s, (buildLoop ly fuel records s).2.scanExecuting = s.scanExecuting := by
  induction records with
  | nil => intro s; rfl
  | cons r rest ih =>
    intro s
    obtain ⟨key, rid⟩ := r
    unfold buildLoop
    have he := insertEntry_scanExecuting ly fuel key rid s
    split
    · rename_i u s1 heq
      rw [heq] at he
      rw [ih]; simpa using he
    · exact he

/-- The constructor assigns a local `scanExecuting`, never the member. -/
theorem construct_scanExecuting (ly : Layout) (fuel : Nat) (self : BTreeIndex)
    (relation : Option (List (Int × RecordId))) (indexFile : Option BufMgr)
    (off leafSize nodeSize : Int) :
    (BTreeIndex.construct ly fuel self relation indexFile off leafSize nodeSize).2.scanExecuting
      = self.scanExecuting := by
  unfold BTreeIndex.construct
  simp only []
  cases relation with
  | none => rfl
  | some records =>
    cases indexFile with
    | some file => rfl
    | none =>
      simp only []
      split
      · rename_i u s9 heq
        have h := congrArg (fun r => r.2.scanExecuting) heq
        simp only [buildLoop_scanExecuting] at h
        simpa using h.symm
      · rw [buildLoop_scanExecuting]; rfl
/-- The loop of `scanNext` raises nothing but `IndexScanCompleted`. -/
theorem scanNextLoop_exc (ly : Layout) (fuel : Nat) :
    ∀ (s : BTreeIndex) (e : Exn), (scanNextLoop ly fuel s).1 = Res.exc e →
      e = Exn.IndexScanCompleted := by
  induction fuel with
  | zero => intro s e h; simp [scanNextLoop] at h
  | succ n ih =>
    intro s e
    unfold scanNextLoop
    simp only []
    split_ifs <;> first
      | exact ih _ e
      | (intro h; simp at h; exact h.symm)
      | (intro h; simp at h)

theorem scanNext_active_not_uninitialized (ly : Layout) (fuel : Nat) (s : BTreeIndex)
    (h : s.scanExecuting = true) :
    (scanNext ly fuel s).1 ≠ Res.exc Exn.ScanNotInitialized := by
  unfold scanNext
  rw [if_neg (by simp [h])]
  intro hc
  have := scanNextLoop_exc ly fuel _ _ hc
  simp at this

theorem endScan_active_ok (s : BTreeIndex) (h : s.scanExecuting = true) :
    (endScan s).1 = Res.ok () := by
  unfold endScan
  simp only [h]
  split_ifs <;> first | rfl | simp_all

/-- C5 (evaluated on the code): the constructor never assigns the member
`scanExecuting` (line 49 declares a local of that name), so the member keeps
what the object storage held. On storage where it reads true, neither
`scanNext` nor `endScan` on the just constructed index, built or reopened,
fails with `ScanNotInitialized`. -/
theorem C5_constructor_leaves_scanExecuting_unassigned (ly : Layout) (fuel fuel2 : Nat)
    (self : BTreeIndex) (records : List (Int × RecordId)) (indexFile : Option BufMgr)
    (off leafSize nodeSize : Int) :
    (BTreeIndex.construct ly fuel self (some records) indexFile off leafSize
        nodeSize).2.scanExecuting = self.scanExecuting ∧
    (scanNext ly fuel2 (BTreeIndex.construct ly fuel { self with scanExecuting := true }
        (some records) indexFile off leafSize nodeSize).2).1
      ≠ Res.exc Exn.ScanNotInitialized ∧
    (endScan (BTreeIndex.construct ly fuel { self with scanExecuting := true }
        (some records) indexFile off leafSize nodeSize).2).1 = Res.ok () :=
  ⟨construct_scanExecuting ly fuel self _ _ _ _ _,
   scanNext_active_not_uninitialized ly fuel2 _ (by rw [construct_scanExecuting]),
   endScan_active_ok _ (by rw [construct_scanExecuting])⟩

theorem scanNextLoop_stuck_GTE (ly : Layout) (s : BTreeIndex)
    (h1 : ¬ (s.nextEntry ≥ s.nodeOccupancy))
    (h2 : ((s.leafAt ly s.currentPageData).ridArray s.nextEntry).page_number ≠ 0)
    (h3 : s.lowOp = Operator.GTE)
    (h4 : ¬ ((s.leafAt ly s.currentPageData).keyArray s.nextEntry ≤ s.lowValInt)) :
    ∀ fuel, scanNextLoop ly fuel s = (Res.timeout, s) := by
  intro fuel
  induction fuel with
  | zero => rfl
  | succ n ih =>
    unfold scanNextLoop
    simp only [h3]
    rw [if_neg (by rintro (h | h); exact h1 h; exact h2 h)]
    simp [h4, ih]

/-- C7 (evaluated on the code): a leaf holding the one live key 5, the scan
positioned at it. With bounds `GTE 0, LT 3` the key violates the high bound,
yet `scanNext` never fails with `IndexScanCompleted`: it does not leave its
loop. With operators `LT, LT 100` the key satisfies the high bound, and
`scanNext` fails with `IndexScanCompleted`. -/
theorem C7_high_bound_test_is_inverted (ly : Layout) (fuel : Nat) :
    (scanNext ly fuel (positioned (freshIndex ly 10 BTreeIndex.zeroed [(5, ⟨3, 0⟩)])
        2 0 Operator.GTE 3 Operator.LT)).1 = Res.timeout ∧
    (scanNext ly (fuel + 1) (positioned (freshIndex ly 10 BTreeIndex.zeroed [(5, ⟨3, 0⟩)])
        2 0 Operator.LT 100 Operator.LT)).1 = Res.exc Exn.IndexScanCompleted := by
  constructor
  · unfold scanNext
    rw [if_neg (by simp [positioned])]
    simp only []
    rw [scanNextLoop_stuck_GTE]
    · show ¬ ((0 : Int) ≥ 3); decide
    · show (3 : Nat) ≠ 0; decide
    · rfl
    · show ¬ ((5 : Int) ≤ 0); decide
  · rfl

/-! ## Theorems: pins taken by the scan -/

theorem scanMoveTo_pinCnt (s : BTreeIndex) (next q : Nat) :
    (scanMoveTo s next).bufMgr.pinCnt q
      = if q = s.currentPageNum then
          (if s.currentPageNum = next then s.bufMgr.pinCnt next + 1
            else s.bufMgr.pinCnt s.currentPageNum) - 1
        else if q = next then s.bufMgr.pinCnt next + 1 else s.bufMgr.pinCnt q := by
  simp only [scanMoveTo, BTreeIndex.readPage, BTreeIndex.unPinPage, BufMgr.readPage,
    BufMgr.unPinPage, upd]

theorem scanMoveTo_currentPageNum (s : BTreeIndex) (next : Nat) :
    (scanMoveTo s next).currentPageNum = next := rfl

theorem scanMoveTo_scanPins (base : Nat → Nat) (hdr : Nat) (s : BTreeIndex)
    (next : Nat) (h : scanPins base hdr s) : scanPins base hdr (scanMoveTo s next) := by
  intro q
  have hq := h q
  have hc := h s.currentPageNum
  have hn := h next
  rw [scanMoveTo_pinCnt, scanMoveTo_currentPageNum]
  rw [if_pos rfl] at hc
  by_cases h1 : q = s.currentPageNum
  · subst h1
    by_cases h2 : s.currentPageNum = next
    · rw [if_pos rfl, if_pos h2, if_pos h2]
      rw [← h2, hc]; omega
    · rw [if_pos rfl, if_neg h2, if_neg h2, hc]; omega
  · rw [if_neg h1] at hq
    rw [if_neg h1]
    by_cases h2 : q = next
    · subst h2; rw [if_pos rfl, if_pos rfl, hq]
    · rw [if_neg h2, if_neg h2, hq]

theorem startScanDescend_scanPins (ly : Layout) (base : Nat → Nat) (hdr : Nat)
    (fuel : Nat) :
    ∀ s, scanPins base hdr s → scanPins base hdr (startScanDescend ly fuel s).2 := by
  induction fuel with
  | zero => intro s h; exact h
  | succ n ih =>
    intro s h
    unfold startScanDescend
    simp only []
    split_ifs
    · exact ih _ (scanMoveTo_scanPins base hdr s _ h)
    · exact scanMoveTo_scanPins base hdr s _ h

theorem startScan_scanPins (ly : Layout) (fuel : Nat) (lv hv : Int) (lo ho : Operator)
    (s : BTreeIndex) (hop : badOpcodes lo ho = false) :
    scanPins s.bufMgr.pinCnt s.headerPageNum (startScan ly fuel lv lo hv ho s).2 := by
  unfold startScan
  simp only [hop]
  apply startScanDescend_scanPins
  intro q
  simp only [BTreeIndex.readPage, BufMgr.readPage, upd]
  by_cases h1 : q = s.headerPageNum
  · subst h1; simp
  · simp [h1]

theorem startScanDescend_scanExecuting (ly : Layout) (fuel : Nat) :
    ∀ s : BTreeIndex, (startScanDescend ly fuel s).2.scanExecuting = s.scanExecuting := by
  induction fuel with
  | zero => intro s; rfl
  | succ n ih =>
    intro s
    unfold startScanDescend
    simp only []
    split_ifs
    · rw [ih]; rfl
    · rfl

theorem startScan_scanExecuting (ly : Layout) (fuel : Nat) (lv hv : Int) (lo ho : Operator)
    (s : BTreeIndex) : (startScan ly fuel lv lo hv ho s).2.scanExecuting = true := by
  unfold startScan
  simp only []
  split_ifs
  · rfl
  · rw [startScanDescend_scanExecuting]; rfl

theorem endScan_active_pinCnt (s : BTreeIndex) (h : s.scanExecuting = true) (q : Nat) :
    (endScan s).2.bufMgr.pinCnt q
      = if s.currentPageNum ≠ 0 ∧ q = s.currentPageNum then s.bufMgr.pinCnt q - 1
        else s.bufMgr.pinCnt q := by
  unfold endScan
  simp only [h]
  by_cases h0 : s.currentPageNum = 0
  · simp [h0]
  · by_cases hq : q = s.currentPageNum
    · subst hq
      simp [h0, BTreeIndex.unPinPage, BufMgr.unPinPage, upd]
    · simp [h0, hq, BTreeIndex.unPinPage, BufMgr.unPinPage, upd]

/-- C9 (evaluated on the code): `startScan` reads the header page twice (lines
733 and 738) and releases it at most once, as the page the descent leaves. So
whatever the outcome of a `startScan` with valid operators, every page holds
its old pin count, plus one if it is the header page, plus one if it is the
current page; and after the `endScan` that follows, the header page still holds
more pins than before `startScan`. -/
theorem C9_startScan_leaves_header_pinned (ly : Layout) (fuel : Nat) (lowVal highVal : Int)
    (s : BTreeIndex) :
    (∀ q, (startScan ly fuel lowVal Operator.GTE highVal Operator.LT s).2.bufMgr.pinCnt q
      = s.bufMgr.pinCnt q + (if q = s.headerPageNum then 1 else 0)
        + (if q = (startScan ly fuel lowVal Operator.GTE highVal
            Operator.LT s).2.currentPageNum then 1 else 0)) ∧
    (endScan (startScan ly fuel lowVal Operator.GTE highVal
        Operator.LT s).2).2.bufMgr.pinCnt s.headerPageNum
      > s.bufMgr.pinCnt s.headerPageNum := by
  have hp := startScan_scanPins ly fuel lowVal highVal Operator.GTE Operator.LT s rfl
  refine ⟨hp, ?_⟩
  rw [endScan_active_pinCnt _ (startScan_scanExecuting _ _ _ _ _ _ _)]
  have hh := hp s.headerPageNum
  rw [if_pos rfl] at hh
  by_cases hc : s.headerPageNum
      = (startScan ly fuel lowVal Operator.GTE highVal Operator.LT s).2.currentPageNum
  · rw [if_pos hc] at hh
    split_ifs <;> omega
  · rw [if_neg (fun h => hc h.2)]
    omega

/-! ## Theorems: closed form of a leaf split -/

@[simp] theorem upd_same {α β : Type} [DecidableEq α] (f : α → β) (a : α) (b : β) :
    upd f a b a = b := by simp [upd]

theorem upd_other {α β : Type} [DecidableEq α] (f : α → β) (a x : α) (b : β) (h : x ≠ a) :
    upd f a b x = f x := by simp [upd, h]

@[simp] theorem upd_upd {α β : Type} [DecidableEq α] (f : α → β) (a : α) (b c : β) :
    upd (upd f a b) a c = upd f a c := by
  funext x; by_cases h : x = a <;> simp [upd, h]

theorem copyResult_zero (L R : LeafNodeInt) (i : Int) : copyResult L R 0 i = R := by
  unfold copyResult
  have e1 : (fun x => if R.slot ≤ x ∧ x < R.slot + ((0 : Nat) : Int)
      then L.keyArray (i + (x - R.slot)) else R.keyArray x) = R.keyArray := by
    funext x; rw [if_neg]; omega
  have e2 : (fun x => if R.slot ≤ x ∧ x < R.slot + ((0 : Nat) : Int)
      then L.ridArray (i + (x - R.slot)) else R.ridArray x) = R.ridArray := by
    funext x; rw [if_neg]; omega
  rw [e1, e2]; simp

theorem copyResult_succ (L R : LeafNodeInt) (n : Nat) (i : Int) :
    copyResult L
      { R with slot := R.slot + 1, keyArray := upd R.keyArray R.slot (L.keyArray i),
               ridArray := upd R.ridArray R.slot (L.ridArray i) } n (i + 1)
      = copyResult L R (n + 1) i := by
  unfold copyResult
  simp only [LeafNodeInt.mk.injEq, and_true]
  refine ⟨by push_cast; ring, ?_, ?_⟩
  · funext x
    by_cases h1 : x = R.slot
    · subst h1
      rw [if_neg (by omega), if_pos (by push_cast; omega), upd_same]
      congr 1; omega
    · rw [upd_other _ _ _ _ h1]
      by_cases h2 : R.slot + 1 ≤ x ∧ x < R.slot + 1 + (n : Int)
      · rw [if_pos h2, if_pos (by push_cast; omega)]
        congr 1; omega
      · rw [if_neg h2, if_neg (by push_cast; omega)]
  · funext x
    by_cases h1 : x = R.slot
    · subst h1
      rw [if_neg (by omega), if_pos (by push_cast; omega), upd_same]
      congr 1; omega
    · rw [upd_other _ _ _ _ h1]
      by_cases h2 : R.slot + 1 ≤ x ∧ x < R.slot + 1 + (n : Int)
      · rw [if_pos h2, if_pos (by push_cast; omega)]
        congr 1; omega
      · rw [if_neg h2, if_neg (by push_cast; omega)]

theorem withPages_self (s : BTreeIndex) : s.withPages s.bufMgr.pages = s := rfl

theorem upd_self {α β : Type} [DecidableEq α] (f : α → β) (a : α) (b : β) (h : f a = b) :
    upd f a b = f := by
  funext x; by_cases hx : x = a
  · subst hx; rw [upd_same, h]
  · rw [upd_other _ _ _ _ hx]

theorem splitLeafCopy_eq (ly : Layout) (leafNum newLeaf : Nat) (hne : newLeaf ≠ leafNum)
    (L : LeafNodeInt) (n : Nat) :
    ∀ (i : Int) (s : BTreeIndex) (R : LeafNodeInt),
      s.bufMgr.pages leafNum = Page.leaf L → s.bufMgr.pages newLeaf = Page.leaf R →
      splitLeafCopy ly leafNum newLeaf n i s
        = s.withPages (upd s.bufMgr.pages newLeaf (Page.leaf (copyResult L R n i))) := by
  induction n with
  | zero =>
    intro i s R hL hR
    rw [copyResult_zero, upd_self _ _ _ hR]
    rfl
  | succ n ih =>
    intro i s R hL hR
    unfold splitLeafCopy
    simp only []
    have hs2 : setLeafSlot ly (insertLeafData ly s newLeaf
          ((s.leafAt ly leafNum).keyArray i) ((s.leafAt ly leafNum).ridArray i)) newLeaf
          (((insertLeafData ly s newLeaf ((s.leafAt ly leafNum).keyArray i)
            ((s.leafAt ly leafNum).ridArray i)).leafAt ly newLeaf).slot + 1)
        = s.withPages (upd s.bufMgr.pages newLeaf (Page.leaf
            { R with slot := R.slot + 1, keyArray := upd R.keyArray R.slot (L.keyArray i),
                     ridArray := upd R.ridArray R.slot (L.ridArray i) })) := by
      simp [setLeafSlot, insertLeafData, BTreeIndex.leafAt, BTreeIndex.write, BufMgr.write,
        BTreeIndex.withPages, hL, hR, Page.asLeaf]
    rw [hs2, ih (i + 1) _ _ (by
      show upd s.bufMgr.pages newLeaf _ leafNum = _
      rw [upd_other _ _ _ _ (Ne.symm hne), hL]) (by
      show upd s.bufMgr.pages newLeaf _ newLeaf = _
      rw [upd_same]), copyResult_succ]
    simp [BTreeIndex.withPages]

theorem splitLeafMove_eq (ly : Layout) (s : BTreeIndex) (leafNum : Nat)
    (key : Int) (rid : RecordId) (L : LeafNodeInt)
    (hL : s.bufMgr.pages leafNum = Page.leaf L)
    (h1 : leafNum ≤ s.bufMgr.numPages) :
    splitLeafMove ly leafNum key rid s
      = (s.bufMgr.numPages + 1,
          { s with bufMgr :=
            { pages := upd (upd s.bufMgr.pages (s.bufMgr.numPages + 1)
                  (Page.leaf (splitRight s.leafOccupancy L key rid)))
                leafNum (Page.leaf (splitLeft s.leafOccupancy L key rid (s.bufMgr.numPages + 1)))
              pinCnt := upd (upd s.bufMgr.pinCnt leafNum (s.bufMgr.pinCnt leafNum + 1))
                (s.bufMgr.numPages + 1) (s.bufMgr.pinCnt (s.bufMgr.numPages + 1) + 1)
              numPages := s.bufMgr.numPages + 1 } }) := by
  have hr : s.bufMgr.numPages + 1 ≠ leafNum := by omega
  have e3 : setLeafSlot ly (s.readPage leafNum).allocPage.2 (s.readPage leafNum).allocPage.1 0
      = { s with bufMgr :=
            { pages := upd s.bufMgr.pages (s.bufMgr.numPages + 1) (Page.leaf zeroLeaf)
              pinCnt := upd (upd s.bufMgr.pinCnt leafNum (s.bufMgr.pinCnt leafNum + 1))
                (s.bufMgr.numPages + 1) (s.bufMgr.pinCnt (s.bufMgr.numPages + 1) + 1)
              numPages := s.bufMgr.numPages + 1 } } := by
    simp [setLeafSlot, BTreeIndex.readPage, BTreeIndex.allocPage, BufMgr.readPage,
      BufMgr.allocPage, BTreeIndex.write, BufMgr.write, BTreeIndex.leafAt, Page.asLeaf,
      upd_other _ _ _ _ hr, zeroLeaf]
  have ea : (s.readPage leafNum).allocPage.1 = s.bufMgr.numPages + 1 := rfl
  unfold splitLeafMove
  simp only []
  rw [e3, ea]
  rw [splitLeafCopy_eq ly leafNum _ hr L _ _ _ zeroLeaf
    (by show upd s.bufMgr.pages _ _ leafNum = _; rw [upd_other _ _ _ _ (Ne.symm hr), hL])
    (by show upd s.bufMgr.pages _ _ (s.bufMgr.numPages + 1) = _; rw [upd_same])]
  have eL : (BTreeIndex.leafAt ly
      { s with bufMgr :=
            { pages := upd s.bufMgr.pages (s.bufMgr.numPages + 1) (Page.leaf zeroLeaf)
              pinCnt := upd (upd s.bufMgr.pinCnt leafNum (s.bufMgr.pinCnt leafNum + 1))
                (s.bufMgr.numPages + 1) (s.bufMgr.pinCnt (s.bufMgr.numPages + 1) + 1)
              numPages := s.bufMgr.numPages + 1 } } leafNum) = L := by
    show (upd s.bufMgr.pages _ _ leafNum).asLeaf ly = L
    rw [upd_other _ _ _ _ (Ne.symm hr), hL]; rfl
  rw [eL]
  by_cases hk : key < (copyResult L zeroLeaf (L.slot - Int.tdiv s.leafOccupancy 2).toNat
      (Int.tdiv s.leafOccupancy 2)).keyArray 0
  · simp [setLeafSib, setLeafSlot, insertLeafData, BTreeIndex.leafAt, BTreeIndex.write,
      BufMgr.write, BTreeIndex.withPages, Page.asLeaf, upd_other _ _ _ _ hr,
      upd_other _ _ _ _ (Ne.symm hr), splitLeft, splitRight, hL, copiedHalf, hk]
    funext q
    simp only [upd]
    split_ifs <;> rfl
  · simp [setLeafSib, setLeafSlot, insertLeafData, BTreeIndex.leafAt, BTreeIndex.write,
      BufMgr.write, BTreeIndex.withPages, Page.asLeaf, upd_other _ _ _ _ hr,
      upd_other _ _ _ _ (Ne.symm hr), splitLeft, splitRight, hL, copiedHalf, hk]
    funext q
    simp only [upd]
    split_ifs <;> rfl

/-- Closed form of the non-leaf page `splitLeaf` allocates, before line 697
stores the left child: `insertNodeData` puts key and page number at index 0. -/
theorem splitLeafNewNode_eq (ly : Layout) (t : BTreeIndex) (leafNum r : Nat)
    (hr : r ≤ t.bufMgr.numPages) :
    splitLeafNewNode ly leafNum r t
      = (t.bufMgr.numPages + 1,
          { t with bufMgr :=
            { pages := upd t.bufMgr.pages (t.bufMgr.numPages + 1)
                (Page.node { level := 1, slot := 1,
                             keyArray := upd (fun _ => 0) 0 ((t.leafAt ly r).keyArray 0),
                             pageNoArray := upd (fun _ => 0) 0 r })
              pinCnt := ((t.bufMgr.allocPage.2.unPinPage r).unPinPage leafNum).pinCnt
              numPages := t.bufMgr.numPages + 1 } }) := by
  have hne : r ≠ t.bufMgr.numPages + 1 := by omega
  unfold splitLeafNewNode
  simp [setNodeLevel, setNodeSlot, insertNodeData, BTreeIndex.nodeAt, BTreeIndex.leafAt,
    BTreeIndex.write, BufMgr.write, BTreeIndex.allocPage, BufMgr.allocPage,
    BTreeIndex.unPinPage, BufMgr.unPinPage, Page.asNode, zeroNode, upd_other _ _ _ _ hne]

/-- The last part of `splitLeaf` reads its reference once, at line 697, after
`rootPageNum` has become `nonleafPageid`. -/
theorem splitLeafRoot_ref (ly : Layout) (fuel : Nat) (r : PageRef) (p : Nat) (t : BTreeIndex) :
    splitLeafRoot ly fuel r p t
      = splitLeafRoot ly fuel (PageRef.localVar (r.get { t with rootPageNum := p })) p t := by
  cases r with
  | localVar q => rfl
  | rootMember =>
    unfold splitLeafRoot
    simp only []
    split_ifs <;> rfl

/-- What is read through a reference depends on `rootPageNum` only. -/
theorem PageRef.get_congr (r : PageRef) (s t : BTreeIndex)
    (h : s.rootPageNum = t.rootPageNum) : r.get s = r.get t := by
  cases r with
  | localVar q => rfl
  | rootMember => exact h

/-- Closed form of the three parts of `splitLeaf` on a full root leaf, with `v`
the page number stored at line 697. -/
theorem splitLeafParts_rootLeaf_eq (ly : Layout) (fuel : Nat) (s : BTreeIndex) (leafNum : Nat)
    (key : Int) (rid : RecordId) (L : LeafNodeInt) (m : IndexMetaInfo) (v : Nat)
    (hL : s.bufMgr.pages leafNum = Page.leaf L)
    (hM : s.bufMgr.pages s.headerPageNum = Page.meta m)
    (hroot : m.rootLeaf = true)
    (h1 : leafNum ≤ s.bufMgr.numPages) (h2 : s.headerPageNum ≤ s.bufMgr.numPages)
    (h3 : leafNum ≠ s.headerPageNum) :
    splitLeafRoot ly fuel (PageRef.localVar v)
        (splitLeafNewNode ly leafNum (splitLeafMove ly leafNum key rid s).1
          (splitLeafMove ly leafNum key rid s).2).1
        (splitLeafNewNode ly leafNum (splitLeafMove ly leafNum key rid s).1
          (splitLeafMove ly leafNum key rid s).2).2
      = (Res.ok (),
          { s with
            rootPageNum := s.bufMgr.numPages + 2,
            bufMgr :=
            { pages :=
                upd (upd (upd (upd s.bufMgr.pages
                  (s.bufMgr.numPages + 1) (Page.leaf (splitRight s.leafOccupancy L key rid)))
                  leafNum (Page.leaf (splitLeft s.leafOccupancy L key rid (s.bufMgr.numPages + 1))))
                  (s.bufMgr.numPages + 2)
                    (Page.node
                      { level := 1, slot := 1,
                        keyArray := upd (fun _ => 0) 0
                          ((splitRight s.leafOccupancy L key rid).keyArray 0),
                        pageNoArray := upd (fun _ => 0) 0 v }))
                  s.headerPageNum
                    (Page.meta { m with rootLeaf := false, rootPageNo := s.bufMgr.numPages + 2 }),
              pinCnt := s.bufMgr.pinCnt,
              numPages := s.bufMgr.numPages + 2 } }) := by
  have hr : s.bufMgr.numPages + 1 ≠ leafNum := by omega
  have hp : s.bufMgr.numPages + 1 + 1 ≠ leafNum := by omega
  have hrh : s.bufMgr.numPages + 1 ≠ s.headerPageNum := by omega
  have hph : s.bufMgr.numPages + 1 + 1 ≠ s.headerPageNum := by omega
  rw [splitLeafMove_eq ly s leafNum key rid L hL h1]
  simp only []
  rw [splitLeafNewNode_eq ly _ leafNum (s.bufMgr.numPages + 1) (Nat.le_refl _)]
  simp only []
  unfold splitLeafRoot
  have hrp : s.bufMgr.numPages + 1 ≠ s.bufMgr.numPages + 1 + 1 := by omega
  simp [setMeta, setNodePageNo, BTreeIndex.metaAt, BTreeIndex.nodeAt, BTreeIndex.leafAt,
    BTreeIndex.write, BufMgr.write, BTreeIndex.readPage, BufMgr.readPage,
    BTreeIndex.unPinPage, BufMgr.unPinPage, BufMgr.allocPage, Page.asMeta, Page.asNode,
    Page.asLeaf, PageRef.get, upd_other _ _ _ _ hr, upd_other _ _ _ _ (Ne.symm hr),
    upd_other _ _ _ _ hp, upd_other _ _ _ _ (Ne.symm hp),
    upd_other _ _ _ _ hrh, upd_other _ _ _ _ (Ne.symm hrh),
    upd_other _ _ _ _ hph, upd_other _ _ _ _ (Ne.symm hph),
    upd_other _ _ _ _ hrp, upd_other _ _ _ _ (Ne.symm hrp),
    upd_other _ _ _ _ h3, upd_other _ _ _ _ (Ne.symm h3), hM, hroot]
  constructor
  · funext q
    simp only [upd]
    split_ifs <;> first | rfl | simp_all
  · funext q
    simp only [upd]
    split_ifs <;> first | rfl | simp_all

/-- Closed form of `splitLeaf` on a full root leaf: the state it returns. The
page number stored in `pageNoArray[0]` of the new root is the one read through
the reference `r` once `rootPageNum` is the new root: the page number of the
new root itself when `r` is the member `rootPageNum`. -/
theorem splitLeaf_rootLeaf_eq (ly : Layout) (fuel : Nat) (s : BTreeIndex) (leafNum : Nat)
    (r : PageRef) (key : Int) (rid : RecordId) (L : LeafNodeInt) (m : IndexMetaInfo)
    (hr : r.get s = leafNum)
    (hL : s.bufMgr.pages leafNum = Page.leaf L)
    (hM : s.bufMgr.pages s.headerPageNum = Page.meta m)
    (hroot : m.rootLeaf = true)
    (h1 : leafNum ≤ s.bufMgr.numPages) (h2 : s.headerPageNum ≤ s.bufMgr.numPages)
    (h3 : leafNum ≠ s.headerPageNum) :
    splitLeaf ly fuel r key rid s
      = (Res.ok (),
          { s with
            rootPageNum := s.bufMgr.numPages + 2,
            bufMgr :=
            { pages :=
                upd (upd (upd (upd s.bufMgr.pages
                  (s.bufMgr.numPages + 1) (Page.leaf (splitRight s.leafOccupancy L key rid)))
                  leafNum (Page.leaf (splitLeft s.leafOccupancy L key rid (s.bufMgr.numPages + 1))))
                  (s.bufMgr.numPages + 2)
                    (Page.node
                      { level := 1, slot := 1,
                        keyArray := upd (fun _ => 0) 0
                          ((splitRight s.leafOccupancy L key rid).keyArray 0),
                        pageNoArray := upd (fun _ => 0) 0
                          (r.get { s with rootPageNum := s.bufMgr.numPages + 2 }) }))
                  s.headerPageNum
                    (Page.meta { m with rootLeaf := false, rootPageNo := s.bufMgr.numPages + 2 }),
              pinCnt := s.bufMgr.pinCnt,
              numPages := s.bufMgr.numPages + 2 } }) := by
  have hP : (splitLeafNewNode ly leafNum (splitLeafMove ly leafNum key rid s).1
      (splitLeafMove ly leafNum key rid s).2).1 = s.bufMgr.numPages + 2 := by
    rw [splitLeafMove_eq ly s leafNum key rid L hL h1]
    simp only []
    rw [splitLeafNewNode_eq ly _ leafNum (s.bufMgr.numPages + 1) (Nat.le_refl _)]
  have hv : r.get { (splitLeafNewNode ly leafNum (splitLeafMove ly leafNum key rid s).1
        (splitLeafMove ly leafNum key rid s).2).2 with
        rootPageNum := (splitLeafNewNode ly leafNum (splitLeafMove ly leafNum key rid s).1
          (splitLeafMove ly leafNum key rid s).2).1 }
      = r.get { s with rootPageNum := s.bufMgr.numPages + 2 } :=
    PageRef.get_congr r _ _ hP
  rw [splitLeaf_eq, hr, splitLeafRoot_ref, hv]
  exact splitLeafParts_rootLeaf_eq ly fuel s leafNum key rid L m _ hL hM hroot h1 h2 h3

theorem copiedHalf_slot (occ : Int) (L : LeafNodeInt) :
    (copiedHalf occ L).slot = ((L.slot - Int.tdiv occ 2).toNat : Int) := by
  simp [copiedHalf, copyResult, zeroLeaf]

theorem copiedHalf_keyArray (occ : Int) (L : LeafNodeInt) (x : Int) :
    (copiedHalf occ L).keyArray x
      = if 0 ≤ x ∧ x < ((L.slot - Int.tdiv occ 2).toNat : Int) then
          L.keyArray (Int.tdiv occ 2 + x) else 0 := by
  simp [copiedHalf, copyResult, zeroLeaf]

theorem splitLeft_rightSib (occ : Int) (L : LeafNodeInt) (key : Int) (rid : RecordId)
    (r : Nat) : (splitLeft occ L key rid r).rightSibPageNo = r := by
  unfold splitLeft; split_ifs <;> rfl

/-- C2 (evaluated on the code): insert key 10, then key 5, into a fresh index.
`insertLeafData` stores at index `slot`, so the root leaf holds 10 at index 0
and 5 at index 1: its live keys are not non-decreasing. -/
theorem C2_insertLeaf_appends_unsorted (ly : Layout) (fuel : Nat) :
    ((freshIndex ly fuel BTreeIndex.zeroed [(10, ⟨1, 0⟩), (5, ⟨3, 0⟩)]).leafAt ly 2).slot = 2 ∧
    ((freshIndex ly fuel BTreeIndex.zeroed [(10, ⟨1, 0⟩), (5, ⟨3, 0⟩)]).leafAt ly 2).keyArray 0
      = 10 ∧
    ((freshIndex ly fuel BTreeIndex.zeroed [(10, ⟨1, 0⟩), (5, ⟨3, 0⟩)]).leafAt ly 2).keyArray 1
      = 5 :=
  ⟨rfl, rfl, rfl⟩

/-! ## Theorems: pins held across `insertEntry` -/

section PinFrame
variable (ly : Layout) (s : BTreeIndex) (p : Nat)
@[simp] theorem write_pinCnt (c : Page) : (s.write p c).bufMgr.pinCnt = s.bufMgr.pinCnt := rfl
@[simp] theorem write_numPages (c : Page) : (s.write p c).bufMgr.numPages = s.bufMgr.numPages := rfl
@[simp] theorem deletePage_pinCnt : (s.deletePage p).bufMgr.pinCnt = s.bufMgr.pinCnt := rfl
@[simp] theorem deletePage_numPages : (s.deletePage p).bufMgr.numPages = s.bufMgr.numPages := rfl
@[simp] theorem insertLeafData_pinCnt (k : Int) (r : RecordId) :
    (insertLeafData ly s p k r).bufMgr.pinCnt = s.bufMgr.pinCnt := rfl
@[simp] theorem insertLeafData_numPages (k : Int) (r : RecordId) :
    (insertLeafData ly s p k r).bufMgr.numPages = s.bufMgr.numPages := rfl
@[simp] theorem insertNodeData_pinCnt (k : Int) (q : Nat) :
    (insertNodeData ly s p k q).bufMgr.pinCnt = s.bufMgr.pinCnt := rfl
@[simp] theorem insertNodeData_numPages (k : Int) (q : Nat) :
    (insertNodeData ly s p k q).bufMgr.numPages = s.bufMgr.numPages := rfl
@[simp] theorem setLeafSlot_pinCnt (v : Int) :
    (setLeafSlot ly s p v).bufMgr.pinCnt = s.bufMgr.pinCnt := rfl
@[simp] theorem setLeafSlot_numPages (v : Int) :
    (setLeafSlot ly s p v).bufMgr.numPages = s.bufMgr.numPages := rfl
@[simp] theorem setLeafSib_pinCnt (v : Nat) :
    (setLeafSib ly s p v).bufMgr.pinCnt = s.bufMgr.pinCnt := rfl
@[simp] theorem setLeafSib_numPages (v : Nat) :
    (setLeafSib ly s p v).bufMgr.numPages = s.bufMgr.numPages := rfl
@[simp] theorem setNodeSlot_pinCnt (v : Int) :
    (setNodeSlot ly s p v).bufMgr.pinCnt = s.bufMgr.pinCnt := rfl
@[simp] theorem setNodeSlot_numPages (v : Int) :
    (setNodeSlot ly s p v).bufMgr.numPages = s.bufMgr.numPages := rfl
@[simp] theorem setNodeLevel_pinCnt (v : Int) :
    (setNodeLevel ly s p v).bufMgr.pinCnt = s.bufMgr.pinCnt := rfl
@[simp] theorem setNodeLevel_numPages (v : Int) :
    (setNodeLevel ly s p v).bufMgr.numPages = s.bufMgr.numPages := rfl
@[simp] theorem setNodePageNo_pinCnt (i : Int) (v : Nat) :
    (setNodePageNo ly s p i v).bufMgr.pinCnt = s.bufMgr.pinCnt := rfl
@[simp] theorem setNodePageNo_numPages (i : Int) (v : Nat) :
    (setNodePageNo ly s p i v).bufMgr.numPages = s.bufMgr.numPages := rfl
@[simp] theorem setMeta_pinCnt (m : IndexMetaInfo) :
    (setMeta s p m).bufMgr.pinCnt = s.bufMgr.pinCnt := rfl
@[simp] theorem setMeta_numPages (m : IndexMetaInfo) :
    (setMeta s p m).bufMgr.numPages = s.bufMgr.numPages := rfl
theorem readPage_pinCnt (q : Nat) :
    (s.readPage p).bufMgr.pinCnt q = s.bufMgr.pinCnt q + (if q = p then 1 else 0) := by
  simp only [BTreeIndex.readPage, BufMgr.readPage, upd]
  split_ifs with h
  · rw [h]
  · rfl
@[simp] theorem readPage_numPages : (s.readPage p).bufMgr.numPages = s.bufMgr.numPages := rfl
theorem unPinPage_pinCnt (q : Nat) :
    (s.unPinPage p).bufMgr.pinCnt q = s.bufMgr.pinCnt q - (if q = p then 1 else 0) := by
  simp only [BTreeIndex.unPinPage, BufMgr.unPinPage, upd]
  split_ifs with h
  · rw [h]
  · rfl
@[simp] theorem unPinPage_numPages : (s.unPinPage p).bufMgr.numPages = s.bufMgr.numPages := rfl
@[simp] theorem allocPage_fst : s.allocPage.1 = s.bufMgr.numPages + 1 := rfl
theorem allocPage_pinCnt (q : Nat) :
    s.allocPage.2.bufMgr.pinCnt q
      = s.bufMgr.pinCnt q + (if q = s.bufMgr.numPages + 1 then 1 else 0) := by
  simp only [BTreeIndex.allocPage, BufMgr.allocPage, upd]
  split_ifs with h
  · rw [h]
  · rfl
@[simp] theorem allocPage_numPages : s.allocPage.2.bufMgr.numPages = s.bufMgr.numPages + 1 := rfl
@[simp] theorem readPage_headerPageNum :
    (s.readPage p).headerPageNum = s.headerPageNum := rfl
@[simp] theorem unPinPage_headerPageNum :
    (s.unPinPage p).headerPageNum = s.headerPageNum := rfl
@[simp] theorem readPage_rootPageNum : (s.readPage p).rootPageNum = s.rootPageNum := rfl
@[simp] theorem unPinPage_rootPageNum : (s.unPinPage p).rootPageNum = s.rootPageNum := rfl
end PinFrame

theorem splitLeafCopy_pinCnt (ly : Layout) (a b : Nat) (n : Nat) :
    ∀ i s, (splitLeafCopy ly a b n i s).bufMgr.pinCnt = s.bufMgr.pinCnt
      ∧ (splitLeafCopy ly a b n i s).bufMgr.numPages = s.bufMgr.numPages := by
  induction n with
  | zero => intro i s; exact ⟨rfl, rfl⟩
  | succ n ih =>
    intro i s; unfold splitLeafCopy; simp only []
    obtain ⟨h1, h2⟩ := ih (i + 1) (setLeafSlot ly (insertLeafData ly s b
      ((s.leafAt ly a).keyArray i) ((s.leafAt ly a).ridArray i)) b
        (((insertLeafData ly s b ((s.leafAt ly a).keyArray i)
          ((s.leafAt ly a).ridArray i)).leafAt ly b).slot + 1))
    exact ⟨h1, h2⟩

theorem splitNonCopy_pinCnt (ly : Layout) (a b : Nat) (n : Nat) :
    ∀ i s, (splitNonCopy ly a b n i s).bufMgr.pinCnt = s.bufMgr.pinCnt
      ∧ (splitNonCopy ly a b n i s).bufMgr.numPages = s.bufMgr.numPages := by
  induction n with
  | zero => intro i s; exact ⟨rfl, rfl⟩
  | succ n ih =>
    intro i s; unfold splitNonCopy; simp only []
    obtain ⟨h1, h2⟩ := ih (i + 1) (setNodeSlot ly (insertNodeData ly s b
      ((s.nodeAt ly a).keyArray i) ((s.nodeAt ly a).pageNoArray i)) b
        (((insertNodeData ly s b ((s.nodeAt ly a).keyArray i)
          ((s.nodeAt ly a).pageNoArray i)).nodeAt ly b).slot + 1))
    exact ⟨h1, h2⟩

theorem insertNonLeafFor_pinCnt (ly : Layout) (a : Nat) (n : Nat) :
    ∀ j s, (insertNonLeafFor ly a n j s).2.bufMgr.pinCnt = s.bufMgr.pinCnt
      ∧ (insertNonLeafFor ly a n j s).2.bufMgr.numPages = s.bufMgr.numPages := by
  induction n with
  | zero => intro j s; exact ⟨rfl, rfl⟩
  | succ n ih =>
    intro j s; unfold insertNonLeafFor; simp only []
    split_ifs
    · obtain ⟨h1, h2⟩ := ih (j + 1) (setNodeSlot ly (insertNodeData ly s a
        ((s.nodeAt ly a).keyArray j) ((s.nodeAt ly a).pageNoArray (j + 1))) a
          (((insertNodeData ly s a ((s.nodeAt ly a).keyArray j)
            ((s.nodeAt ly a).pageNoArray (j + 1))).nodeAt ly a).slot + 1))
      exact ⟨h1, h2⟩
    · exact ⟨rfl, rfl⟩

theorem PinsKept.refl (q : Nat) (s : BTreeIndex) : PinsKept q s s := ⟨le_refl _, le_refl _⟩

theorem PinsKept.trans {q : Nat} {s t u : BTreeIndex} (h1 : PinsKept q s t)
    (h2 : PinsKept q t u) : PinsKept q s u :=
  ⟨le_trans h1.1 h2.1, le_trans h1.2 h2.2⟩

theorem parentSearch_pinsKept (ly : Layout) (key level : Int) (fuel : Nat) (q : Nat) :
    ∀ root s, PinsKept q s (parentSearch ly key level fuel root s).2 := by
  induction fuel with
  | zero => intro root s; exact PinsKept.refl q s
  | succ n ih =>
    intro root s
    have hstep : PinsKept q s (((s.readPage s.headerPageNum).readPage root).unPinPage root) := by
      constructor
      · simp only [readPage_pinCnt, unPinPage_pinCnt, readPage_headerPageNum]
        split_ifs <;> (try subst_vars) <;> omega
      · simp
    unfold parentSearch
    simp only []
    split_ifs
    · constructor
      · simp only [readPage_pinCnt, unPinPage_pinCnt, readPage_headerPageNum]
        split_ifs <;> (try subst_vars) <;> omega
      · simp
    · exact hstep
    · exact PinsKept.trans hstep (ih _ _)
    · constructor
      · simp only [readPage_pinCnt, unPinPage_pinCnt, readPage_headerPageNum]
        split_ifs <;> (try subst_vars) <;> omega
      · simp

theorem splitNonMove_pins (ly : Layout) (a : Nat) (s : BTreeIndex) :
    (splitNonMove ly a s).1 = (s.bufMgr.numPages + 1, s.bufMgr.numPages + 2) ∧
    (splitNonMove ly a s).2.bufMgr.pinCnt
      = ((s.readPage a).allocPage.2.allocPage.2).bufMgr.pinCnt ∧
    (splitNonMove ly a s).2.bufMgr.numPages = s.bufMgr.numPages + 2 := by
  unfold splitNonMove
  simp only []
  refine ⟨rfl, ?_, ?_⟩
  · rw [setNodeSlot_pinCnt, (splitNonCopy_pinCnt _ _ _ _ _ _).1]; rfl
  · rw [setNodeSlot_numPages, (splitNonCopy_pinCnt _ _ _ _ _ _).2]; rfl

theorem splitNonParent_pins (ly : Layout) (a b c : Nat) (s : BTreeIndex) :
    (splitNonParent ly a b c s).bufMgr.pinCnt = (s.unPinPage b).bufMgr.pinCnt ∧
    (splitNonParent ly a b c s).bufMgr.numPages = s.bufMgr.numPages := ⟨rfl, rfl⟩

theorem splitNonInsert_pins (ly : Layout) (a b c : Nat) (s : BTreeIndex) :
    (splitNonInsert ly a b c s).bufMgr.pinCnt
      = ((((s.readPage c).unPinPage a).unPinPage b).unPinPage c).bufMgr.pinCnt ∧
    (splitNonInsert ly a b c s).bufMgr.numPages = s.bufMgr.numPages := ⟨rfl, rfl⟩

theorem splitNon_eq (ly : Layout)
    (k : Nat → Int → BTreeIndex → Res Unit × BTreeIndex) (a b : Nat) (s : BTreeIndex) :
    splitNon ly k a b s
      = k (splitNonMove ly a s).1.1
          (((splitNonInsert ly a (splitNonMove ly a s).1.2 b
              (splitNonParent ly a (splitNonMove ly a s).1.1 (splitNonMove ly a s).1.2
                (splitNonMove ly a s).2)).nodeAt ly (splitNonMove ly a s).1.1).level)
          (splitNonInsert ly a (splitNonMove ly a s).1.2 b
              (splitNonParent ly a (splitNonMove ly a s).1.1 (splitNonMove ly a s).1.2
                (splitNonMove ly a s).2)) := rfl

theorem splitNon_pinsKept (ly : Layout)
    (k : Nat → Int → BTreeIndex → Res Unit × BTreeIndex) (q : Nat)
    (hk : ∀ c l t, q ≠ c → q ≤ t.bufMgr.numPages → PinsKept q t (k c l t).2)
    (a b : Nat) (s : BTreeIndex) (hq : q ≤ s.bufMgr.numPages) :
    PinsKept q s (splitNon ly k a b s).2 := by
  obtain ⟨hm1, hm2, hm3⟩ := splitNonMove_pins ly a s
  rw [splitNon_eq]
  refine PinsKept.trans ?_ (hk _ _ _ ?_ ?_)
  · constructor
    · rw [(splitNonInsert_pins _ _ _ _ _).1]
      simp only [readPage_pinCnt, unPinPage_pinCnt, allocPage_pinCnt,
        (splitNonParent_pins _ _ _ _ _).1, hm2, hm1, allocPage_numPages, readPage_numPages]
      split_ifs <;> omega
    · rw [(splitNonInsert_pins _ _ _ _ _).2, (splitNonParent_pins _ _ _ _ _).2, hm3]; omega
  · rw [hm1]; show q ≠ s.bufMgr.numPages + 1; omega
  · rw [(splitNonInsert_pins _ _ _ _ _).2, (splitNonParent_pins _ _ _ _ _).2, hm3]; omega

theorem insertNonLeaf_pinsKept (ly : Layout) (q : Nat) (fuel : Nat) :
    ∀ nodeID level s, q ≠ nodeID → q ≤ s.bufMgr.numPages →
      PinsKept q s (insertNonLeaf ly fuel nodeID level s).2 := by
  induction fuel with
  | zero => intro nodeID level s _ _; exact PinsKept.refl q s
  | succ n ih =>
    intro nodeID level s hne hq
    unfold insertNonLeaf
    simp only []
    split_ifs
    · constructor
      · show s.bufMgr.pinCnt q ≤ ((((s.readPage s.rootPageNum).readPage
          s.headerPageNum).unPinPage s.headerPageNum).unPinPage nodeID).bufMgr.pinCnt q
        simp only [unPinPage_pinCnt, readPage_pinCnt, if_neg hne]
        split_ifs <;> omega
      · exact le_refl _
    · have h2 : PinsKept q s ((s.readPage s.rootPageNum).readPage nodeID) := by
        constructor
        · simp only [readPage_pinCnt]; omega
        · exact le_refl _
      split
      · rename_i parentID s3 heq
        have hps : PinsKept q ((s.readPage s.rootPageNum).readPage nodeID) s3 := by
          have := parentSearch_pinsKept ly
            ((((s.readPage s.rootPageNum).readPage nodeID).nodeAt ly nodeID).keyArray 0)
            level n q ((s.readPage s.rootPageNum).readPage nodeID).rootPageNum
            ((s.readPage s.rootPageNum).readPage nodeID)
          rw [heq] at this
          exact this
        have h3 := PinsKept.trans h2 hps
        split_ifs
        · have hfor := insertNonLeafFor_pinCnt ly nodeID n 0
            (setNodePageNo ly (s3.readPage parentID) parentID
              ((s3.readPage parentID).nodeAt ly parentID).slot
              (((s3.readPage parentID).nodeAt ly nodeID).pageNoArray 0))
          split
          · rename_i u s6 heq2
            rw [heq2] at hfor
            refine PinsKept.trans h3 ⟨?_, ?_⟩
            · simp only [deletePage_pinCnt, unPinPage_pinCnt, if_neg hne]
              rw [hfor.1, setNodePageNo_pinCnt, readPage_pinCnt]
              split_ifs <;> omega
            · simp only [deletePage_numPages, unPinPage_numPages]
              rw [hfor.2]
              exact le_refl _
          · refine PinsKept.trans h3 ⟨?_, ?_⟩
            · rw [hfor.1, setNodePageNo_pinCnt, readPage_pinCnt]; omega
            · rw [hfor.2]; exact le_refl _
        · have h4 : PinsKept q s3
              (((s3.readPage parentID).unPinPage nodeID).unPinPage parentID) := by
            constructor
            · simp only [unPinPage_pinCnt, readPage_pinCnt, if_neg hne]
              split_ifs <;> omega
            · exact le_refl _
          refine PinsKept.trans (PinsKept.trans h3 h4)
            (splitNon_pinsKept ly _ q (fun c l t hc ht => ih c l t hc ht) _ _ _ ?_)
          have := h3.2
          simp only [unPinPage_numPages, readPage_numPages]
          omega
      · rename_i e s3 heq
        have := parentSearch_pinsKept ly
          ((((s.readPage s.rootPageNum).readPage nodeID).nodeAt ly nodeID).keyArray 0)
          level n q ((s.readPage s.rootPageNum).readPage nodeID).rootPageNum
          ((s.readPage s.rootPageNum).readPage nodeID)
        rw [heq] at this
        exact PinsKept.trans h2 this
      · rename_i s3 heq
        have := parentSearch_pinsKept ly
          ((((s.readPage s.rootPageNum).readPage nodeID).nodeAt ly nodeID).keyArray 0)
          level n q ((s.readPage s.rootPageNum).readPage nodeID).rootPageNum
          ((s.readPage s.rootPageNum).readPage nodeID)
        rw [heq] at this
        exact PinsKept.trans h2 this

theorem splitLeafCopy_headerPageNum (ly : Layout) (a b : Nat) (n : Nat) :
    ∀ i s, (splitLeafCopy ly a b n i s).headerPageNum = s.headerPageNum := by
  induction n with
  | zero => intro i s; rfl
  | succ n ih => intro i s; unfold splitLeafCopy; simp only []; rw [ih]; rfl

theorem splitLeafMove_pins (ly : Layout) (leafNum : Nat) (key : Int) (rid : RecordId)
    (s : BTreeIndex) :
    (splitLeafMove ly leafNum key rid s).1 = s.bufMgr.numPages + 1 ∧
    (splitLeafMove ly leafNum key rid s).2.bufMgr.pinCnt
      = ((s.readPage leafNum).allocPage.2).bufMgr.pinCnt ∧
    (splitLeafMove ly leafNum key rid s).2.bufMgr.numPages = s.bufMgr.numPages + 1 ∧
    (splitLeafMove ly leafNum key rid s).2.headerPageNum = s.headerPageNum := by
  unfold splitLeafMove
  simp only []
  refine ⟨rfl, ?_, ?_, ?_⟩
  · simp only [setLeafSib_pinCnt]
    split_ifs <;>
      simp only [setLeafSlot_pinCnt, insertLeafData_pinCnt, (splitLeafCopy_pinCnt _ _ _ _ _ _).1]
  · simp only [setLeafSib_numPages]
    split_ifs <;>
      simp only [setLeafSlot_numPages, insertLeafData_numPages,
        (splitLeafCopy_pinCnt _ _ _ _ _ _).2] <;> rfl
  · split_ifs <;> exact splitLeafCopy_headerPageNum _ _ _ _ _ _

theorem splitLeafNewNode_pins (ly : Layout) (leafNum r : Nat) (t : BTreeIndex) :
    (splitLeafNewNode ly leafNum r t).1 = t.bufMgr.numPages + 1 ∧
    (splitLeafNewNode ly leafNum r t).2.bufMgr.pinCnt
      = ((t.allocPage.2.unPinPage r).unPinPage leafNum).bufMgr.pinCnt ∧
    (splitLeafNewNode ly leafNum r t).2.bufMgr.numPages = t.bufMgr.numPages + 1 ∧
    (splitLeafNewNode ly leafNum r t).2.headerPageNum = t.headerPageNum :=
  ⟨rfl, rfl, rfl, rfl⟩

theorem splitLeafRoot_pinsKept (ly : Layout) (fuel : Nat) (leafNum : PageRef) (p q : Nat)
    (s : BTreeIndex) (hne : q ≠ p) (hq : q ≤ s.bufMgr.numPages) :
    PinsKept q s (splitLeafRoot ly fuel leafNum p s).2 := by
  unfold splitLeafRoot
  simp only []
  split_ifs
  · constructor
    · show s.bufMgr.pinCnt q ≤ (((s.readPage s.headerPageNum).unPinPage
        s.headerPageNum).unPinPage p).bufMgr.pinCnt q
      simp only [unPinPage_pinCnt, readPage_pinCnt, if_neg hne]
      split_ifs <;> omega
    · exact le_refl _
  · have h1 : PinsKept q s (((s.readPage s.headerPageNum).unPinPage
        (s.readPage s.headerPageNum).headerPageNum).unPinPage p) := by
      refine ⟨?_, le_refl _⟩
      simp only [unPinPage_pinCnt, readPage_pinCnt, if_neg hne, readPage_headerPageNum]
      split_ifs <;> omega
    exact PinsKept.trans h1 (insertNonLeaf_pinsKept ly q fuel _ _ _ hne hq)

theorem splitLeaf_pinsKept (ly : Layout) (fuel : Nat) (r : PageRef) (key : Int)
    (rid : RecordId) (q : Nat) (s : BTreeIndex) (hq : q ≤ s.bufMgr.numPages) :
    PinsKept q s (splitLeaf ly fuel r key rid s).2 := by
  obtain ⟨hm1, hm2, hm3, _⟩ := splitLeafMove_pins ly (r.get s) key rid s
  obtain ⟨hn1, hn2, hn3, _⟩ := splitLeafNewNode_pins ly (r.get s)
    (splitLeafMove ly (r.get s) key rid s).1 (splitLeafMove ly (r.get s) key rid s).2
  rw [splitLeaf_eq]
  refine PinsKept.trans ⟨?_, ?_⟩ (splitLeafRoot_pinsKept ly fuel r _ q _ ?_ ?_)
  · rw [hn2]
    simp only [unPinPage_pinCnt, allocPage_pinCnt, hm2, readPage_pinCnt, hm1, hm3,
      readPage_numPages, allocPage_numPages]
    split_ifs <;> omega
  · rw [hn3, hm3]; omega
  · rw [hn1, hm3]; omega
  · rw [hn3, hm3]; omega

theorem insertLeaf_pinsKept (ly : Layout) (fuel : Nat) (target : PageRef) (key : Int)
    (rid : RecordId) (q : Nat) (s : BTreeIndex) (hq : q ≤ s.bufMgr.numPages) :
    PinsKept q s (insertLeaf ly fuel target key rid s).2 := by
  unfold insertLeaf
  simp only []
  split_ifs
  · constructor
    · simp only [unPinPage_pinCnt, setLeafSlot_pinCnt, insertLeafData_pinCnt, readPage_pinCnt]
      split_ifs <;> omega
    · exact le_refl _
  · have h1 : PinsKept q s ((s.readPage (target.get s)).unPinPage (target.get s)) := by
      refine ⟨?_, le_refl _⟩
      simp only [unPinPage_pinCnt, readPage_pinCnt]
      split_ifs <;> omega
    exact PinsKept.trans h1 (splitLeaf_pinsKept ly fuel target key rid q _ hq)

/-- At a level-1 root the loop of `traversal` unpins `root` and pins the child
it chose, round after round; no other page loses a pin. -/
theorem traversalWhile_level1_pinsKept (ly : Layout) (key : Int)
    (recur : Nat → BTreeIndex → Res Nat × BTreeIndex) (rootFrame root q : Nat)
    (hne : q ≠ root) (n : Nat) :
    ∀ s, PinsKept q s (traversalWhile ly key recur rootFrame 1 root n s).2 := by
  induction n with
  | zero => intro s; exact PinsKept.refl q s
  | succ n ih =>
    intro s
    unfold traversalWhile
    simp only [if_true]
    have hstep : ∀ c, PinsKept q s ((s.unPinPage root).readPage c) := by
      intro c
      refine ⟨?_, le_refl _⟩
      simp only [unPinPage_pinCnt, readPage_pinCnt, if_neg hne]
      omega
    split
    · exact hstep _
    · exact PinsKept.trans (hstep _) (ih _)

section ViewFrame
variable (ly : Layout) (s : BTreeIndex) (p q : Nat)
@[simp] theorem nodeAt_readPage : (s.readPage p).nodeAt ly q = s.nodeAt ly q := rfl
@[simp] theorem nodeAt_unPinPage : (s.unPinPage p).nodeAt ly q = s.nodeAt ly q := rfl
@[simp] theorem metaAt_readPage : (s.readPage p).metaAt ly q = s.metaAt ly q := rfl
@[simp] theorem metaAt_unPinPage : (s.unPinPage p).metaAt ly q = s.metaAt ly q := rfl
@[simp] theorem leafAt_readPage : (s.readPage p).leafAt ly q = s.leafAt ly q := rfl
@[simp] theorem leafAt_unPinPage : (s.unPinPage p).leafAt ly q = s.leafAt ly q := rfl
end ViewFrame

/-- First round of the loop of `traversal` at a level-1 root: the child it
chooses gains a pin, which no later round takes back. -/
theorem traversalWhile_level1_pins_child (ly : Layout) (key : Int)
    (recur : Nat → BTreeIndex → Res Nat × BTreeIndex) (rootFrame root c : Nat) (n : Nat)
    (s : BTreeIndex)
    (hfor : traversalFor (s.nodeAt ly rootFrame) key
      ((s.nodeAt ly rootFrame).slot + 1).toNat 0 = some c)
    (hne : c ≠ root) :
    s.bufMgr.pinCnt c + 1
        ≤ (traversalWhile ly key recur rootFrame 1 root (n + 1) s).2.bufMgr.pinCnt c ∧
      s.bufMgr.numPages
        ≤ (traversalWhile ly key recur rootFrame 1 root (n + 1) s).2.bufMgr.numPages := by
  have h0 : s.bufMgr.pinCnt c + 1 ≤ ((s.unPinPage root).readPage c).bufMgr.pinCnt c := by
    simp only [unPinPage_pinCnt, readPage_pinCnt, if_neg hne]
    simp
  unfold traversalWhile
  simp only [hfor, if_true]
  split
  · exact ⟨h0, le_refl _⟩
  · have := traversalWhile_level1_pinsKept ly key recur rootFrame root c hne n
      ((s.unPinPage root).readPage c)
    exact ⟨le_trans h0 this.1, this.2⟩

/-- At a level-1 root whose chosen child is the root page itself, every round
of the loop of `traversal` unpins that page and pins it again: it loses no
pin. -/
theorem traversalWhile_level1_pinsKept_self (ly : Layout) (key : Int)
    (recur : Nat → BTreeIndex → Res Nat × BTreeIndex) (rootFrame root : Nat) (n : Nat) :
    ∀ s, traversalFor (s.nodeAt ly rootFrame) key
        ((s.nodeAt ly rootFrame).slot + 1).toNat 0 = some root →
      PinsKept root s (traversalWhile ly key recur rootFrame 1 root n s).2 := by
  induction n with
  | zero => intro s _; exact PinsKept.refl root s
  | succ n ih =>
    intro s hfor
    have hstep : PinsKept root s ((s.unPinPage root).readPage root) := by
      refine ⟨?_, le_refl _⟩
      simp only [unPinPage_pinCnt, readPage_pinCnt, if_true]
      omega
    unfold traversalWhile
    simp only [hfor, if_true]
    split
    · exact hstep
    · exact PinsKept.trans hstep (ih _ (by simpa using hfor))

/-- C8 (evaluated on the code): when the root is a level-1 non-leaf and the key
is below its first separator, `traversal` pins the child `pageNoArray[0]`
(line 307) and no path of `insertEntry` unpins it again: whatever the outcome of
the call, that page holds at least one pin more than before it. The child may
be the root page itself, as it is in the root that `splitLeaf` builds on the
root-leaf path (line 697 stores `leafNum`, which is `rootPageNum` there). -/
theorem C8_insertEntry_leaves_child_pinned (ly : Layout) (fuel : Nat) (key : Int)
    (rid : RecordId) (s : BTreeIndex)
    (hmeta : (s.metaAt ly s.headerPageNum).rootLeaf = false)
    (hlevel : (s.nodeAt ly s.rootPageNum).level = 1)
    (hslot : 0 ≤ (s.nodeAt ly s.rootPageNum).slot)
    (hkey : key < (s.nodeAt ly s.rootPageNum).keyArray 0)
    (hfile : (s.nodeAt ly s.rootPageNum).pageNoArray 0 ≤ s.bufMgr.numPages) :
    s.bufMgr.pinCnt ((s.nodeAt ly s.rootPageNum).pageNoArray 0) + 1
      ≤ (insertEntry ly (fuel + 1) key rid s).2.bufMgr.pinCnt
          ((s.nodeAt ly s.rootPageNum).pageNoArray 0) := by
  have hfor : traversalFor (s.nodeAt ly s.rootPageNum) key
      ((s.nodeAt ly s.rootPageNum).slot + 1).toNat 0
        = some ((s.nodeAt ly s.rootPageNum).pageNoArray 0) := by
    obtain ⟨m, hm⟩ : ∃ m, ((s.nodeAt ly s.rootPageNum).slot + 1).toNat = m + 1 :=
      ⟨((s.nodeAt ly s.rootPageNum).slot + 1).toNat - 1, by omega⟩
    rw [hm]
    simp [traversalFor, hkey]
  -- the state in which the loop of `traversal` is entered
  have htrav : ∃ T, (traversal ly key (fuel + 1) s.rootPageNum
        ((s.readPage s.headerPageNum).unPinPage s.headerPageNum)).2 = T ∧
      s.bufMgr.pinCnt ((s.nodeAt ly s.rootPageNum).pageNoArray 0) + 1
        ≤ T.bufMgr.pinCnt ((s.nodeAt ly s.rootPageNum).pageNoArray 0) ∧
      s.bufMgr.numPages ≤ T.bufMgr.numPages := by
    refine ⟨_, rfl, ?_⟩
    unfold traversal
    simp only [readPage_rootPageNum, unPinPage_rootPageNum, nodeAt_readPage,
      nodeAt_unPinPage, hlevel]
    rw [if_pos (by decide)]
    by_cases hchild : (s.nodeAt ly s.rootPageNum).pageNoArray 0 = s.rootPageNum
    · rw [hchild] at hfor ⊢
      have := traversalWhile_level1_pinsKept_self ly key (traversal ly key fuel) s.rootPageNum
        s.rootPageNum (fuel + 1)
        (((s.readPage s.headerPageNum).unPinPage s.headerPageNum).readPage s.rootPageNum)
        (by simpa using hfor)
      refine ⟨le_trans ?_ this.1, this.2⟩
      simp only [unPinPage_pinCnt, readPage_pinCnt, if_true]
      split_ifs <;> omega
    · have := traversalWhile_level1_pins_child ly key (traversal ly key fuel) s.rootPageNum
        s.rootPageNum ((s.nodeAt ly s.rootPageNum).pageNoArray 0) fuel
        (((s.readPage s.headerPageNum).unPinPage s.headerPageNum).readPage s.rootPageNum)
        (by simpa using hfor) hchild
      refine ⟨le_trans ?_ this.1, this.2⟩
      simp only [unPinPage_pinCnt, readPage_pinCnt, if_neg hchild]
      split_ifs <;> omega
  obtain ⟨T, hT, hpin, hnum⟩ := htrav
  unfold insertEntry
  simp only [readPage_headerPageNum, metaAt_readPage, hmeta, unPinPage_rootPageNum,
    readPage_rootPageNum, Bool.false_eq_true, if_false]
  split
  · rename_i leafNum s3 heq
    rw [heq] at hT
    simp only at hT
    subst hT
    have := insertLeaf_pinsKept ly (fuel + 1) (PageRef.localVar leafNum) key rid
      ((s.nodeAt ly s.rootPageNum).pageNoArray 0) s3 (le_trans hfile hnum)
    exact le_trans hpin this.1
  · rename_i e s3 heq
    rw [heq] at hT
    simp only at hT
    subst hT
    exact hpin
  · rename_i s3 heq
    rw [heq] at hT
    simp only at hT
    subst hT
    exact hpin

/-- C8 at the index holding keys 1 to 5, whose root is page 4 with
`pageNoArray[0] = 4`: an `insertEntry` of key 0 leaves page 4 with a pin it did
not have. -/
theorem C8_insertEntry_leaves_child_pinned_witness :
    (fiveKeys.nodeAt Layout.zeros fiveKeys.rootPageNum).pageNoArray 0 = 4 ∧
    fiveKeys.bufMgr.pinCnt 4 + 1
      ≤ (insertEntry Layout.zeros 6 0 ⟨20, 0⟩ fiveKeys).2.bufMgr.pinCnt 4 :=
  ⟨by decide, C8_insertEntry_leaves_child_pinned Layout.zeros 5 0 ⟨20, 0⟩ fiveKeys
    (by decide) (by decide) (by decide) (by decide) (by decide)⟩

/-! ## Theorems: a refused `startScan` -/

theorem startScan_bad_eq (ly : Layout) (fuel : Nat) (lowVal highVal : Int)
    (lowOp highOp : Operator) (s : BTreeIndex)
    (h : (startScan ly fuel lowVal lowOp highVal highOp s).1 = Res.exc Exn.BadOpcodes) :
    (startScan ly fuel lowVal lowOp highVal highOp s).2
      = { s with scanExecuting := true, lowOp := lowOp, highOp := highOp } := by
  unfold startScan at h ⊢
  simp only [] at h ⊢
  split_ifs at h ⊢ with hb
  · rfl
  · exact absurd h (startScanDescend_no_exc ly fuel _ _)

/-- C25 (evaluated on the code): `startScan` assigns `scanExecuting = true`,
`lowOp` and `highOp` (lines 722-724) before it tests the operators (line 727).
A call that fails with `BadOpcodes` therefore leaves the scan flag set and the
operators overwritten, whatever they were before; the `endScan` issued right
after it succeeds and the `scanNext` issued right after it does not fail with
`ScanNotInitialized`. -/
theorem C25_refused_startScan_marks_scan_active (ly : Layout) (fuel fuel2 : Nat)
    (lowVal highVal : Int) (lowOp highOp : Operator) (s : BTreeIndex)
    (h : (startScan ly fuel lowVal lowOp highVal highOp s).1 = Res.exc Exn.BadOpcodes) :
    (startScan ly fuel lowVal lowOp highVal highOp s).2.scanExecuting = true ∧
    (startScan ly fuel lowVal lowOp highVal highOp s).2.lowOp = lowOp ∧
    (startScan ly fuel lowVal lowOp highVal highOp s).2.highOp = highOp ∧
    (endScan (startScan ly fuel lowVal lowOp highVal highOp s).2).1 = Res.ok () ∧
    (scanNext ly fuel2 (startScan ly fuel lowVal lowOp highVal highOp s).2).1
      ≠ Res.exc Exn.ScanNotInitialized := by
  rw [startScan_bad_eq ly fuel lowVal highVal lowOp highOp s h]
  refine ⟨rfl, rfl, rfl, ?_, ?_⟩
  · unfold endScan
    simp only []
    split_ifs <;> first | rfl | simp_all
  · exact scanNext_active_not_uninitialized ly fuel2 _ rfl

/-- C25 on an idle index built over one record: `startScan` with a low operator
outside the enumeration fails with `BadOpcodes`; before the call no scan was
active and the operators were `LT`, after it the flag is set, `lowOp` holds the
refused value and `endScan` succeeds. -/
theorem C25_refused_startScan_witness :
    (freshIndex Layout.zeros 10 BTreeIndex.zeroed [(10, ⟨1, 0⟩)]).scanExecuting = false ∧
    (freshIndex Layout.zeros 10 BTreeIndex.zeroed [(10, ⟨1, 0⟩)]).lowOp = Operator.LT ∧
    (startScan Layout.zeros 20 0 (Operator.invalid 7) 100 Operator.LT
      (freshIndex Layout.zeros 10 BTreeIndex.zeroed [(10, ⟨1, 0⟩)])).1
        = Res.exc Exn.BadOpcodes ∧
    ((startScan Layout.zeros 20 0 (Operator.invalid 7) 100 Operator.LT
      (freshIndex Layout.zeros 10 BTreeIndex.zeroed [(10, ⟨1, 0⟩)])).2.scanExecuting = true ∧
    (startScan Layout.zeros 20 0 (Operator.invalid 7) 100 Operator.LT
      (freshIndex Layout.zeros 10 BTreeIndex.zeroed [(10, ⟨1, 0⟩)])).2.lowOp
        = Operator.invalid 7 ∧
    (startScan Layout.zeros 20 0 (Operator.invalid 7) 100 Operator.LT
      (freshIndex Layout.zeros 10 BTreeIndex.zeroed [(10, ⟨1, 0⟩)])).2.highOp = Operator.LT ∧
    (endScan (startScan Layout.zeros 20 0 (Operator.invalid 7) 100 Operator.LT
      (freshIndex Layout.zeros 10 BTreeIndex.zeroed [(10, ⟨1, 0⟩)])).2).1 = Res.ok () ∧
    (scanNext Layout.zeros 20 (startScan Layout.zeros 20 0 (Operator.invalid 7) 100 Operator.LT
      (freshIndex Layout.zeros 10 BTreeIndex.zeroed [(10, ⟨1, 0⟩)])).2).1
        ≠ Res.exc Exn.ScanNotInitialized) :=
  ⟨rfl, rfl, rfl,
    C25_refused_startScan_marks_scan_active Layout.zeros 20 20 0 100 (Operator.invalid 7)
      Operator.LT _ rfl⟩

/-! ## Theorems: what the loop of `scanNext` can do -/

section ScanFrameHigh

@[simp] theorem readPage_highOp (s : BTreeIndex) (p : Nat) :
    (s.readPage p).highOp = s.highOp := rfl

@[simp] theorem unPinPage_highOp (s : BTreeIndex) (p : Nat) :
    (s.unPinPage p).highOp = s.highOp := rfl

end ScanFrameHigh

/-- With a high operator `LT` or `LTE` the loop of `scanNext` has no path to its
emitting branch either. -/
theorem scanNextLoop_highOp_no_emit (ly : Layout) (fuel : Nat) :
    ∀ s : BTreeIndex, (s.highOp = Operator.LT ∨ s.highOp = Operator.LTE) →
      ∀ rid, (scanNextLoop ly fuel s).1 ≠ Res.ok rid := by
  induction fuel with
  | zero => intro s _ rid; simp [scanNextLoop]
  | succ n ih =>
    intro s h rid
    unfold scanNextLoop
    simp only []
    split_ifs <;> first
      | (simp; done)
      | exact ih _ (by simpa using h) rid

/-- More fuel does not change an outcome the loop of `scanNext` has reached. -/
theorem scanNextLoop_mono (ly : Layout) (fuel : Nat) :
    ∀ s : BTreeIndex, (scanNextLoop ly fuel s).1 ≠ Res.timeout →
      scanNextLoop ly (fuel + 1) s = scanNextLoop ly fuel s := by
  induction fuel with
  | zero => intro s h; simp [scanNextLoop] at h
  | succ n ih =>
    intro s h
    rw [scanNextLoop.eq_2 ly s (n + 1)]
    rw [scanNextLoop.eq_2 ly s n] at h ⊢
    simp only [] at h ⊢
    split_ifs at h ⊢ <;> first
      | rfl
      | exact ih _ h

theorem scanNextLoop_mono_le (ly : Layout) (s : BTreeIndex) (n : Nat)
    (h : (scanNextLoop ly n s).1 ≠ Res.timeout) :
    ∀ m, n ≤ m → scanNextLoop ly m s = scanNextLoop ly n s := by
  intro m hm
  induction m, hm using Nat.le_induction with
  | base => rfl
  | succ k _ ih =>
    rw [scanNextLoop_mono ly k s (by rw [ih]; exact h), ih]

/-- The loop of `scanNext` raises `IndexScanCompleted` only, and with a low
operator `GT` or `GTE` it has no other way out. -/
theorem scanNextLoop_lowOp_outcome (ly : Layout) (fuel : Nat) (s : BTreeIndex)
    (h : s.lowOp = Operator.GT ∨ s.lowOp = Operator.GTE) :
    (scanNextLoop ly fuel s).1 = Res.exc Exn.IndexScanCompleted ∨
    (scanNextLoop ly fuel s).1 = Res.timeout := by
  cases hr : (scanNextLoop ly fuel s).1 with
  | ok rid => exact absurd hr (scanNextLoop_lowOp_no_emit ly fuel s h rid)
  | exc e => left; rw [scanNextLoop_exc ly fuel s e hr]
  | timeout => right; rfl

theorem scanNextLoop_GT_step (ly : Layout) (fuel : Nat) (s : BTreeIndex)
    (h1 : ¬ (s.nextEntry ≥ s.nodeOccupancy))
    (h2 : ((s.leafAt ly s.currentPageData).ridArray s.nextEntry).page_number ≠ 0)
    (h3 : s.lowOp = Operator.GT) :
    scanNextLoop ly (fuel + 1) s =
      if (s.leafAt ly s.currentPageData).keyArray s.nextEntry > s.lowValInt then
        scanNextLoop ly fuel { s with nextEntry := s.nextEntry + 1 }
      else scanNextLoop ly fuel s := by
  rw [scanNextLoop.eq_2 ly s fuel]
  simp only [h3]
  rw [if_neg (by rintro (h | h); exact h1 h; exact h2 h)]
  simp

theorem scanNextLoop_GTE_step (ly : Layout) (fuel : Nat) (s : BTreeIndex)
    (h1 : ¬ (s.nextEntry ≥ s.nodeOccupancy))
    (h2 : ((s.leafAt ly s.currentPageData).ridArray s.nextEntry).page_number ≠ 0)
    (h3 : s.lowOp = Operator.GTE) :
    scanNextLoop ly (fuel + 1) s =
      if (s.leafAt ly s.currentPageData).keyArray s.nextEntry ≤ s.lowValInt then
        scanNextLoop ly fuel { s with nextEntry := s.nextEntry + 1 }
      else scanNextLoop ly fuel s := by
  rw [scanNextLoop.eq_2 ly s fuel]
  simp only [h3]
  rw [if_neg (by rintro (h | h); exact h1 h; exact h2 h)]
  simp

theorem scanNextLoop_stuck_GT (ly : Layout) (s : BTreeIndex)
    (h1 : ¬ (s.nextEntry ≥ s.nodeOccupancy))
    (h2 : ((s.leafAt ly s.currentPageData).ridArray s.nextEntry).page_number ≠ 0)
    (h3 : s.lowOp = Operator.GT)
    (h4 : ¬ ((s.leafAt ly s.currentPageData).keyArray s.nextEntry > s.lowValInt)) :
    ∀ fuel, scanNextLoop ly fuel s = (Res.timeout, s) := by
  intro fuel
  induction fuel with
  | zero => rfl
  | succ n ih => rw [scanNextLoop_GT_step ly n s h1 h2 h3, if_neg h4, ih]



theorem scanNext_active_eq (ly : Layout) (fuel : Nat) (s : BTreeIndex)
    (hs : s.scanExecuting = true) :
    scanNext ly fuel s
      = scanNextLoop ly fuel
          { s.readPage s.currentPageNum with currentPageData := s.currentPageNum } := by
  unfold scanNext
  rw [if_neg (by simp [hs])]

theorem scanNext_highOp_no_emit (ly : Layout) (fuel : Nat) (s : BTreeIndex)
    (h : s.highOp = Operator.LT ∨ s.highOp = Operator.LTE) (rid : RecordId) :
    (scanNext ly fuel s).1 ≠ Res.ok rid := by
  unfold scanNext
  split_ifs
  · simp
  · exact scanNextLoop_highOp_no_emit ly fuel _ (by simpa using h) rid

/-- C24: in a scan state whose `lowOp` is `GT` or `GTE`, `scanNext` never
returns a record id: either it fails with `IndexScanCompleted` (for every step
budget from some budget on) or it does not terminate (it runs out of every step
budget). On an entry the first test of the loop lets through, one round with
`lowOp = GT` advances `nextEntry` by one if the key is `> lowVal` and with
`lowOp = GTE` if the key is `<= lowVal`; otherwise the round changes nothing and
the loop never ends. A record id is returned only from a state whose `lowOp` is
neither `GT` nor `GTE` and whose `highOp` is neither `LT` nor `LTE`. -/
theorem C24_scanNext_with_low_operator_never_emits (ly : Layout) (s : BTreeIndex)
    (hs : s.scanExecuting = true)
    (h : s.lowOp = Operator.GT ∨ s.lowOp = Operator.GTE) :
    (∀ fuel rid, (scanNext ly fuel s).1 ≠ Res.ok rid) ∧
    ((∃ n, ∀ fuel, n ≤ fuel → (scanNext ly fuel s).1 = Res.exc Exn.IndexScanCompleted) ∨
      (∀ fuel, (scanNext ly fuel s).1 = Res.timeout)) ∧
    (∀ (t : BTreeIndex) (fuel : Nat), ¬ (t.nextEntry ≥ t.nodeOccupancy) →
      ((t.leafAt ly t.currentPageData).ridArray t.nextEntry).page_number ≠ 0 →
      (t.lowOp = Operator.GT →
        scanNextLoop ly (fuel + 1) t =
          (if (t.leafAt ly t.currentPageData).keyArray t.nextEntry > t.lowValInt then
            scanNextLoop ly fuel { t with nextEntry := t.nextEntry + 1 }
          else scanNextLoop ly fuel t) ∧
        (¬ ((t.leafAt ly t.currentPageData).keyArray t.nextEntry > t.lowValInt) →
          ∀ n, scanNextLoop ly n t = (Res.timeout, t))) ∧
      (t.lowOp = Operator.GTE →
        scanNextLoop ly (fuel + 1) t =
          (if (t.leafAt ly t.currentPageData).keyArray t.nextEntry ≤ t.lowValInt then
            scanNextLoop ly fuel { t with nextEntry := t.nextEntry + 1 }
          else scanNextLoop ly fuel t) ∧
        (¬ ((t.leafAt ly t.currentPageData).keyArray t.nextEntry ≤ t.lowValInt) →
          ∀ n, scanNextLoop ly n t = (Res.timeout, t)))) ∧
    (∀ (t : BTreeIndex) (fuel : Nat) (rid : RecordId), (scanNext ly fuel t).1 = Res.ok rid →
      ¬ (t.lowOp = Operator.GT ∨ t.lowOp = Operator.GTE) ∧
      ¬ (t.highOp = Operator.LT ∨ t.highOp = Operator.LTE)) := by
  have he := fun fuel => scanNext_active_eq ly fuel s hs
  have hl : ({ s.readPage s.currentPageNum with
      currentPageData := s.currentPageNum } : BTreeIndex).lowOp = Operator.GT ∨
      ({ s.readPage s.currentPageNum with
      currentPageData := s.currentPageNum } : BTreeIndex).lowOp = Operator.GTE := h
  refine ⟨fun fuel rid => scanNext_lowOp_no_emit ly fuel s h rid, ?_, ?_, ?_⟩
  · by_cases hex : ∃ n, (scanNext ly n s).1 ≠ Res.timeout
    · obtain ⟨n, hn⟩ := hex
      left
      refine ⟨n, fun fuel hfuel => ?_⟩
      rw [he] at hn
      rw [he, scanNextLoop_mono_le ly _ n hn fuel hfuel]
      rcases scanNextLoop_lowOp_outcome ly n _ hl with h1 | h1
      · exact h1
      · exact absurd h1 hn
    · right
      intro fuel
      by_contra hc
      exact hex ⟨fuel, hc⟩
  · intro t fuel h1 h2
    exact ⟨fun h3 => ⟨scanNextLoop_GT_step ly fuel t h1 h2 h3,
        fun h4 => scanNextLoop_stuck_GT ly t h1 h2 h3 h4⟩,
      fun h3 => ⟨scanNextLoop_GTE_step ly fuel t h1 h2 h3,
        fun h4 => scanNextLoop_stuck_GTE ly t h1 h2 h3 h4⟩⟩
  · intro t fuel rid hr
    exact ⟨fun hc => scanNext_lowOp_no_emit ly fuel t hc rid hr,
      fun hc => scanNext_highOp_no_emit ly fuel t hc rid hr⟩

/-- C24 on a leaf holding the one live key 5, scan `GTE 0, LT 3` positioned at
it: no step budget makes `scanNext` return a record id. -/
theorem C24_scanNext_with_low_operator_never_emits_witness :
    (positioned (freshIndex Layout.zeros 10 BTreeIndex.zeroed [(5, ⟨3, 0⟩)])
        2 0 Operator.GTE 3 Operator.LT).scanExecuting = true ∧
    ((positioned (freshIndex Layout.zeros 10 BTreeIndex.zeroed [(5, ⟨3, 0⟩)])
        2 0 Operator.GTE 3 Operator.LT).lowOp = Operator.GT ∨
      (positioned (freshIndex Layout.zeros 10 BTreeIndex.zeroed [(5, ⟨3, 0⟩)])
        2 0 Operator.GTE 3 Operator.LT).lowOp = Operator.GTE) ∧
    (∀ fuel rid, (scanNext Layout.zeros fuel
      (positioned (freshIndex Layout.zeros 10 BTreeIndex.zeroed [(5, ⟨3, 0⟩)])
        2 0 Operator.GTE 3 Operator.LT)).1 ≠ Res.ok rid) :=
  ⟨rfl, Or.inr rfl,
    (C24_scanNext_with_low_operator_never_emits Layout.zeros
      (positioned (freshIndex Layout.zeros 10 BTreeIndex.zeroed [(5, ⟨3, 0⟩)])
        2 0 Operator.GTE 3 Operator.LT) rfl (Or.inr rfl)).1⟩

/-! ## Theorems: what a successful `scanNext` returns -/

/-- Whenever the loop of `scanNext` returns a record id, it does so from a state
`t` with the pages, bounds and operators it started with: the id is the entry
at `t.nextEntry` of the current page of `t`, and the final state is `t` with
`nextEntry` advanced by one. -/
theorem scanNextLoop_emits_cursor (ly : Layout) (fuel : Nat) :
    ∀ (s : BTreeIndex) (rid : RecordId), (scanNextLoop ly fuel s).1 = Res.ok rid →
      ∃ t : BTreeIndex,
        t.bufMgr.pages = s.bufMgr.pages ∧
        t.lowOp = s.lowOp ∧ t.highOp = s.highOp ∧
        t.lowValInt = s.lowValInt ∧ t.highValInt = s.highValInt ∧
        rid = (t.leafAt ly t.currentPageData).ridArray t.nextEntry ∧
        (scanNextLoop ly fuel s).2 = { t with nextEntry := t.nextEntry + 1 } := by
  induction fuel with
  | zero => intro s rid h; simp [scanNextLoop] at h
  | succ n ih =>
    intro s rid
    rw [scanNextLoop.eq_2 ly s n]
    simp only []
    split_ifs <;> intro h <;> first
      | (simp at h; done)
      | (obtain ⟨t, h1, h2, h3, h4, h5, h6, h7⟩ := ih _ rid h
         exact ⟨t, h1, h2, h3, h4, h5, h6, h7⟩)
      | (injection h with h
         exact ⟨s, rfl, rfl, rfl, rfl, rfl, h.symm, rfl⟩)

/-- C23: whenever `scanNext` returns a record id, there is a state `t` of its
loop, the one at the moment of emission, that has the pages, bounds and
operators the call started with, such that the id is `ridArray[nextEntry]` of
the current leaf of `t`; the call ends in `t` with `nextEntry` advanced by
exactly one, so the stored bounds and operators are those from before the call. -/
theorem C23_scanNext_returns_entry_at_cursor (ly : Layout) (fuel : Nat) (s : BTreeIndex)
    (rid : RecordId) (h : (scanNext ly fuel s).1 = Res.ok rid) :
    ∃ t : BTreeIndex,
      t.bufMgr.pages = s.bufMgr.pages ∧
      rid = (t.leafAt ly t.currentPageData).ridArray t.nextEntry ∧
      (scanNext ly fuel s).2 = { t with nextEntry := t.nextEntry + 1 } ∧
      (scanNext ly fuel s).2.nextEntry = t.nextEntry + 1 ∧
      (scanNext ly fuel s).2.lowOp = s.lowOp ∧
      (scanNext ly fuel s).2.highOp = s.highOp ∧
      (scanNext ly fuel s).2.lowValInt = s.lowValInt ∧
      (scanNext ly fuel s).2.highValInt = s.highValInt := by
  have hs : s.scanExecuting = true := by
    cases hc : s.scanExecuting with
    | true => rfl
    | false => rw [scanNext_idle ly fuel s hc] at h; simp at h
  rw [scanNext_active_eq ly fuel s hs] at h ⊢
  obtain ⟨t, h1, h2, h3, h4, h5, h6, h7⟩ := scanNextLoop_emits_cursor ly fuel _ rid h
  refine ⟨t, h1, h6, h7, ?_, ?_, ?_, ?_, ?_⟩ <;> rw [h7]
  · exact h2
  · exact h3
  · exact h4
  · exact h5

/-- C23 on the root leaf holding keys 1, 2, 3, 4, with operators `LT` and `GT`
(which let the loop reach its emitting branch): `scanNext` returns the rid of
entry 0 and leaves `nextEntry = 1`. -/
theorem C23_scanNext_returns_entry_at_cursor_witness :
    (scanNext Layout.zeros 5 (positioned fullRootLeaf 2 0 Operator.LT 100 Operator.GT)).1
      = Res.ok ⟨11, 0⟩ ∧
    (scanNext Layout.zeros 5
      (positioned fullRootLeaf 2 0 Operator.LT 100 Operator.GT)).2.nextEntry = 1 ∧
    ∃ t : BTreeIndex,
      t.bufMgr.pages
        = (positioned fullRootLeaf 2 0 Operator.LT 100 Operator.GT).bufMgr.pages ∧
      (⟨11, 0⟩ : RecordId) = (t.leafAt Layout.zeros t.currentPageData).ridArray t.nextEntry ∧
      (scanNext Layout.zeros 5 (positioned fullRootLeaf 2 0 Operator.LT 100 Operator.GT)).2
        = { t with nextEntry := t.nextEntry + 1 } ∧
      (scanNext Layout.zeros 5
        (positioned fullRootLeaf 2 0 Operator.LT 100 Operator.GT)).2.nextEntry
          = t.nextEntry + 1 ∧
      (scanNext Layout.zeros 5
        (positioned fullRootLeaf 2 0 Operator.LT 100 Operator.GT)).2.lowOp
          = (positioned fullRootLeaf 2 0 Operator.LT 100 Operator.GT).lowOp ∧
      (scanNext Layout.zeros 5
        (positioned fullRootLeaf 2 0 Operator.LT 100 Operator.GT)).2.highOp
          = (positioned fullRootLeaf 2 0 Operator.LT 100 Operator.GT).highOp ∧
      (scanNext Layout.zeros 5
        (positioned fullRootLeaf 2 0 Operator.LT 100 Operator.GT)).2.lowValInt
          = (positioned fullRootLeaf 2 0 Operator.LT 100 Operator.GT).lowValInt ∧
      (scanNext Layout.zeros 5
        (positioned fullRootLeaf 2 0 Operator.LT 100 Operator.GT)).2.highValInt
          = (positioned fullRootLeaf 2 0 Operator.LT 100 Operator.GT).highValInt :=
  ⟨by decide, by decide,
    C23_scanNext_returns_entry_at_cursor Layout.zeros 5
      (positioned fullRootLeaf 2 0 Operator.LT 100 Operator.GT) ⟨11, 0⟩ (by decide)⟩

/-! ## Theorems: the cursor past the live entries of a leaf -/

/-- C21 (evaluated on the code): the first test of the loop of `scanNext`
(line 911) compares `nextEntry` with `nodeOccupancy` and looks at the page
number of the rid; the `slot` of the leaf is not read. With the cursor at or
past `slot`, but below `nodeOccupancy` and on an entry whose rid has a nonzero
page number (a stale entry), `scanNext` neither fails with
`IndexScanCompleted` nor moves to the right sibling: with operators that reach
the emitting branch it returns the stale rid and stays on the leaf, and with
`lowOp` `GTE` (`GT`) and a stale key above (not above) `lowVal` it never
terminates. -/
theorem C21_scanNext_reads_entries_past_slot (ly : Layout) (fuel : Nat) (s : BTreeIndex)
    (hs : s.scanExecuting = true)
    (hslot : (s.leafAt ly s.currentPageNum).slot ≤ s.nextEntry)
    (h1 : s.nextEntry < s.nodeOccupancy)
    (h2 : ((s.leafAt ly s.currentPageNum).ridArray s.nextEntry).page_number ≠ 0) :
    (s.leafAt ly s.currentPageNum).slot ≤ s.nextEntry ∧
    (¬ (s.lowOp = Operator.GT ∨ s.lowOp = Operator.GTE) →
      ¬ (s.highOp = Operator.LT ∨ s.highOp = Operator.LTE) →
      (scanNext ly (fuel + 1) s).1
        = Res.ok ((s.leafAt ly s.currentPageNum).ridArray s.nextEntry) ∧
      (scanNext ly (fuel + 1) s).2.currentPageNum = s.currentPageNum ∧
      (scanNext ly (fuel + 1) s).2.nextEntry = s.nextEntry + 1) ∧
    (s.lowOp = Operator.GTE →
      ¬ ((s.leafAt ly s.currentPageNum).keyArray s.nextEntry ≤ s.lowValInt) →
      ∀ n, (scanNext ly n s).1 = Res.timeout) ∧
    (s.lowOp = Operator.GT →
      ¬ ((s.leafAt ly s.currentPageNum).keyArray s.nextEntry > s.lowValInt) →
      ∀ n, (scanNext ly n s).1 = Res.timeout) := by
  have g1 : ¬ (({ s.readPage s.currentPageNum with
      currentPageData := s.currentPageNum } : BTreeIndex).nextEntry
        ≥ ({ s.readPage s.currentPageNum with
      currentPageData := s.currentPageNum } : BTreeIndex).nodeOccupancy) := by
    show ¬ (s.nextEntry ≥ s.nodeOccupancy)
    omega
  refine ⟨hslot, ?_, ?_, ?_⟩
  · intro hlo hhi
    rw [scanNext_active_eq ly (fuel + 1) s hs, scanNextLoop.eq_2]
    simp only []
    rw [if_neg (by rintro (h | h); exact g1 h; exact h2 h)]
    simp only [readPage_lowOp, readPage_highOp, if_neg hlo, if_neg hhi]
    exact ⟨rfl, rfl, rfl⟩
  · intro h3 h4 n
    rw [scanNext_active_eq ly n s hs, scanNextLoop_stuck_GTE ly _ g1 h2 h3 h4]
  · intro h3 h4 n
    rw [scanNext_active_eq ly n s hs, scanNextLoop_stuck_GT ly _ g1 h2 h3 h4]

/-- C21 on the index of keys 1 to 5: after the split the left leaf (page 2) has
`slot = 2`, right sibling page 3, and still holds the moved entry `(3, rid 13)`
at index 2. With the cursor at index 2 of page 2, `scanNext` returns rid 13
from page 2, the rid that is also entry 0 of page 3. -/
theorem C21_scanNext_reads_entries_past_slot_witness :
    (fiveKeys.leafAt Layout.zeros 2).slot = 2 ∧
    (fiveKeys.leafAt Layout.zeros 2).rightSibPageNo = 3 ∧
    (fiveKeys.leafAt Layout.zeros 3).ridArray 0 = ⟨13, 0⟩ ∧
    (scanNext Layout.zeros 1
      { positioned fiveKeys 2 0 Operator.LT 100 Operator.GT with nextEntry := 2 }).1
        = Res.ok ⟨13, 0⟩ ∧
    (scanNext Layout.zeros 1
      { positioned fiveKeys 2 0 Operator.LT 100 Operator.GT with nextEntry := 2 }).2.currentPageNum
        = 2 :=
  ⟨by decide, by decide, by decide,
    ((C21_scanNext_reads_entries_past_slot Layout.zeros 0
      { positioned fiveKeys 2 0 Operator.LT 100 Operator.GT with nextEntry := 2 }
      rfl (by decide) (by decide) (by decide)).2.1 (by decide) (by decide)).1,
    ((C21_scanNext_reads_entries_past_slot Layout.zeros 0
      { positioned fiveKeys 2 0 Operator.LT 100 Operator.GT with nextEntry := 2 }
      rfl (by decide) (by decide) (by decide)).2.1 (by decide) (by decide)).2.1⟩

/-! ## Theorems: insertion into a leaf with room -/

/-- Closed form of `insertLeaf` on a leaf with room: the state it returns. -/
theorem insertLeaf_room_eq (ly : Layout) (fuel : Nat) (s : BTreeIndex) (target : Nat)
    (r : PageRef) (key : Int) (rid : RecordId) (L : LeafNodeInt) (href : r.get s = target)
    (hL : s.bufMgr.pages target = Page.leaf L) (hroom : L.slot < s.leafOccupancy) :
    insertLeaf ly fuel r key rid s
      = (Res.ok (), s.withPages (upd s.bufMgr.pages target (Page.leaf
          { L with slot := L.slot + 1, keyArray := upd L.keyArray L.slot key,
                   ridArray := upd L.ridArray L.slot rid }))) := by
  have hl : (s.readPage target).leafAt ly target = L := by
    show (s.bufMgr.pages target).asLeaf ly = L
    rw [hL]; rfl
  unfold insertLeaf
  simp only []
  rw [href, hl, if_pos (show L.slot < (s.readPage target).leafOccupancy from hroom)]
  simp [setLeafSlot, insertLeafData, BTreeIndex.leafAt, BTreeIndex.write, BufMgr.write,
    BTreeIndex.withPages, Page.asLeaf, hL, BTreeIndex.readPage, BTreeIndex.unPinPage,
    BufMgr.readPage, BufMgr.unPinPage]
  funext q
  simp only [upd]
  split_ifs with h <;> simp [h]

/-- On a leaf without room `insertLeaf` is `splitLeaf`. -/
theorem insertLeaf_full_eq (ly : Layout) (fuel : Nat) (s : BTreeIndex) (target : Nat)
    (r : PageRef) (key : Int) (rid : RecordId) (L : LeafNodeInt) (href : r.get s = target)
    (hL : s.bufMgr.pages target = Page.leaf L) (hfull : ¬ L.slot < s.leafOccupancy) :
    insertLeaf ly fuel r key rid s
      = splitLeaf ly fuel r key rid ((s.readPage target).unPinPage target) := by
  have hl : (s.readPage target).leafAt ly target = L := by
    show (s.bufMgr.pages target).asLeaf ly = L
    rw [hL]; rfl
  unfold insertLeaf
  simp only []
  rw [href, hl, if_neg (show ¬ L.slot < (s.readPage target).leafOccupancy from hfull)]

theorem liveEntries_append (L : LeafNodeInt) (key : Int) (rid : RecordId) (h0 : 0 ≤ L.slot) :
    liveEntries { L with slot := L.slot + 1, keyArray := upd L.keyArray L.slot key,
                         ridArray := upd L.ridArray L.slot rid }
      = liveEntries L ++ [(key, rid)] := by
  unfold liveEntries
  have hn : (L.slot + 1).toNat = L.slot.toNat + 1 := by omega
  simp only [hn, List.range_succ, List.map_append, List.map_cons, List.map_nil]
  have hs : ((L.slot.toNat : Nat) : Int) = L.slot := by omega
  congr 1
  · apply List.map_congr_left
    intro j hj
    have hj2 : j < L.slot.toNat := List.mem_range.mp hj
    have hne : ((j : Nat) : Int) ≠ L.slot := by omega
    rw [upd_other _ _ _ _ hne, upd_other _ _ _ _ hne]
  · rw [hs, upd_same, upd_same]

/-- C11: on a leaf `L` with `0 <= slot < leafOccupancy`, `insertLeaf` succeeds,
stores the new key and rid at index `slot` and increases `slot` by one; every
other array entry of the leaf (so every pair that was live), `rightSibPageNo`,
every other page (the header page among them) and every pin count are as
before. The live entries afterwards are the old ones followed by the new pair,
so as a multiset they are the old multiset plus the new pair. -/
theorem C11_insertLeaf_with_room (ly : Layout) (fuel : Nat) (s : BTreeIndex) (target : Nat)
    (r : PageRef) (key : Int) (rid : RecordId) (L : LeafNodeInt) (href : r.get s = target)
    (hL : s.bufMgr.pages target = Page.leaf L) (h0 : 0 ≤ L.slot)
    (hroom : L.slot < s.leafOccupancy) :
    (insertLeaf ly fuel r key rid s).1 = Res.ok () ∧
    ((insertLeaf ly fuel r key rid s).2.leafAt ly target).slot = L.slot + 1 ∧
    ((insertLeaf ly fuel r key rid s).2.leafAt ly target).keyArray L.slot = key ∧
    ((insertLeaf ly fuel r key rid s).2.leafAt ly target).ridArray L.slot = rid ∧
    (∀ i, i ≠ L.slot →
      ((insertLeaf ly fuel r key rid s).2.leafAt ly target).keyArray i = L.keyArray i ∧
      ((insertLeaf ly fuel r key rid s).2.leafAt ly target).ridArray i = L.ridArray i) ∧
    ((insertLeaf ly fuel r key rid s).2.leafAt ly target).rightSibPageNo
      = L.rightSibPageNo ∧
    (∀ q, q ≠ target →
      (insertLeaf ly fuel r key rid s).2.bufMgr.pages q = s.bufMgr.pages q) ∧
    (insertLeaf ly fuel r key rid s).2.bufMgr.pinCnt = s.bufMgr.pinCnt ∧
    liveEntries ((insertLeaf ly fuel r key rid s).2.leafAt ly target)
      = liveEntries L ++ [(key, rid)] ∧
    (↑(liveEntries ((insertLeaf ly fuel r key rid s).2.leafAt ly target)) :
        Multiset (Int × RecordId))
      = (key, rid) ::ₘ ↑(liveEntries L) := by
  rw [insertLeaf_room_eq ly fuel s target r key rid L href hL hroom]
  have hleaf : (s.withPages (upd s.bufMgr.pages target (Page.leaf
        { L with slot := L.slot + 1, keyArray := upd L.keyArray L.slot key,
                 ridArray := upd L.ridArray L.slot rid }))).leafAt ly target
      = { L with slot := L.slot + 1, keyArray := upd L.keyArray L.slot key,
                 ridArray := upd L.ridArray L.slot rid } := by
    show (upd s.bufMgr.pages target _ target).asLeaf ly = _
    rw [upd_same]; rfl
  rw [hleaf]
  refine ⟨rfl, rfl, upd_same _ _ _, upd_same _ _ _, ?_, rfl, ?_, rfl,
    liveEntries_append L key rid h0, ?_⟩
  · intro i hi
    exact ⟨upd_other _ _ _ _ hi, upd_other _ _ _ _ hi⟩
  · intro q hq
    show upd s.bufMgr.pages target _ q = _
    rw [upd_other _ _ _ _ hq]
  · rw [liveEntries_append L key rid h0, Multiset.cons_coe]
    exact Multiset.coe_eq_coe.mpr (List.perm_append_singleton _ _)

/-- C11 on the index built over the one record `(10, rid 1)`: inserting
`(5, rid 3)` into its root leaf (page 2) gives the live entries
`(10, rid 1), (5, rid 3)`. -/
theorem C11_insertLeaf_with_room_witness :
    ((freshIndex Layout.zeros 10 BTreeIndex.zeroed [(10, ⟨1, 0⟩)]).leafAt Layout.zeros 2).slot
      = 1 ∧
    (freshIndex Layout.zeros 10 BTreeIndex.zeroed [(10, ⟨1, 0⟩)]).leafOccupancy = 4 ∧
    (insertLeaf Layout.zeros 0 PageRef.rootMember 5 ⟨3, 0⟩
      (freshIndex Layout.zeros 10 BTreeIndex.zeroed [(10, ⟨1, 0⟩)])).1 = Res.ok () ∧
    ((insertLeaf Layout.zeros 0 PageRef.rootMember 5 ⟨3, 0⟩
      (freshIndex Layout.zeros 10 BTreeIndex.zeroed [(10, ⟨1, 0⟩)])).2.leafAt
        Layout.zeros 2).slot = 2 ∧
    liveEntries ((insertLeaf Layout.zeros 0 PageRef.rootMember 5 ⟨3, 0⟩
      (freshIndex Layout.zeros 10 BTreeIndex.zeroed [(10, ⟨1, 0⟩)])).2.leafAt Layout.zeros 2)
      = [(10, ⟨1, 0⟩), (5, ⟨3, 0⟩)] :=
  ⟨by decide, by decide,
    (C11_insertLeaf_with_room Layout.zeros 0
      (freshIndex Layout.zeros 10 BTreeIndex.zeroed [(10, ⟨1, 0⟩)]) 2 PageRef.rootMember 5 ⟨3, 0⟩
      ((freshIndex Layout.zeros 10 BTreeIndex.zeroed [(10, ⟨1, 0⟩)]).leafAt Layout.zeros 2)
      rfl rfl (by decide) (by decide)).1,
    (C11_insertLeaf_with_room Layout.zeros 0
      (freshIndex Layout.zeros 10 BTreeIndex.zeroed [(10, ⟨1, 0⟩)]) 2 PageRef.rootMember 5 ⟨3, 0⟩
      ((freshIndex Layout.zeros 10 BTreeIndex.zeroed [(10, ⟨1, 0⟩)]).leafAt Layout.zeros 2)
      rfl rfl (by decide) (by decide)).2.1.trans (by decide),
    (C11_insertLeaf_with_room Layout.zeros 0
      (freshIndex Layout.zeros 10 BTreeIndex.zeroed [(10, ⟨1, 0⟩)]) 2 PageRef.rootMember 5 ⟨3, 0⟩
      ((freshIndex Layout.zeros 10 BTreeIndex.zeroed [(10, ⟨1, 0⟩)]).leafAt Layout.zeros 2)
      rfl rfl (by decide) (by decide)).2.2.2.2.2.2.2.2.1.trans (by decide)⟩

/-! ## Theorems: the entries of the two leaves of a split -/

theorem copiedHalf_ridArray (occ : Int) (L : LeafNodeInt) (x : Int) :
    (copiedHalf occ L).ridArray x
      = if 0 ≤ x ∧ x < ((L.slot - Int.tdiv occ 2).toNat : Int) then
          L.ridArray (Int.tdiv occ 2 + x) else ⟨0, 0⟩ := by
  simp [copiedHalf, copyResult, zeroLeaf]

theorem copiedHalf_rightSib (occ : Int) (L : LeafNodeInt) :
    (copiedHalf occ L).rightSibPageNo = 0 := rfl

theorem liveEntries_eq_entriesFrom (L : LeafNodeInt) :
    liveEntries L = entriesFrom L 0 L.slot.toNat := by
  simp [liveEntries, entriesFrom]

theorem entriesFrom_congr (A B : LeafNodeInt) (i k : Int) (n : Nat)
    (h : ∀ j : Nat, j < n →
      A.keyArray (i + (j : Int)) = B.keyArray (k + (j : Int)) ∧
      A.ridArray (i + (j : Int)) = B.ridArray (k + (j : Int))) :
    entriesFrom A i n = entriesFrom B k n := by
  unfold entriesFrom
  apply List.map_congr_left
  intro j hj
  have hj2 : j < n := List.mem_range.mp hj
  rw [(h j hj2).1, (h j hj2).2]

theorem entriesFrom_succ (L : LeafNodeInt) (i : Int) (n : Nat) :
    entriesFrom L i (n + 1)
      = entriesFrom L i n ++ [(L.keyArray (i + (n : Int)), L.ridArray (i + (n : Int)))] := by
  simp [entriesFrom, List.range_succ]

theorem entriesFrom_add (L : LeafNodeInt) (i : Int) (a b : Nat) :
    entriesFrom L i (a + b) = entriesFrom L i a ++ entriesFrom L (i + (a : Int)) b := by
  induction b with
  | zero => simp [entriesFrom]
  | succ n ih =>
    rw [← Nat.add_assoc, entriesFrom_succ, ih, entriesFrom_succ, List.append_assoc]
    have e : i + ((a + n : Nat) : Int) = i + (a : Int) + (n : Int) := by push_cast; ring
    rw [e]

/-- The copy loop of `splitLeaf` puts the entries `L[occ/2 .. slot)`, in order,
at the start of the new leaf. -/
theorem copiedHalf_entries (occ : Int) (L : LeafNodeInt) :
    entriesFrom (copiedHalf occ L) 0 (L.slot - Int.tdiv occ 2).toNat
      = entriesFrom L (Int.tdiv occ 2) (L.slot - Int.tdiv occ 2).toNat := by
  apply entriesFrom_congr
  intro j hj
  have hj2 : ((j : Nat) : Int) < ((L.slot - Int.tdiv occ 2).toNat : Int) := by omega
  rw [copiedHalf_keyArray, copiedHalf_ridArray,
    if_pos ⟨by omega, by simpa using hj2⟩, if_pos ⟨by omega, by simpa using hj2⟩]
  simp


theorem tdiv_two_bounds (occ : Int) (h : 0 ≤ occ) :
    0 ≤ Int.tdiv occ 2 ∧ Int.tdiv occ 2 ≤ occ ∧ (2 ≤ occ → 1 ≤ Int.tdiv occ 2) ∧
    (2 ≤ occ → Int.tdiv occ 2 + 1 ≤ occ) := by
  have hd : Int.tdiv occ 2 = occ / 2 := Int.tdiv_eq_ediv (by omega) (by omega)
  rw [hd]
  omega

theorem splitLeft_entries (occ : Int) (L : LeafNodeInt) (key : Int) (rid : RecordId)
    (r : Nat) (hocc : 0 ≤ occ) :
    liveEntries (splitLeft occ L key rid r)
      = if key < (copiedHalf occ L).keyArray 0 then
          entriesFrom L 0 (Int.tdiv occ 2).toNat ++ [(key, rid)]
        else entriesFrom L 0 (Int.tdiv occ 2).toNat := by
  have hb := tdiv_two_bounds occ hocc
  have hst : (((Int.tdiv occ 2).toNat : Nat) : Int) = Int.tdiv occ 2 := by omega
  rw [liveEntries_eq_entriesFrom]
  unfold splitLeft
  split_ifs with hk
  · have e : (Int.tdiv occ 2 + 1).toNat = (Int.tdiv occ 2).toNat + 1 := by omega
    simp only [e]
    rw [entriesFrom_succ]
    simp only [zero_add, hst, upd_same]
    congr 1
    apply entriesFrom_congr
    intro j hj
    have hne : (0 : Int) + (j : Int) ≠ Int.tdiv occ 2 := by omega
    simp only [upd_other _ _ _ _ hne]
    exact ⟨trivial, trivial⟩
  · apply entriesFrom_congr
    intro j _
    exact ⟨rfl, rfl⟩

theorem splitRight_entries (occ : Int) (L : LeafNodeInt) (key : Int) (rid : RecordId) :
    liveEntries (splitRight occ L key rid)
      = if key < (copiedHalf occ L).keyArray 0 then
          entriesFrom L (Int.tdiv occ 2) (L.slot - Int.tdiv occ 2).toNat
        else entriesFrom L (Int.tdiv occ 2) (L.slot - Int.tdiv occ 2).toNat ++ [(key, rid)] := by
  rw [liveEntries_eq_entriesFrom, ← copiedHalf_entries]
  unfold splitRight
  split_ifs with hk
  · simp only [copiedHalf_slot, Int.toNat_ofNat]
    apply entriesFrom_congr
    intro j _
    exact ⟨rfl, rfl⟩
  · simp only [copiedHalf_slot]
    have e : (((L.slot - Int.tdiv occ 2).toNat : Int) + 1).toNat
        = (L.slot - Int.tdiv occ 2).toNat + 1 := by omega
    rw [e, entriesFrom_succ]
    simp only [zero_add, upd_same]
    congr 1
    apply entriesFrom_congr
    intro j hj
    have hne : (0 : Int) + (j : Int) ≠ ((L.slot - Int.tdiv occ 2).toNat : Int) := by omega
    simp only [upd_other _ _ _ _ hne]
    exact ⟨trivial, trivial⟩

theorem splitLeft_slot (occ : Int) (L : LeafNodeInt) (key : Int) (rid : RecordId) (r : Nat) :
    (splitLeft occ L key rid r).slot
      = if key < (copiedHalf occ L).keyArray 0 then Int.tdiv occ 2 + 1
        else Int.tdiv occ 2 := by
  unfold splitLeft; split_ifs <;> rfl

theorem splitRight_slot (occ : Int) (L : LeafNodeInt) (key : Int) (rid : RecordId) :
    (splitRight occ L key rid).slot
      = if key < (copiedHalf occ L).keyArray 0 then
          ((L.slot - Int.tdiv occ 2).toNat : Int)
        else ((L.slot - Int.tdiv occ 2).toNat : Int) + 1 := by
  unfold splitRight; split_ifs
  · exact copiedHalf_slot occ L
  · show (copiedHalf occ L).slot + 1 = _
    rw [copiedHalf_slot]

theorem splitRight_rightSib (occ : Int) (L : LeafNodeInt) (key : Int) (rid : RecordId) :
    (splitRight occ L key rid).rightSibPageNo = L.rightSibPageNo := by
  unfold splitRight; split_ifs <;> rfl

/-- A full leaf is the list of its lower half followed by its upper half. -/
theorem liveEntries_halves (occ : Int) (L : LeafNodeInt) (hocc : 0 ≤ occ)
    (hfull : L.slot = occ) :
    liveEntries L
      = entriesFrom L 0 (Int.tdiv occ 2).toNat
        ++ entriesFrom L (Int.tdiv occ 2) (L.slot - Int.tdiv occ 2).toNat := by
  have hb := tdiv_two_bounds occ hocc
  have e : L.slot.toNat = (Int.tdiv occ 2).toNat + (L.slot - Int.tdiv occ 2).toNat := by omega
  rw [liveEntries_eq_entriesFrom, e, entriesFrom_add]
  congr 2
  omega

theorem leftAfterMove_eq (ly : Layout) (s : BTreeIndex) (leafNum : Nat) (key : Int)
    (rid : RecordId) (L : LeafNodeInt) (hL : s.bufMgr.pages leafNum = Page.leaf L)
    (h1 : leafNum ≤ s.bufMgr.numPages) :
    leftAfterMove ly s leafNum key rid
      = splitLeft s.leafOccupancy L key rid (s.bufMgr.numPages + 1) := by
  unfold leftAfterMove
  rw [splitLeafMove_eq ly s leafNum key rid L hL h1]
  simp [BTreeIndex.leafAt, Page.asLeaf]

theorem rightAfterMove_eq (ly : Layout) (s : BTreeIndex) (leafNum : Nat) (key : Int)
    (rid : RecordId) (L : LeafNodeInt) (hL : s.bufMgr.pages leafNum = Page.leaf L)
    (h1 : leafNum ≤ s.bufMgr.numPages) :
    rightAfterMove ly s leafNum key rid = splitRight s.leafOccupancy L key rid := by
  have hr : s.bufMgr.numPages + 1 ≠ leafNum := by omega
  unfold rightAfterMove
  rw [splitLeafMove_eq ly s leafNum key rid L hL h1]
  simp [BTreeIndex.leafAt, Page.asLeaf, upd_other _ _ _ _ hr]

theorem splitLeafMove_fst (ly : Layout) (s : BTreeIndex) (leafNum : Nat) (key : Int)
    (rid : RecordId) (L : LeafNodeInt) (hL : s.bufMgr.pages leafNum = Page.leaf L)
    (h1 : leafNum ≤ s.bufMgr.numPages) :
    (splitLeafMove ly leafNum key rid s).1 = s.bufMgr.numPages + 1 := by
  rw [splitLeafMove_eq ly s leafNum key rid L hL h1]

theorem splitLeafMove_other_pages (ly : Layout) (s : BTreeIndex) (leafNum : Nat) (key : Int)
    (rid : RecordId) (L : LeafNodeInt) (hL : s.bufMgr.pages leafNum = Page.leaf L)
    (h1 : leafNum ≤ s.bufMgr.numPages) (q : Nat) (hq : q ≠ leafNum)
    (hq2 : q ≠ s.bufMgr.numPages + 1) :
    (splitLeafMove ly leafNum key rid s).2.bufMgr.pages q = s.bufMgr.pages q := by
  rw [splitLeafMove_eq ly s leafNum key rid L hL h1]
  simp [upd_other _ _ _ _ hq, upd_other _ _ _ _ hq2]

/-- On a root leaf the rest of `splitLeaf` leaves the two leaves as its first
part made them. -/
theorem splitLeaf_rootLeaf_leaves (ly : Layout) (fuel : Nat) (s : BTreeIndex) (leafNum : Nat)
    (r : PageRef) (key : Int) (rid : RecordId) (L : LeafNodeInt) (m : IndexMetaInfo)
    (href : r.get s = leafNum)
    (hL : s.bufMgr.pages leafNum = Page.leaf L)
    (hM : s.bufMgr.pages s.headerPageNum = Page.meta m)
    (hroot : m.rootLeaf = true)
    (h1 : leafNum ≤ s.bufMgr.numPages) (h2 : s.headerPageNum ≤ s.bufMgr.numPages)
    (h3 : leafNum ≠ s.headerPageNum) :
    (splitLeaf ly fuel r key rid s).1 = Res.ok () ∧
    (splitLeaf ly fuel r key rid s).2.bufMgr.pages leafNum
      = Page.leaf (splitLeft s.leafOccupancy L key rid (s.bufMgr.numPages + 1)) ∧
    (splitLeaf ly fuel r key rid s).2.bufMgr.pages (s.bufMgr.numPages + 1)
      = Page.leaf (splitRight s.leafOccupancy L key rid) := by
  have a1 : leafNum ≠ s.bufMgr.numPages + 2 := by omega
  have a2 : s.bufMgr.numPages + 1 ≠ s.bufMgr.numPages + 2 := by omega
  have a3 : s.bufMgr.numPages + 1 ≠ s.headerPageNum := by omega
  have a4 : s.bufMgr.numPages + 1 ≠ leafNum := by omega
  rw [splitLeaf_rootLeaf_eq ly fuel s leafNum r key rid L m href hL hM hroot h1 h2 h3]
  refine ⟨rfl, ?_, ?_⟩
  · show upd (upd (upd (upd s.bufMgr.pages _ _) _ _) _ _) _ _ leafNum = _
    rw [upd_other _ _ _ _ h3, upd_other _ _ _ _ a1, upd_same]
  · show upd (upd (upd (upd s.bufMgr.pages _ _) _ _) _ _) _ _ (s.bufMgr.numPages + 1) = _
    rw [upd_other _ _ _ _ a3, upd_other _ _ _ _ a2, upd_other _ _ _ _ a4, upd_same]

theorem copiedHalf_key0 (occ : Int) (L : LeafNodeInt) (hocc : 1 ≤ occ) (hfull : L.slot = occ) :
    (copiedHalf occ L).keyArray 0 = L.keyArray (Int.tdiv occ 2) := by
  have hd : Int.tdiv occ 2 = occ / 2 := Int.tdiv_eq_ediv (by omega) (by omega)
  have hn : (0 : Int) < ((L.slot - Int.tdiv occ 2).toNat : Int) := by omega
  rw [copiedHalf_keyArray, if_pos ⟨le_refl _, hn⟩]; simp

theorem splitRight_key0_full (occ : Int) (L : LeafNodeInt) (key : Int) (rid : RecordId)
    (hocc : 1 ≤ occ) (hfull : L.slot = occ) :
    (splitRight occ L key rid).keyArray 0 = (copiedHalf occ L).keyArray 0 := by
  have hd : Int.tdiv occ 2 = occ / 2 := Int.tdiv_eq_ediv (by omega) (by omega)
  unfold splitRight
  split_ifs
  · rfl
  · show upd (copiedHalf occ L).keyArray (copiedHalf occ L).slot key 0 = _
    rw [upd_other _ _ _ _ (by rw [copiedHalf_slot]; omega)]

theorem splitRight_prefix (occ : Int) (L : LeafNodeInt) (key : Int) (rid : RecordId) :
    entriesFrom (splitRight occ L key rid) 0 (L.slot - Int.tdiv occ 2).toNat
      = entriesFrom L (Int.tdiv occ 2) (L.slot - Int.tdiv occ 2).toNat := by
  rw [← copiedHalf_entries]
  unfold splitRight
  split_ifs with hk
  · apply entriesFrom_congr
    intro j _
    exact ⟨rfl, rfl⟩
  · apply entriesFrom_congr
    intro j hj
    have hne : (0 : Int) + (j : Int) ≠ (copiedHalf occ L).slot := by
      rw [copiedHalf_slot]; omega
    simp only [upd_other _ _ _ _ hne]
    exact ⟨trivial, trivial⟩

/-! ## Theorems: the root built by a root-leaf split -/

/-- The page of the new root after `splitLeaf` on a full root leaf. -/
theorem splitLeaf_rootLeaf_newRoot (ly : Layout) (fuel : Nat) (s : BTreeIndex)
    (leafNum : Nat) (r : PageRef) (key : Int) (rid : RecordId) (L : LeafNodeInt)
    (m : IndexMetaInfo) (href : r.get s = leafNum)
    (hL : s.bufMgr.pages leafNum = Page.leaf L)
    (hM : s.bufMgr.pages s.headerPageNum = Page.meta m)
    (hroot : m.rootLeaf = true)
    (h1 : leafNum ≤ s.bufMgr.numPages) (h2 : s.headerPageNum ≤ s.bufMgr.numPages)
    (h3 : leafNum ≠ s.headerPageNum) :
    (splitLeaf ly fuel r key rid s).2.bufMgr.pages (s.bufMgr.numPages + 2)
      = Page.node { level := 1, slot := 1,
                    keyArray := upd (fun _ => 0) 0
                      ((splitRight s.leafOccupancy L key rid).keyArray 0),
                    pageNoArray := upd (fun _ => 0) 0
                      (r.get { s with rootPageNum := s.bufMgr.numPages + 2 }) } ∧
    (splitLeaf ly fuel r key rid s).2.bufMgr.pages s.headerPageNum
      = Page.meta { m with rootLeaf := false, rootPageNo := s.bufMgr.numPages + 2 } ∧
    (splitLeaf ly fuel r key rid s).2.rootPageNum = s.bufMgr.numPages + 2 ∧
    (splitLeaf ly fuel r key rid s).2.headerPageNum = s.headerPageNum := by
  have a1 : s.bufMgr.numPages + 2 ≠ s.headerPageNum := by omega
  rw [splitLeaf_rootLeaf_eq ly fuel s leafNum r key rid L m href hL hM hroot h1 h2 h3]
  refine ⟨?_, ?_, rfl, rfl⟩
  · show upd (upd (upd (upd s.bufMgr.pages _ _) _ _) _ _) _ _ (s.bufMgr.numPages + 2) = _
    rw [upd_other _ _ _ _ a1, upd_same]
  · show upd (upd (upd (upd s.bufMgr.pages _ _) _ _) _ _) _ _ s.headerPageNum = _
    rw [upd_same]

/-- C14 (evaluated on the code): when the root leaf `L` (page `leafNum`) splits
into `L` and `R` (the fresh page `numPages + 1`), the new root `P` (the fresh
page `numPages + 2`) has `level = 1`, `slot = 1` and
`keyArray[0] = R.keyArray[0]`, but neither child entry is what the claim says.
`insertNodeData` stores the page number of `R` at index `slot = 0` (line 679);
line 697 then overwrites index 0 with `leafNum`, read through the reference
`r` after line 694 has assigned `rootPageNum`; `pageNoArray[1]` is never
written. So `pageNoArray[0]` is what `r` refers to after the call: when `r` is
the member `rootPageNum`, as in the call of `insertEntry` (line 224), it is
the page number of `P` itself and not that of `L`; only for a local variable
is it `leafNum`. `pageNoArray[1]` is 0, and the page number of `R` is in no
entry of `P.pageNoArray`. -/
theorem C14_new_root_has_no_right_child (ly : Layout) (fuel : Nat) (s : BTreeIndex)
    (leafNum : Nat) (r : PageRef) (key : Int) (rid : RecordId) (L : LeafNodeInt)
    (m : IndexMetaInfo) (href : r.get s = leafNum)
    (hL : s.bufMgr.pages leafNum = Page.leaf L)
    (hM : s.bufMgr.pages s.headerPageNum = Page.meta m)
    (hroot : m.rootLeaf = true)
    (h1 : leafNum ≤ s.bufMgr.numPages) (h2 : s.headerPageNum ≤ s.bufMgr.numPages)
    (h3 : leafNum ≠ s.headerPageNum) :
    (splitLeaf ly fuel r key rid s).1 = Res.ok () ∧
    (splitLeaf ly fuel r key rid s).2.rootPageNum = s.bufMgr.numPages + 2 ∧
    ((splitLeaf ly fuel r key rid s).2.nodeAt ly (s.bufMgr.numPages + 2)).level = 1 ∧
    ((splitLeaf ly fuel r key rid s).2.nodeAt ly (s.bufMgr.numPages + 2)).slot = 1 ∧
    ((splitLeaf ly fuel r key rid s).2.nodeAt ly (s.bufMgr.numPages + 2)).keyArray 0
      = ((splitLeaf ly fuel r key rid s).2.leafAt ly (s.bufMgr.numPages + 1)).keyArray 0 ∧
    ((splitLeaf ly fuel r key rid s).2.nodeAt ly (s.bufMgr.numPages + 2)).pageNoArray 0
      = r.get (splitLeaf ly fuel r key rid s).2 ∧
    (r = PageRef.rootMember →
      ((splitLeaf ly fuel r key rid s).2.nodeAt ly (s.bufMgr.numPages + 2)).pageNoArray 0
        = s.bufMgr.numPages + 2 ∧
      ((splitLeaf ly fuel r key rid s).2.nodeAt ly (s.bufMgr.numPages + 2)).pageNoArray 0
        ≠ leafNum) ∧
    (∀ p, r = PageRef.localVar p →
      ((splitLeaf ly fuel r key rid s).2.nodeAt ly (s.bufMgr.numPages + 2)).pageNoArray 0
        = leafNum) ∧
    ((splitLeaf ly fuel r key rid s).2.nodeAt ly (s.bufMgr.numPages + 2)).pageNoArray 1 = 0 ∧
    (∀ i, ((splitLeaf ly fuel r key rid s).2.nodeAt ly
      (s.bufMgr.numPages + 2)).pageNoArray i ≠ s.bufMgr.numPages + 1) := by
  have hP := splitLeaf_rootLeaf_newRoot ly fuel s leafNum r key rid L m href hL hM hroot h1 h2 h3
  have hLv := splitLeaf_rootLeaf_leaves ly fuel s leafNum r key rid L m href hL hM hroot h1 h2 h3
  have eP : (splitLeaf ly fuel r key rid s).2.nodeAt ly (s.bufMgr.numPages + 2)
      = { level := 1, slot := 1,
          keyArray := upd (fun _ => 0) 0 ((splitRight s.leafOccupancy L key rid).keyArray 0),
          pageNoArray := upd (fun _ => 0) 0
            (r.get { s with rootPageNum := s.bufMgr.numPages + 2 }) } := by
    show Page.asNode ly ((splitLeaf ly fuel r key rid s).2.bufMgr.pages _) = _
    rw [hP.1]; rfl
  have eR : (splitLeaf ly fuel r key rid s).2.leafAt ly (s.bufMgr.numPages + 1)
      = splitRight s.leafOccupancy L key rid := by
    show Page.asLeaf ly ((splitLeaf ly fuel r key rid s).2.bufMgr.pages _) = _
    rw [hLv.2.2]; rfl
  have eG : r.get (splitLeaf ly fuel r key rid s).2
      = r.get { s with rootPageNum := s.bufMgr.numPages + 2 } :=
    PageRef.get_congr r _ _ hP.2.2.1
  rw [eP, eR, eG]
  refine ⟨hLv.1, hP.2.2.1, rfl, rfl, rfl, rfl, ?_, ?_, rfl, ?_⟩
  · intro hr
    subst hr
    refine ⟨rfl, ?_⟩
    show upd (fun _ => 0) 0 (s.bufMgr.numPages + 2) 0 ≠ leafNum
    rw [upd_same]; omega
  · intro p hr
    subst hr
    show upd (fun _ => 0) 0 p 0 = leafNum
    rw [upd_same]; exact href
  · intro i
    show upd (fun _ => 0) 0 (r.get { s with rootPageNum := s.bufMgr.numPages + 2 }) i ≠ _
    by_cases hi : i = 0
    · rw [hi, upd_same]
      cases r with
      | rootMember => show s.bufMgr.numPages + 2 ≠ _; omega
      | localVar p =>
        have hp : p = leafNum := href
        show p ≠ _
        omega
    · rw [upd_other _ _ _ _ hi]; omega

/-- C14 on the full root leaf with keys 1, 2, 3, 4 (page 2) and the new key 5,
split through the member `rootPageNum` as `insertEntry` does: the new root is
page 4, `R` is page 3, and page 4 has `pageNoArray[0] = 4`, its own page
number, and `pageNoArray[1] = 0`. The index built by five calls of
`insertEntry` has the same root. -/
theorem C14_new_root_has_no_right_child_witness :
    (splitLeaf Layout.zeros 0 PageRef.rootMember 5 ⟨15, 0⟩ fullRootLeaf).2.rootPageNum = 4 ∧
    ((splitLeaf Layout.zeros 0 PageRef.rootMember 5 ⟨15, 0⟩ fullRootLeaf).2.leafAt
      Layout.zeros 3).keyArray 0 = 3 ∧
    ((splitLeaf Layout.zeros 0 PageRef.rootMember 5 ⟨15, 0⟩ fullRootLeaf).2.nodeAt
      Layout.zeros 4).slot = 1 ∧
    ((splitLeaf Layout.zeros 0 PageRef.rootMember 5 ⟨15, 0⟩ fullRootLeaf).2.nodeAt
      Layout.zeros 4).pageNoArray 0 = 4 ∧
    ((splitLeaf Layout.zeros 0 PageRef.rootMember 5 ⟨15, 0⟩ fullRootLeaf).2.nodeAt
      Layout.zeros 4).pageNoArray 1 = 0 ∧
    fiveKeys.rootPageNum = 4 ∧
    (fiveKeys.nodeAt Layout.zeros 4).pageNoArray 0 = 4 ∧
    (fiveKeys.nodeAt Layout.zeros 4).pageNoArray 1 = 0 := by
  have h := C14_new_root_has_no_right_child Layout.zeros 0 fullRootLeaf 2 PageRef.rootMember
    5 ⟨15, 0⟩ (fullRootLeaf.leafAt Layout.zeros 2) (fullRootLeaf.metaAt Layout.zeros 1)
    rfl rfl rfl (by decide) (by decide) (by decide) (by decide)
  exact ⟨h.2.1, by decide, h.2.2.2.1, (h.2.2.2.2.2.2.1 rfl).1, h.2.2.2.2.2.2.2.2.1,
    by decide, by decide, by decide⟩

/-! ## Theorems: leaves stay within their arrays while the root is a leaf -/

/-- The first branch of `insertNonLeaf` (lines 523-533): whenever the level
passed in is at least the level of the root, page `nodeID` is made the root. -/
theorem insertNonLeaf_makes_root (ly : Layout) (fuel : Nat) (nodeID : Nat) (level : Int)
    (s : BTreeIndex) (hlev : level ≥ (s.nodeAt ly s.rootPageNum).level) :
    (insertNonLeaf ly (fuel + 1) nodeID level s).1 = Res.ok () ∧
    (insertNonLeaf ly (fuel + 1) nodeID level s).2.bufMgr.pages
      = upd s.bufMgr.pages s.headerPageNum
          (Page.meta { s.metaAt ly s.headerPageNum with rootPageNo := nodeID }) ∧
    (insertNonLeaf ly (fuel + 1) nodeID level s).2.rootPageNum = nodeID ∧
    (insertNonLeaf ly (fuel + 1) nodeID level s).2.headerPageNum = s.headerPageNum ∧
    (insertNonLeaf ly (fuel + 1) nodeID level s).2.bufMgr.numPages = s.bufMgr.numPages := by
  rw [insertNonLeaf.eq_2]
  simp only []
  rw [if_pos (show level ≥ ((s.readPage s.rootPageNum).nodeAt ly
    (s.readPage s.rootPageNum).rootPageNum).level from hlev)]
  exact ⟨rfl, rfl, rfl, rfl, rfl⟩

/-- The last part of `splitLeaf` when the header says the root is not a leaf. -/
theorem splitLeafRoot_nonRoot (ly : Layout) (fuel : Nat) (leafNum : PageRef) (p : Nat) (s : BTreeIndex)
    (h : (s.metaAt ly s.headerPageNum).rootLeaf = false) :
    splitLeafRoot ly fuel leafNum p s
      = insertNonLeaf ly fuel p (s.nodeAt ly p).level
          (((s.readPage s.headerPageNum).unPinPage s.headerPageNum).unPinPage p) := by
  unfold splitLeafRoot
  simp only []
  rw [if_neg (by
    show ¬ ((s.metaAt ly s.headerPageNum).rootLeaf = true)
    rw [h]; simp)]
  rfl


/-- The state after the first two parts of `splitLeaf` (lines 633-684): the two
leaves and the fresh non-leaf page `numPages + 2`, which has `level = 1`,
`slot = 1`, the first key of the new leaf at `keyArray[0]` and the page number
of the new leaf at `pageNoArray[0]`. -/
theorem splitLeaf_prefix (ly : Layout) (s : BTreeIndex) (leafNum : Nat) (key : Int)
    (rid : RecordId) (L : LeafNodeInt) (hL : s.bufMgr.pages leafNum = Page.leaf L)
    (h1 : leafNum ≤ s.bufMgr.numPages) :
    (splitLeafNewNode ly leafNum (splitLeafMove ly leafNum key rid s).1
      (splitLeafMove ly leafNum key rid s).2).1 = s.bufMgr.numPages + 2 ∧
    (splitLeafNewNode ly leafNum (splitLeafMove ly leafNum key rid s).1
      (splitLeafMove ly leafNum key rid s).2).2.bufMgr.pages
      = upd (upd (upd s.bufMgr.pages
          (s.bufMgr.numPages + 1) (Page.leaf (splitRight s.leafOccupancy L key rid)))
          leafNum (Page.leaf (splitLeft s.leafOccupancy L key rid (s.bufMgr.numPages + 1))))
          (s.bufMgr.numPages + 2)
            (Page.node
              { level := 1, slot := 1,
                keyArray := upd (fun _ => 0) 0
                  ((splitRight s.leafOccupancy L key rid).keyArray 0),
                pageNoArray := upd (fun _ => 0) 0 (s.bufMgr.numPages + 1) }) ∧
    (splitLeafNewNode ly leafNum (splitLeafMove ly leafNum key rid s).1
      (splitLeafMove ly leafNum key rid s).2).2.headerPageNum = s.headerPageNum ∧
    (splitLeafNewNode ly leafNum (splitLeafMove ly leafNum key rid s).1
      (splitLeafMove ly leafNum key rid s).2).2.rootPageNum = s.rootPageNum ∧
    (splitLeafNewNode ly leafNum (splitLeafMove ly leafNum key rid s).1
      (splitLeafMove ly leafNum key rid s).2).2.bufMgr.numPages = s.bufMgr.numPages + 2 := by
  have hr : s.bufMgr.numPages + 1 ≠ leafNum := by omega
  rw [splitLeafMove_eq ly s leafNum key rid L hL h1]
  simp only []
  rw [splitLeafNewNode_eq ly _ leafNum (s.bufMgr.numPages + 1) (Nat.le_refl _)]
  refine ⟨rfl, ?_, rfl, rfl, rfl⟩
  simp [BTreeIndex.leafAt, Page.asLeaf, upd_other _ _ _ _ hr]

/-- The last part of `splitLeaf` on a state whose header says that the root is
not a leaf and whose root is a non-leaf page of level at most that of page `p`:
`insertNonLeaf` makes `p` the root. -/
theorem splitLeafRoot_below_root (ly : Layout) (fuel : Nat) (leafNum : PageRef) (p : Nat) (t : BTreeIndex)
    (m : IndexMetaInfo) (P R0 : NonLeafNodeInt)
    (hM : t.bufMgr.pages t.headerPageNum = Page.meta m) (hnl : m.rootLeaf = false)
    (hP : t.bufMgr.pages p = Page.node P)
    (hR : t.bufMgr.pages t.rootPageNum = Page.node R0) (hlev : R0.level ≤ P.level) :
    (splitLeafRoot ly (fuel + 1) leafNum p t).1 = Res.ok () ∧
    (splitLeafRoot ly (fuel + 1) leafNum p t).2.bufMgr.pages
      = upd t.bufMgr.pages t.headerPageNum (Page.meta { m with rootPageNo := p }) ∧
    (splitLeafRoot ly (fuel + 1) leafNum p t).2.rootPageNum = p ∧
    (splitLeafRoot ly (fuel + 1) leafNum p t).2.headerPageNum = t.headerPageNum ∧
    (splitLeafRoot ly (fuel + 1) leafNum p t).2.bufMgr.numPages = t.bufMgr.numPages := by
  have hm : t.metaAt ly t.headerPageNum = m := by
    show Page.asMeta ly (t.bufMgr.pages t.headerPageNum) = m
    rw [hM]; rfl
  have hp : t.nodeAt ly p = P := by
    show Page.asNode ly (t.bufMgr.pages p) = P
    rw [hP]; rfl
  rw [splitLeafRoot_nonRoot ly (fuel + 1) leafNum p t (by rw [hm]; exact hnl), hp]
  have hk := insertNonLeaf_makes_root ly fuel p P.level
    (((t.readPage t.headerPageNum).unPinPage t.headerPageNum).unPinPage p) (by
      show P.level ≥ (Page.asNode ly (t.bufMgr.pages t.rootPageNum)).level
      rw [hR]; exact hlev)
  refine ⟨hk.1, hk.2.1.trans ?_, hk.2.2.1, hk.2.2.2.1, hk.2.2.2.2⟩
  show upd t.bufMgr.pages t.headerPageNum
    (Page.meta { t.metaAt ly t.headerPageNum with rootPageNo := p }) = _
  rw [hm]

/-- Closed form of `splitLeaf` on a leaf that is not the root, below a root of
level at most 1: the pages it leaves, and the root it records. -/
theorem splitLeaf_below_level1_root (ly : Layout) (fuel : Nat) (s : BTreeIndex)
    (leafNum : Nat) (r : PageRef) (key : Int) (rid : RecordId) (L : LeafNodeInt)
    (m : IndexMetaInfo) (R0 : NonLeafNodeInt) (href : r.get s = leafNum)
    (hL : s.bufMgr.pages leafNum = Page.leaf L)
    (hM : s.bufMgr.pages s.headerPageNum = Page.meta m) (hnl : m.rootLeaf = false)
    (hR : s.bufMgr.pages s.rootPageNum = Page.node R0) (hlev : R0.level ≤ 1)
    (h1 : leafNum ≤ s.bufMgr.numPages) (h2 : s.headerPageNum ≤ s.bufMgr.numPages)
    (h3 : s.rootPageNum ≤ s.bufMgr.numPages) :
    (splitLeaf ly (fuel + 1) r key rid s).1 = Res.ok () ∧
    (splitLeaf ly (fuel + 1) r key rid s).2.bufMgr.pages
      = upd (upd (upd (upd s.bufMgr.pages
          (s.bufMgr.numPages + 1) (Page.leaf (splitRight s.leafOccupancy L key rid)))
          leafNum (Page.leaf (splitLeft s.leafOccupancy L key rid (s.bufMgr.numPages + 1))))
          (s.bufMgr.numPages + 2)
            (Page.node
              { level := 1, slot := 1,
                keyArray := upd (fun _ => 0) 0
                  ((splitRight s.leafOccupancy L key rid).keyArray 0),
                pageNoArray := upd (fun _ => 0) 0 (s.bufMgr.numPages + 1) }))
          s.headerPageNum (Page.meta { m with rootPageNo := s.bufMgr.numPages + 2 }) ∧
    (splitLeaf ly (fuel + 1) r key rid s).2.rootPageNum = s.bufMgr.numPages + 2 ∧
    (splitLeaf ly (fuel + 1) r key rid s).2.headerPageNum = s.headerPageNum ∧
    (splitLeaf ly (fuel + 1) r key rid s).2.bufMgr.numPages
      = s.bufMgr.numPages + 2 := by
  have hlh : leafNum ≠ s.headerPageNum := by
    intro hc; rw [hc, hM] at hL; cases hL
  have hlr : leafNum ≠ s.rootPageNum := by
    intro hc; rw [hc, hR] at hL; cases hL
  have a1 : s.headerPageNum ≠ s.bufMgr.numPages + 2 := by omega
  have a2 : s.headerPageNum ≠ s.bufMgr.numPages + 1 := by omega
  have a3 : s.rootPageNum ≠ s.bufMgr.numPages + 2 := by omega
  have a4 : s.rootPageNum ≠ s.bufMgr.numPages + 1 := by omega
  obtain ⟨p1, p2, p3, p4, p5⟩ := splitLeaf_prefix ly s leafNum key rid L hL h1
  rw [splitLeaf_eq, href, p1]
  have hk := splitLeafRoot_below_root ly fuel r (s.bufMgr.numPages + 2)
    (splitLeafNewNode ly leafNum (splitLeafMove ly leafNum key rid s).1
      (splitLeafMove ly leafNum key rid s).2).2 m
    { level := 1, slot := 1,
      keyArray := upd (fun _ => 0) 0 ((splitRight s.leafOccupancy L key rid).keyArray 0),
      pageNoArray := upd (fun _ => 0) 0 (s.bufMgr.numPages + 1) } R0
    (by rw [p2, p3, upd_other _ _ _ _ a1, upd_other _ _ _ _ (Ne.symm hlh),
          upd_other _ _ _ _ a2]; exact hM)
    hnl
    (by rw [p2, upd_same])
    (by rw [p2, p4, upd_other _ _ _ _ a3, upd_other _ _ _ _ (Ne.symm hlr),
          upd_other _ _ _ _ a4]; exact hR)
    hlev
  rw [p2, p3, p5] at hk
  exact hk

/-- C12: for every full leaf `L` (`slot = leafOccupancy`, `leafOccupancy >= 1`)
and every new `(key, rid)`, the first part of `splitLeaf` (lines 633-669)
allocates the new leaf `R`, whose first `leafOccupancy - leafOccupancy/2`
entries are the entries `L[leafOccupancy/2 .. leafOccupancy)` in order; the
key compared with is `R.keyArray[0] = L.keyArray[leafOccupancy/2]`. If `key` is
less than it, `L` keeps its lower half followed by the new pair and `R` holds
the upper half; otherwise `L` keeps its lower half and `R` holds the upper half
followed by the new pair. In both cases the live entries of `L` and `R`
together are, as a multiset, the old live entries of `L` plus the new pair, and
`L.slot + R.slot = leafOccupancy + 1`. When `L` is the root leaf, and when it
is a leaf below a non-leaf root of level 1, `splitLeaf` returns and leaves the
two leaves exactly so. -/
theorem C12_splitLeaf_moves_upper_half (ly : Layout) (s : BTreeIndex) (leafNum : Nat)
    (key : Int) (rid : RecordId) (L : LeafNodeInt)
    (hL : s.bufMgr.pages leafNum = Page.leaf L) (h1 : leafNum ≤ s.bufMgr.numPages)
    (hocc : 1 ≤ s.leafOccupancy) (hfull : L.slot = s.leafOccupancy) :
    (splitLeafMove ly leafNum key rid s).1 = s.bufMgr.numPages + 1 ∧
    entriesFrom (rightAfterMove ly s leafNum key rid) 0
        (s.leafOccupancy - Int.tdiv s.leafOccupancy 2).toNat
      = entriesFrom L (Int.tdiv s.leafOccupancy 2)
          (s.leafOccupancy - Int.tdiv s.leafOccupancy 2).toNat ∧
    (rightAfterMove ly s leafNum key rid).keyArray 0
      = L.keyArray (Int.tdiv s.leafOccupancy 2) ∧
    (key < (rightAfterMove ly s leafNum key rid).keyArray 0 →
      (leftAfterMove ly s leafNum key rid).slot = Int.tdiv s.leafOccupancy 2 + 1 ∧
      liveEntries (leftAfterMove ly s leafNum key rid)
        = entriesFrom L 0 (Int.tdiv s.leafOccupancy 2).toNat ++ [(key, rid)] ∧
      (rightAfterMove ly s leafNum key rid).slot
        = s.leafOccupancy - Int.tdiv s.leafOccupancy 2 ∧
      liveEntries (rightAfterMove ly s leafNum key rid)
        = entriesFrom L (Int.tdiv s.leafOccupancy 2)
            (s.leafOccupancy - Int.tdiv s.leafOccupancy 2).toNat) ∧
    (¬ key < (rightAfterMove ly s leafNum key rid).keyArray 0 →
      (leftAfterMove ly s leafNum key rid).slot = Int.tdiv s.leafOccupancy 2 ∧
      liveEntries (leftAfterMove ly s leafNum key rid)
        = entriesFrom L 0 (Int.tdiv s.leafOccupancy 2).toNat ∧
      (rightAfterMove ly s leafNum key rid).slot
        = s.leafOccupancy - Int.tdiv s.leafOccupancy 2 + 1 ∧
      liveEntries (rightAfterMove ly s leafNum key rid)
        = entriesFrom L (Int.tdiv s.leafOccupancy 2)
            (s.leafOccupancy - Int.tdiv s.leafOccupancy 2).toNat ++ [(key, rid)]) ∧
    ((↑(liveEntries (leftAfterMove ly s leafNum key rid)) : Multiset (Int × RecordId))
        + ↑(liveEntries (rightAfterMove ly s leafNum key rid))
      = (key, rid) ::ₘ ↑(liveEntries L)) ∧
    (leftAfterMove ly s leafNum key rid).slot + (rightAfterMove ly s leafNum key rid).slot
      = s.leafOccupancy + 1 ∧
    (∀ (m : IndexMetaInfo) (fuel : Nat) (r : PageRef), r.get s = leafNum →
      s.bufMgr.pages s.headerPageNum = Page.meta m →
      m.rootLeaf = true → s.headerPageNum ≤ s.bufMgr.numPages → leafNum ≠ s.headerPageNum →
      (splitLeaf ly fuel r key rid s).1 = Res.ok () ∧
      (splitLeaf ly fuel r key rid s).2.bufMgr.pages leafNum
        = Page.leaf (leftAfterMove ly s leafNum key rid) ∧
      (splitLeaf ly fuel r key rid s).2.bufMgr.pages (s.bufMgr.numPages + 1)
        = Page.leaf (rightAfterMove ly s leafNum key rid)) ∧
    (∀ (m : IndexMetaInfo) (R0 : NonLeafNodeInt) (fuel : Nat) (r : PageRef),
      r.get s = leafNum →
      s.bufMgr.pages s.headerPageNum = Page.meta m → m.rootLeaf = false →
      s.bufMgr.pages s.rootPageNum = Page.node R0 → R0.level ≤ 1 →
      s.headerPageNum ≤ s.bufMgr.numPages → s.rootPageNum ≤ s.bufMgr.numPages →
      (splitLeaf ly (fuel + 1) r key rid s).1 = Res.ok () ∧
      (splitLeaf ly (fuel + 1) r key rid s).2.bufMgr.pages leafNum
        = Page.leaf (leftAfterMove ly s leafNum key rid) ∧
      (splitLeaf ly (fuel + 1) r key rid s).2.bufMgr.pages (s.bufMgr.numPages + 1)
        = Page.leaf (rightAfterMove ly s leafNum key rid)) := by
  have hb := tdiv_two_bounds s.leafOccupancy (by omega)
  have hn : ((L.slot - Int.tdiv s.leafOccupancy 2).toNat : Int)
      = s.leafOccupancy - Int.tdiv s.leafOccupancy 2 := by omega
  have hk0 := copiedHalf_key0 s.leafOccupancy L hocc hfull
  have hr0 := splitRight_key0_full s.leafOccupancy L key rid hocc hfull
  have hLe := splitLeft_entries s.leafOccupancy L key rid (s.bufMgr.numPages + 1) (by omega)
  have hRe := splitRight_entries s.leafOccupancy L key rid
  have hLs := splitLeft_slot s.leafOccupancy L key rid (s.bufMgr.numPages + 1)
  have hRs := splitRight_slot s.leafOccupancy L key rid
  have hh := liveEntries_halves s.leafOccupancy L (by omega) hfull
  rw [leftAfterMove_eq ly s leafNum key rid L hL h1,
    rightAfterMove_eq ly s leafNum key rid L hL h1, hr0, hk0]
  rw [hk0] at hLe hRe hLs hRs
  rw [hn] at hRs
  rw [hfull] at hRe hh
  have hpre := splitRight_prefix s.leafOccupancy L key rid
  rw [hfull] at hpre
  refine ⟨splitLeafMove_fst ly s leafNum key rid L hL h1, ?_, rfl, ?_, ?_, ?_, ?_, ?_, ?_⟩
  · exact hpre
  · intro hk
    rw [if_pos hk] at hLe hRe hLs hRs
    exact ⟨hLs, hLe, hRs, hRe⟩
  · intro hk
    rw [if_neg hk] at hLe hRe hLs hRs
    exact ⟨hLs, hLe, hRs, hRe⟩
  · rw [hh, hLe, hRe]
    split_ifs
    · rw [Multiset.coe_add, Multiset.cons_coe, Multiset.coe_eq_coe]
      simp only [List.append_assoc, List.singleton_append]
      exact List.perm_middle
    · rw [Multiset.coe_add, Multiset.cons_coe, Multiset.coe_eq_coe, ← List.append_assoc]
      exact List.perm_append_singleton _ _
  · rw [hLs, hRs]
    split_ifs <;> omega
  · intro m fuel r href hM hroot h2 h3
    exact splitLeaf_rootLeaf_leaves ly fuel s leafNum r key rid L m href hL hM hroot h1 h2 h3
  · intro m R0 fuel r href hM hnl hR hlev h2 h3
    have hlh : leafNum ≠ s.headerPageNum := by
      intro hc; rw [hc, hM] at hL; cases hL
    have a2 : s.headerPageNum ≠ s.bufMgr.numPages + 1 := by omega
    have a3 : leafNum ≠ s.bufMgr.numPages + 2 := by omega
    have a4 : s.bufMgr.numPages + 1 ≠ s.bufMgr.numPages + 2 := by omega
    have a5 : s.bufMgr.numPages + 1 ≠ leafNum := by omega
    obtain ⟨e1, e2, _⟩ := splitLeaf_below_level1_root ly fuel s leafNum r key rid L m R0
      href hL hM hnl hR hlev h1 h2 h3
    refine ⟨e1, ?_, ?_⟩
    · rw [e2, upd_other _ _ _ _ hlh, upd_other _ _ _ _ a3, upd_same]
    · rw [e2, upd_other _ _ _ _ (Ne.symm a2), upd_other _ _ _ _ a4, upd_other _ _ _ _ a5,
        upd_same]

/-- C12 on the full root leaf with keys 1, 2, 3, 4 (page 2) and the new pair
`(5, rid 15)`: the left leaf keeps `(1, rid 11), (2, rid 12)`, the new leaf
(page 3) holds `(3, rid 13), (4, rid 14), (5, rid 15)`, and the slots add up to
`leafOccupancy + 1 = 5`. -/
theorem C12_splitLeaf_moves_upper_half_witness :
    (fullRootLeaf.leafAt Layout.zeros 2).slot = fullRootLeaf.leafOccupancy ∧
    (splitLeafMove Layout.zeros 2 5 ⟨15, 0⟩ fullRootLeaf).1 = 3 ∧
    liveEntries (leftAfterMove Layout.zeros fullRootLeaf 2 5 ⟨15, 0⟩)
      = [(1, ⟨11, 0⟩), (2, ⟨12, 0⟩)] ∧
    liveEntries (rightAfterMove Layout.zeros fullRootLeaf 2 5 ⟨15, 0⟩)
      = [(3, ⟨13, 0⟩), (4, ⟨14, 0⟩), (5, ⟨15, 0⟩)] ∧
    (leftAfterMove Layout.zeros fullRootLeaf 2 5 ⟨15, 0⟩).slot
      + (rightAfterMove Layout.zeros fullRootLeaf 2 5 ⟨15, 0⟩).slot = 5 := by
  have h := C12_splitLeaf_moves_upper_half Layout.zeros fullRootLeaf 2 5 ⟨15, 0⟩
    (fullRootLeaf.leafAt Layout.zeros 2) rfl (by decide) (by decide) (by decide)
  have hk : ¬ (5 : Int) < (rightAfterMove Layout.zeros fullRootLeaf 2 5 ⟨15, 0⟩).keyArray 0 := by
    rw [h.2.2.1]; decide
  have h5 := h.2.2.2.2.1 hk
  exact ⟨by decide, h.1, h5.2.1.trans (by decide), h5.2.2.2.trans (by decide),
    h.2.2.2.2.2.2.1.trans (by decide)⟩

/-! ## Theorems: the sibling chain after a split -/

/-- On a root leaf `splitLeaf` writes four pages: the two leaves, the new
non-leaf page and the header. -/
theorem splitLeaf_rootLeaf_other_pages (ly : Layout) (fuel : Nat) (s : BTreeIndex)
    (leafNum : Nat) (r : PageRef) (key : Int) (rid : RecordId) (L : LeafNodeInt)
    (m : IndexMetaInfo) (href : r.get s = leafNum)
    (hL : s.bufMgr.pages leafNum = Page.leaf L)
    (hM : s.bufMgr.pages s.headerPageNum = Page.meta m)
    (hroot : m.rootLeaf = true)
    (h1 : leafNum ≤ s.bufMgr.numPages) (h2 : s.headerPageNum ≤ s.bufMgr.numPages)
    (h3 : leafNum ≠ s.headerPageNum) (q : Nat) (hq1 : q ≠ leafNum)
    (hq2 : q ≠ s.bufMgr.numPages + 1) (hq3 : q ≠ s.bufMgr.numPages + 2)
    (hq4 : q ≠ s.headerPageNum) :
    (splitLeaf ly fuel r key rid s).2.bufMgr.pages q = s.bufMgr.pages q := by
  rw [splitLeaf_rootLeaf_eq ly fuel s leafNum r key rid L m href hL hM hroot h1 h2 h3]
  show upd (upd (upd (upd s.bufMgr.pages _ _) _ _) _ _) _ _ q = _
  rw [upd_other _ _ _ _ hq4, upd_other _ _ _ _ hq3, upd_other _ _ _ _ hq1,
    upd_other _ _ _ _ hq2]

/-- C13: the first part of `splitLeaf` (the links are set at lines 667-669)
gives the new leaf `R` a page number that was not in the file, sets
`R.rightSibPageNo` to the value `L.rightSibPageNo` had before the split and
`L.rightSibPageNo` to the page number of `R`, and changes no page other than
`L` and `R`: the chain from `L` reads `L`, `R`, the old successor of `L`, and no
other leaf has its `rightSibPageNo` changed. When `L` is the root leaf,
`splitLeaf` returns with the two leaves linked so and with no page changed
besides the two leaves, the new non-leaf page and the header; the same holds
when `L` is a leaf below a non-leaf root of level 1. -/
theorem C13_split_links_siblings (ly : Layout) (s : BTreeIndex) (leafNum : Nat)
    (key : Int) (rid : RecordId) (L : LeafNodeInt)
    (hL : s.bufMgr.pages leafNum = Page.leaf L) (h1 : leafNum ≤ s.bufMgr.numPages) :
    (splitLeafMove ly leafNum key rid s).1 = s.bufMgr.numPages + 1 ∧
    (rightAfterMove ly s leafNum key rid).rightSibPageNo = L.rightSibPageNo ∧
    (leftAfterMove ly s leafNum key rid).rightSibPageNo
      = (splitLeafMove ly leafNum key rid s).1 ∧
    (∀ q, q ≠ leafNum → q ≠ (splitLeafMove ly leafNum key rid s).1 →
      (splitLeafMove ly leafNum key rid s).2.bufMgr.pages q = s.bufMgr.pages q) ∧
    (∀ (m : IndexMetaInfo) (fuel : Nat) (r : PageRef), r.get s = leafNum →
      s.bufMgr.pages s.headerPageNum = Page.meta m →
      m.rootLeaf = true → s.headerPageNum ≤ s.bufMgr.numPages → leafNum ≠ s.headerPageNum →
      (splitLeaf ly fuel r key rid s).1 = Res.ok () ∧
      ((splitLeaf ly fuel r key rid s).2.leafAt ly leafNum).rightSibPageNo
        = s.bufMgr.numPages + 1 ∧
      ((splitLeaf ly fuel r key rid s).2.leafAt ly
        (s.bufMgr.numPages + 1)).rightSibPageNo = L.rightSibPageNo ∧
      (∀ q, q ≠ leafNum → q ≠ s.bufMgr.numPages + 1 → q ≠ s.bufMgr.numPages + 2 →
        q ≠ s.headerPageNum →
        (splitLeaf ly fuel r key rid s).2.bufMgr.pages q = s.bufMgr.pages q)) ∧
    (∀ (m : IndexMetaInfo) (R0 : NonLeafNodeInt) (fuel : Nat) (r : PageRef),
      r.get s = leafNum →
      s.bufMgr.pages s.headerPageNum = Page.meta m → m.rootLeaf = false →
      s.bufMgr.pages s.rootPageNum = Page.node R0 → R0.level ≤ 1 →
      s.headerPageNum ≤ s.bufMgr.numPages → s.rootPageNum ≤ s.bufMgr.numPages →
      (splitLeaf ly (fuel + 1) r key rid s).1 = Res.ok () ∧
      ((splitLeaf ly (fuel + 1) r key rid s).2.leafAt ly leafNum).rightSibPageNo
        = s.bufMgr.numPages + 1 ∧
      ((splitLeaf ly (fuel + 1) r key rid s).2.leafAt ly
        (s.bufMgr.numPages + 1)).rightSibPageNo = L.rightSibPageNo ∧
      (∀ q, q ≠ leafNum → q ≠ s.bufMgr.numPages + 1 → q ≠ s.bufMgr.numPages + 2 →
        q ≠ s.headerPageNum →
        (splitLeaf ly (fuel + 1) r key rid s).2.bufMgr.pages q = s.bufMgr.pages q)) := by
  have hf := splitLeafMove_fst ly s leafNum key rid L hL h1
  rw [leftAfterMove_eq ly s leafNum key rid L hL h1,
    rightAfterMove_eq ly s leafNum key rid L hL h1, hf]
  refine ⟨rfl, splitRight_rightSib _ _ _ _, splitLeft_rightSib _ _ _ _ _, ?_, ?_, ?_⟩
  · intro q hq hq2
    exact splitLeafMove_other_pages ly s leafNum key rid L hL h1 q hq hq2
  · intro m fuel r href hM hroot h2 h3
    have h := splitLeaf_rootLeaf_leaves ly fuel s leafNum r key rid L m href hL hM hroot h1 h2 h3
    refine ⟨h.1, ?_, ?_, ?_⟩
    · show (Page.asLeaf ly
        ((splitLeaf ly fuel r key rid s).2.bufMgr.pages leafNum)).rightSibPageNo = _
      rw [h.2.1]
      exact splitLeft_rightSib _ _ _ _ _
    · show (Page.asLeaf ly ((splitLeaf ly fuel r key rid s).2.bufMgr.pages
        (s.bufMgr.numPages + 1))).rightSibPageNo = _
      rw [h.2.2]
      exact splitRight_rightSib _ _ _ _
    · intro q q1 q2 q3 q4
      exact splitLeaf_rootLeaf_other_pages ly fuel s leafNum r key rid L m href hL hM hroot h1 h2
        h3
        q q1 q2 q3 q4
  · intro m R0 fuel r href hM hnl hR hlev h2 h3
    have hlh : leafNum ≠ s.headerPageNum := by
      intro hc; rw [hc, hM] at hL; cases hL
    have a1 : s.headerPageNum ≠ s.bufMgr.numPages + 2 := by omega
    have a2 : s.headerPageNum ≠ s.bufMgr.numPages + 1 := by omega
    have a3 : leafNum ≠ s.bufMgr.numPages + 2 := by omega
    have a4 : s.bufMgr.numPages + 1 ≠ s.bufMgr.numPages + 2 := by omega
    have a5 : s.bufMgr.numPages + 1 ≠ leafNum := by omega
    obtain ⟨e1, e2, _⟩ := splitLeaf_below_level1_root ly fuel s leafNum r key rid L m R0
      href hL hM hnl hR hlev h1 h2 h3
    refine ⟨e1, ?_, ?_, ?_⟩
    · show (Page.asLeaf ly
        ((splitLeaf ly (fuel + 1) r key rid s).2.bufMgr.pages leafNum)).rightSibPageNo = _
      rw [e2, upd_other _ _ _ _ hlh, upd_other _ _ _ _ a3, upd_same]
      exact splitLeft_rightSib _ _ _ _ _
    · show (Page.asLeaf ly ((splitLeaf ly (fuel + 1) r key rid s).2.bufMgr.pages
        (s.bufMgr.numPages + 1))).rightSibPageNo = _
      rw [e2, upd_other _ _ _ _ (Ne.symm a2), upd_other _ _ _ _ a4, upd_other _ _ _ _ a5,
        upd_same]
      exact splitRight_rightSib _ _ _ _
    · intro q q1 q2 q3 q4
      rw [e2, upd_other _ _ _ _ q4, upd_other _ _ _ _ q3, upd_other _ _ _ _ q1,
        upd_other _ _ _ _ q2]

/-- C13 on the full root leaf with keys 1, 2, 3, 4 (page 2, no right sibling):
after `splitLeaf` with key 5 the chain reads page 2, page 3, end. -/
theorem C13_split_links_siblings_witness :
    (fullRootLeaf.leafAt Layout.zeros 2).rightSibPageNo = 0 ∧
    (splitLeaf Layout.zeros 0 PageRef.rootMember 5 ⟨15, 0⟩ fullRootLeaf).1 = Res.ok () ∧
    ((splitLeaf Layout.zeros 0 PageRef.rootMember 5 ⟨15, 0⟩ fullRootLeaf).2.leafAt
      Layout.zeros 2).rightSibPageNo = 3 ∧
    ((splitLeaf Layout.zeros 0 PageRef.rootMember 5 ⟨15, 0⟩ fullRootLeaf).2.leafAt
      Layout.zeros 3).rightSibPageNo = 0 := by
  have h := (C13_split_links_siblings Layout.zeros fullRootLeaf 2 5 ⟨15, 0⟩
    (fullRootLeaf.leafAt Layout.zeros 2) rfl (by decide)).2.2.2.2.1
    (fullRootLeaf.metaAt Layout.zeros 1) 0 PageRef.rootMember rfl rfl (by decide) (by decide) (by decide)
  exact ⟨by decide, h.1, h.2.1, h.2.2.1⟩

/-- C17 (evaluated on the code): let leaf `leafNum` be child `i` of the root,
a level-1 non-leaf page `R0` with `slot < nodeOccupancy`, and let `insertLeaf`
find the leaf full. The insert terminates, but the parent is left exactly as it
was: its `slot` is not increased and the promoted pair is not stored in it.
Instead `insertNonLeaf` takes its first branch (`level >= root->level`,
line 523) and records the fresh one-child page `numPages + 2` as the root: the
header's `rootPageNo` changes, and the new root points to the new leaf only. -/
theorem C17_promoted_pair_not_stored_in_parent (ly : Layout) (fuel : Nat) (s : BTreeIndex)
    (leafNum : Nat) (pr : PageRef) (key : Int) (rid : RecordId) (L : LeafNodeInt)
    (m : IndexMetaInfo) (href : pr.get s = leafNum)
    (R0 : NonLeafNodeInt) (i : Int)
    (hL : s.bufMgr.pages leafNum = Page.leaf L) (hfull : ¬ L.slot < s.leafOccupancy)
    (hM : s.bufMgr.pages s.headerPageNum = Page.meta m) (hnl : m.rootLeaf = false)
    (hroot : m.rootPageNo = s.rootPageNum)
    (hR : s.bufMgr.pages s.rootPageNum = Page.node R0) (hlev : R0.level = 1)
    (hchild : 0 ≤ i ∧ i ≤ R0.slot ∧ R0.pageNoArray i = leafNum)
    (hslot : R0.slot < s.nodeOccupancy)
    (h1 : leafNum ≤ s.bufMgr.numPages) (h2 : s.headerPageNum ≤ s.bufMgr.numPages)
    (h3 : s.rootPageNum ≤ s.bufMgr.numPages) :
    (insertLeaf ly (fuel + 1) pr key rid s).1 = Res.ok () ∧
    ((insertLeaf ly (fuel + 1) pr key rid s).2.nodeAt ly s.rootPageNum) = R0 ∧
    ((insertLeaf ly (fuel + 1) pr key rid s).2.nodeAt ly s.rootPageNum).slot
      ≠ R0.slot + 1 ∧
    ((insertLeaf ly (fuel + 1) pr key rid s).2.nodeAt ly s.rootPageNum).slot
      < s.nodeOccupancy ∧
    ((insertLeaf ly (fuel + 1) pr key rid s).2.nodeAt ly s.rootPageNum).pageNoArray i
      = leafNum ∧
    ((insertLeaf ly (fuel + 1) pr key rid s).2.metaAt ly s.headerPageNum).rootPageNo
      = s.bufMgr.numPages + 2 ∧
    ((insertLeaf ly (fuel + 1) pr key rid s).2.metaAt ly s.headerPageNum).rootPageNo
      ≠ m.rootPageNo ∧
    ((insertLeaf ly (fuel + 1) pr key rid s).2.nodeAt ly
      (s.bufMgr.numPages + 2)).pageNoArray
      = upd (fun _ => 0) 0 (s.bufMgr.numPages + 1) := by
  have a1 : s.headerPageNum ≠ s.bufMgr.numPages + 2 := by omega
  have a3 : s.rootPageNum ≠ s.bufMgr.numPages + 2 := by omega
  have a4 : s.rootPageNum ≠ s.bufMgr.numPages + 1 := by omega
  have hlr : leafNum ≠ s.rootPageNum := by
    intro hc; rw [hc, hR] at hL; cases hL
  have hrh : s.rootPageNum ≠ s.headerPageNum := by
    intro hc; rw [hc, hM] at hR; cases hR
  rw [insertLeaf_full_eq ly (fuel + 1) s leafNum pr key rid L href hL hfull]
  obtain ⟨e1, e2, _, _, _⟩ := splitLeaf_below_level1_root ly fuel
    ((s.readPage leafNum).unPinPage leafNum) leafNum pr key rid L m R0
      ((PageRef.get_congr pr _ s rfl).trans href) hL hM hnl hR (le_of_eq hlev) h1 h2 h3
  have g1 : (splitLeaf ly (fuel + 1) pr key rid
      ((s.readPage leafNum).unPinPage leafNum)).2.bufMgr.pages s.rootPageNum
        = Page.node R0 := by
    rw [e2]
    show upd (upd (upd (upd s.bufMgr.pages (s.bufMgr.numPages + 1) _) leafNum _)
        (s.bufMgr.numPages + 2) _) s.headerPageNum _ s.rootPageNum = _
    rw [upd_other _ _ _ _ hrh, upd_other _ _ _ _ a3, upd_other _ _ _ _ (Ne.symm hlr),
      upd_other _ _ _ _ a4]
    exact hR
  have g2 : (splitLeaf ly (fuel + 1) pr key rid
      ((s.readPage leafNum).unPinPage leafNum)).2.bufMgr.pages s.headerPageNum
        = Page.meta { m with rootPageNo := s.bufMgr.numPages + 2 } := by
    rw [e2]
    show upd (upd (upd (upd s.bufMgr.pages (s.bufMgr.numPages + 1) _) leafNum _)
        (s.bufMgr.numPages + 2) _) s.headerPageNum _ s.headerPageNum = _
    rw [upd_same]
    rfl
  have g3 : (splitLeaf ly (fuel + 1) pr key rid
      ((s.readPage leafNum).unPinPage leafNum)).2.bufMgr.pages (s.bufMgr.numPages + 2)
        = Page.node
            { level := 1, slot := 1,
              keyArray := upd (fun _ => 0) 0
                ((splitRight s.leafOccupancy L key rid).keyArray 0),
              pageNoArray := upd (fun _ => 0) 0 (s.bufMgr.numPages + 1) } := by
    rw [e2]
    show upd (upd (upd (upd s.bufMgr.pages (s.bufMgr.numPages + 1) _) leafNum _)
        (s.bufMgr.numPages + 2) _) s.headerPageNum _ (s.bufMgr.numPages + 2) = _
    rw [upd_other _ _ _ _ (Ne.symm a1), upd_same]
    rfl
  simp only [BTreeIndex.nodeAt, BTreeIndex.metaAt, g1, g2, g3, Page.asNode, Page.asMeta]
  refine ⟨e1, trivial, by omega, hslot, hchild.2.2, trivial, by omega, trivial⟩

/-- C17 on the two-leaf tree with keys 1 to 6: the root (page 4) has one
separator and room for more, its child 1 (page 3) is full. Storing key 7 in
page 3 leaves page 4 with `slot = 1` and changes the header's `rootPageNo` from
4 to 6. -/
theorem C17_promoted_pair_not_stored_in_parent_witness :
    (sixKeysLinked.nodeAt Layout.zeros 4).slot = 1 ∧
    (sixKeysLinked.nodeAt Layout.zeros 4).pageNoArray 1 = 3 ∧
    sixKeysLinked.nodeOccupancy = 3 ∧
    (sixKeysLinked.metaAt Layout.zeros 1).rootPageNo = 4 ∧
    (insertLeaf Layout.zeros 1 (PageRef.localVar 3) 7 ⟨17, 0⟩ sixKeysLinked).1 = Res.ok () ∧
    ((insertLeaf Layout.zeros 1 (PageRef.localVar 3) 7 ⟨17, 0⟩ sixKeysLinked).2.nodeAt
        Layout.zeros 4).slot
      = 1 ∧
    ((insertLeaf Layout.zeros 1 (PageRef.localVar 3) 7 ⟨17, 0⟩ sixKeysLinked).2.metaAt
      Layout.zeros 1).rootPageNo = 6 := by
  have h := C17_promoted_pair_not_stored_in_parent Layout.zeros 0 sixKeysLinked 3
    (PageRef.localVar 3) 7 ⟨17, 0⟩
    (sixKeysLinked.leafAt Layout.zeros 3) (sixKeysLinked.metaAt Layout.zeros 1) rfl
    (sixKeysLinked.nodeAt Layout.zeros 4) 1 rfl (by decide) rfl (by decide) (by decide) rfl
    (by decide) (by decide) (by decide) (by decide) (by decide) (by decide)
  exact ⟨by decide, by decide, by decide, by decide, h.1, by decide, h.2.2.2.2.2.1⟩

/-! ## Theorems: the descent of an insert at a level-1 root -/

theorem traversalFor_some (r : NonLeafNodeInt) (key : Int) :
    ∀ (n : Nat) (i : Int) (c : Nat), traversalFor r key n i = some c →
      ∃ d : Nat, d < n ∧ c = r.pageNoArray (i + (d : Int)) ∧ key < r.keyArray (i + (d : Int)) ∧
        ∀ e : Nat, e < d → ¬ key < r.keyArray (i + (e : Int)) := by
  intro n
  induction n with
  | zero => intro i c h; simp [traversalFor] at h
  | succ n ih =>
    intro i c h
    rw [traversalFor] at h
    split_ifs at h with hk
    · injection h with h
      exact ⟨0, by omega, by simp [h], by simpa using hk, fun e he => by omega⟩
    · obtain ⟨d, h1, h2, h3, h4⟩ := ih (i + 1) c h
      refine ⟨d + 1, by omega, ?_, ?_, ?_⟩
      · rw [h2]; congr 1; push_cast; ring
      · have e : i + ((d + 1 : Nat) : Int) = i + 1 + (d : Int) := by push_cast; ring
        rw [e]; exact h3
      · intro e he
        cases e with
        | zero => simpa using hk
        | succ e =>
          have e2 : i + ((e + 1 : Nat) : Int) = i + 1 + (e : Int) := by push_cast; ring
          rw [e2]; exact h4 e (by omega)

theorem traversalFor_none (r : NonLeafNodeInt) (key : Int) :
    ∀ (n : Nat) (i : Int), traversalFor r key n i = none →
      ∀ e : Nat, e < n → ¬ key < r.keyArray (i + (e : Int)) := by
  intro n
  induction n with
  | zero => intro i _ e he; omega
  | succ n ih =>
    intro i h e he
    rw [traversalFor] at h
    split_ifs at h with hk
    cases e with
    | zero => simpa using hk
    | succ e =>
      have e2 : i + ((e + 1 : Nat) : Int) = i + 1 + (e : Int) := by push_cast; ring
      rw [e2]; exact ih (i + 1) h e (by omega)

/-- The child chosen by the loop of `traversal` is the child of the descent
rule: `pageNoArray[i]` for the smallest `i < slot` with `key < keyArray[i]`,
and `pageNoArray[slot]` if there is none. -/
theorem chosenChild_rule (r : NonLeafNodeInt) (key : Int) (h0 : 0 ≤ r.slot) :
    (∀ i, 0 ≤ i → i < r.slot → key < r.keyArray i →
      (∀ j, 0 ≤ j → j < i → ¬ key < r.keyArray j) →
      chosenChild r key = r.pageNoArray i) ∧
    ((∀ j, 0 ≤ j → j < r.slot → ¬ key < r.keyArray j) →
      chosenChild r key = r.pageNoArray r.slot) := by
  have key1 : ∀ c, traversalFor r key (r.slot + 1).toNat 0 = some c →
      ∃ d : Nat, (d : Int) ≤ r.slot ∧ c = r.pageNoArray d ∧ key < r.keyArray d ∧
        ∀ e : Nat, e < d → ¬ key < r.keyArray e := by
    intro c hc
    obtain ⟨d, h1, h2, h3, h4⟩ := traversalFor_some r key _ 0 c hc
    simp only [zero_add] at h2 h3 h4
    exact ⟨d, by omega, h2, h3, h4⟩
  constructor
  · intro i hi0 hi hk hmin
    unfold chosenChild
    cases hc : traversalFor r key (r.slot + 1).toNat 0 with
    | none =>
      have := traversalFor_none r key _ 0 hc i.toNat (by omega)
      simp only [zero_add] at this
      rw [Int.toNat_of_nonneg hi0] at this
      exact absurd hk this
    | some c =>
      obtain ⟨d, _, h2, h3, h4⟩ := key1 c hc
      show c = _
      have hdi : (d : Int) = i := by
        rcases lt_trichotomy (d : Int) i with hlt | heq | hgt
        · exact absurd h3 (hmin d (by omega) hlt)
        · exact heq
        · have := h4 i.toNat (by omega)
          rw [Int.toNat_of_nonneg hi0] at this
          exact absurd hk this
      rw [h2, hdi]
  · intro hnone
    unfold chosenChild
    cases hc : traversalFor r key (r.slot + 1).toNat 0 with
    | none => rfl
    | some c =>
      obtain ⟨d, h1, h2, h3, _⟩ := key1 c hc
      show c = _
      have hds : (d : Int) = r.slot := by
        rcases lt_or_eq_of_le h1 with hlt | heq
        · exact absurd h3 (hnone d (by omega) hlt)
        · exact heq
      rw [h2, hds]

/-- At a level-1 root every round of the loop of `traversal` reads the chosen
child through a node pointer and searches it; the rounds differ in pin counts
only. So the loop returns in its first round or in none. -/
theorem traversalWhile_level1_result (ly : Layout) (key : Int)
    (recur : Nat → BTreeIndex → Res Nat × BTreeIndex) (rootFrame root : Nat) (n : Nat) :
    ∀ s : BTreeIndex,
      (traversalFor (s.nodeAt ly (chosenChild (s.nodeAt ly rootFrame) key)) key
          (s.nodeAt ly (chosenChild (s.nodeAt ly rootFrame) key)).slot.toNat 0 = none →
        (traversalWhile ly key recur rootFrame 1 root n s).1 = Res.timeout) ∧
      (∀ p, traversalFor (s.nodeAt ly (chosenChild (s.nodeAt ly rootFrame) key)) key
          (s.nodeAt ly (chosenChild (s.nodeAt ly rootFrame) key)).slot.toNat 0 = some p →
        (traversalWhile ly key recur rootFrame 1 root (n + 1) s).1 = Res.ok p) := by
  induction n with
  | zero =>
    intro s
    refine ⟨fun _ => rfl, fun p hp => ?_⟩
    rw [traversalWhile]
    simp only [if_true, nodeAt_readPage, nodeAt_unPinPage]
    unfold chosenChild at hp
    rw [hp]
  | succ n ih =>
    intro s
    refine ⟨fun hnone => ?_, fun p hp => ?_⟩
    · rw [traversalWhile]
      simp only [if_true, nodeAt_readPage, nodeAt_unPinPage]
      have hnone2 := hnone
      unfold chosenChild at hnone2
      rw [hnone2]
      exact (ih _).1 (by simpa using hnone)
    · rw [traversalWhile]
      simp only [if_true, nodeAt_readPage, nodeAt_unPinPage]
      unfold chosenChild at hp
      rw [hp]

/-- The outcome of `traversal` at a level-1 root is decided by the page of the
chosen child read as a non-leaf node: it is an entry of that page's
`pageNoArray`, or the call never returns. -/
theorem traversal_level1_result (ly : Layout) (key : Int) (root : Nat) (s : BTreeIndex)
    (hlev : (s.nodeAt ly s.rootPageNum).level = 1) :
    (traversalFor (s.nodeAt ly (chosenChild (s.nodeAt ly s.rootPageNum) key)) key
        (s.nodeAt ly (chosenChild (s.nodeAt ly s.rootPageNum) key)).slot.toNat 0 = none →
      ∀ fuel, (traversal ly key fuel root s).1 = Res.timeout) ∧
    (∀ p, traversalFor (s.nodeAt ly (chosenChild (s.nodeAt ly s.rootPageNum) key)) key
        (s.nodeAt ly (chosenChild (s.nodeAt ly s.rootPageNum) key)).slot.toNat 0 = some p →
      ∀ fuel, (traversal ly key (fuel + 1) root s).1 = Res.ok p) := by
  have hstep : ∀ fuel, traversal ly key (fuel + 1) root s
      = traversalWhile ly key (traversal ly key fuel) s.rootPageNum 1 root (fuel + 1)
          (s.readPage s.rootPageNum) := by
    intro fuel
    rw [traversal]
    simp only [nodeAt_readPage]
    rw [show (s.readPage s.rootPageNum).rootPageNum = s.rootPageNum from rfl, hlev]
    simp
  constructor
  · intro hnone fuel
    cases fuel with
    | zero => rfl
    | succ fuel =>
      rw [hstep]
      exact (traversalWhile_level1_result ly key _ s.rootPageNum root (fuel + 1)
        (s.readPage s.rootPageNum)).1 (by simpa using hnone)
  · intro p hp fuel
    rw [hstep]
    exact (traversalWhile_level1_result ly key _ s.rootPageNum root fuel
      (s.readPage s.rootPageNum)).2 p (by simpa using hp)

theorem sixKeysSwapped_page2 :
    sixKeysSwapped.bufMgr.pages 2 = Page.leaf (sixKeysLinked.leafAt Layout.zeros 3) := by
  simp only [sixKeysSwapped, setNodePageNo, BTreeIndex.write, BufMgr.write]
  rfl

theorem sixKeysSwapped_right_leaf :
    sixKeysLinked.leafAt Layout.zeros 3 = sixKeysSwapped.leafAt Layout.zeros 2 := by
  show _ = Page.asLeaf Layout.zeros (sixKeysSwapped.bufMgr.pages 2)
  rw [sixKeysSwapped_page2]
  rfl

/-- C16 (evaluated on the code): at a level-1 root `traversal` chooses the
child by the descent rule (`chosenChild_rule`), but it does not return that
child's page number. It reads the child, a leaf, through a pointer to a
non-leaf node and returns `pageNoArray[i]` of that reading for the first
`i < slot` with `key < keyArray[i]` (lines 309-314); if there is none it goes
round its `while (level >= 1)` loop again, for ever. So the call returns a
number read from the bytes of the leaf, or does not terminate. Whatever the
struct layout, this is not the child of the rule: on two well-formed trees
that hold the same leaves at exchanged page numbers the rule sends key 7 to
page 3 in one and to page 2 in the other, and `traversal` cannot return both.
Under a layout that reads a leaf as zero bytes, it never returns. -/
theorem C16_traversal_returns_from_leaf_bytes (ly : Layout) (fuel : Nat) :
    (∀ (key : Int) (root : Nat) (s : BTreeIndex),
      (s.nodeAt ly s.rootPageNum).level = 1 →
      (traversalFor (s.nodeAt ly (chosenChild (s.nodeAt ly s.rootPageNum) key)) key
          (s.nodeAt ly (chosenChild (s.nodeAt ly s.rootPageNum) key)).slot.toNat 0 = none →
        ∀ n, (traversal ly key n root s).1 = Res.timeout) ∧
      (∀ p, traversalFor (s.nodeAt ly (chosenChild (s.nodeAt ly s.rootPageNum) key)) key
          (s.nodeAt ly (chosenChild (s.nodeAt ly s.rootPageNum) key)).slot.toNat 0 = some p →
        ∀ n, (traversal ly key (n + 1) root s).1 = Res.ok p) ∧
      (∀ l, s.bufMgr.pages (chosenChild (s.nodeAt ly s.rootPageNum) key) = Page.leaf l →
        s.nodeAt ly (chosenChild (s.nodeAt ly s.rootPageNum) key) = ly.leafAsNode l)) ∧
    chosenChild (sixKeysLinked.nodeAt Layout.zeros 4) 7 = 3 ∧
    chosenChild (sixKeysSwapped.nodeAt Layout.zeros 4) 7 = 2 ∧
    sixKeysLinked.leafAt Layout.zeros 3 = sixKeysSwapped.leafAt Layout.zeros 2 ∧
    ¬ ((traversal ly 7 fuel 4 sixKeysLinked).1 = Res.ok 3 ∧
       (traversal ly 7 fuel 4 sixKeysSwapped).1 = Res.ok 2) ∧
    (traversal Layout.zeros 7 fuel 4 sixKeysLinked).1 = Res.timeout := by
  have e1 : sixKeysLinked.nodeAt ly
      (chosenChild (sixKeysLinked.nodeAt ly sixKeysLinked.rootPageNum) 7)
        = ly.leafAsNode (sixKeysLinked.leafAt Layout.zeros 3) := rfl
  have e2 : sixKeysSwapped.nodeAt ly
      (chosenChild (sixKeysSwapped.nodeAt ly sixKeysSwapped.rootPageNum) 7)
        = ly.leafAsNode (sixKeysLinked.leafAt Layout.zeros 3) := rfl
  have r1 := traversal_level1_result ly 7 4 sixKeysLinked rfl
  have r2 := traversal_level1_result ly 7 4 sixKeysSwapped rfl
  rw [e1] at r1
  rw [e2] at r2
  refine ⟨?_, by decide, by decide, sixKeysSwapped_right_leaf, ?_, ?_⟩
  · intro key root s hlev
    have h := traversal_level1_result ly key root s hlev
    refine ⟨h.1, h.2, ?_⟩
    intro l hl
    show Page.asNode ly (s.bufMgr.pages _) = _
    rw [hl]; rfl
  · rintro ⟨h3, h2⟩
    cases hc : traversalFor (ly.leafAsNode (sixKeysLinked.leafAt Layout.zeros 3)) 7
        (ly.leafAsNode (sixKeysLinked.leafAt Layout.zeros 3)).slot.toNat 0 with
    | none =>
      rw [r1.1 hc fuel] at h3
      simp at h3
    | some p =>
      cases fuel with
      | zero => simp [traversal] at h3
      | succ n =>
        rw [r1.2 p hc n] at h3
        rw [r2.2 p hc n] at h2
        injection h3 with h3
        injection h2 with h2
        omega
  · exact (traversal_level1_result Layout.zeros 7 4 sixKeysLinked rfl).1 rfl fuel

/-! ## Theorems: closed form of a non-leaf split -/

theorem nodeCopyResult_zero (N R : NonLeafNodeInt) (i : Int) : nodeCopyResult N R 0 i = R := by
  unfold nodeCopyResult
  have e1 : (fun x => if R.slot ≤ x ∧ x < R.slot + ((0 : Nat) : Int)
      then N.keyArray (i + (x - R.slot)) else R.keyArray x) = R.keyArray := by
    funext x; rw [if_neg]; omega
  have e2 : (fun x => if R.slot ≤ x ∧ x < R.slot + ((0 : Nat) : Int)
      then N.pageNoArray (i + (x - R.slot)) else R.pageNoArray x) = R.pageNoArray := by
    funext x; rw [if_neg]; omega
  rw [e1, e2]; simp

theorem nodeCopyResult_succ (N R : NonLeafNodeInt) (n : Nat) (i : Int) :
    nodeCopyResult N
      { R with slot := R.slot + 1, keyArray := upd R.keyArray R.slot (N.keyArray i),
               pageNoArray := upd R.pageNoArray R.slot (N.pageNoArray i) } n (i + 1)
      = nodeCopyResult N R (n + 1) i := by
  unfold nodeCopyResult
  simp only [NonLeafNodeInt.mk.injEq, true_and]
  refine ⟨by push_cast; ring, ?_, ?_⟩
  · funext x
    by_cases h1 : x = R.slot
    · subst h1
      rw [if_neg (by omega), if_pos (by push_cast; omega), upd_same]
      congr 1; omega
    · rw [upd_other _ _ _ _ h1]
      by_cases h2 : R.slot + 1 ≤ x ∧ x < R.slot + 1 + (n : Int)
      · rw [if_pos h2, if_pos (by push_cast; omega)]
        congr 1; omega
      · rw [if_neg h2, if_neg (by push_cast; omega)]
  · funext x
    by_cases h1 : x = R.slot
    · subst h1
      rw [if_neg (by omega), if_pos (by push_cast; omega), upd_same]
      congr 1; omega
    · rw [upd_other _ _ _ _ h1]
      by_cases h2 : R.slot + 1 ≤ x ∧ x < R.slot + 1 + (n : Int)
      · rw [if_pos h2, if_pos (by push_cast; omega)]
        congr 1; omega
      · rw [if_neg h2, if_neg (by push_cast; omega)]

theorem splitNonCopy_eq (ly : Layout) (firstID secondID : Nat) (hne : secondID ≠ firstID)
    (N : NonLeafNodeInt) (n : Nat) :
    ∀ (i : Int) (s : BTreeIndex) (R : NonLeafNodeInt),
      s.bufMgr.pages firstID = Page.node N → s.bufMgr.pages secondID = Page.node R →
      splitNonCopy ly firstID secondID n i s
        = s.withPages (upd s.bufMgr.pages secondID (Page.node (nodeCopyResult N R n i))) := by
  induction n with
  | zero =>
    intro i s R hN hR
    rw [nodeCopyResult_zero, upd_self _ _ _ hR]
    rfl
  | succ n ih =>
    intro i s R hN hR
    unfold splitNonCopy
    simp only []
    have hs2 : setNodeSlot ly (insertNodeData ly s secondID
          ((s.nodeAt ly firstID).keyArray i) ((s.nodeAt ly firstID).pageNoArray i)) secondID
          (((insertNodeData ly s secondID ((s.nodeAt ly firstID).keyArray i)
            ((s.nodeAt ly firstID).pageNoArray i)).nodeAt ly secondID).slot + 1)
        = s.withPages (upd s.bufMgr.pages secondID (Page.node
            { R with slot := R.slot + 1, keyArray := upd R.keyArray R.slot (N.keyArray i),
                     pageNoArray := upd R.pageNoArray R.slot (N.pageNoArray i) })) := by
      simp [setNodeSlot, insertNodeData, BTreeIndex.nodeAt, BTreeIndex.write, BufMgr.write,
        BTreeIndex.withPages, hN, hR, Page.asNode]
    rw [hs2, ih (i + 1) _ _ (by
      show upd s.bufMgr.pages secondID _ firstID = _
      rw [upd_other _ _ _ _ (Ne.symm hne), hN]) (by
      show upd s.bufMgr.pages secondID _ secondID = _
      rw [upd_same]), nodeCopyResult_succ]
    simp [BTreeIndex.withPages]

/-- The pages after the first part of `splitNon` (lines 425-451) on a non-leaf
node `N`: the parent page `numPages + 1` is still blank, the second node
`numPages + 2` holds the entries of `N` from index `nodeOccupancy/2` on, and
`N` has its `slot` cut to `nodeOccupancy/2`. -/
theorem splitNonMove_pages (ly : Layout) (s : BTreeIndex) (firstID : Nat)
    (N : NonLeafNodeInt) (hN : s.bufMgr.pages firstID = Page.node N)
    (h1 : firstID ≤ s.bufMgr.numPages) :
    (splitNonMove ly firstID s).1 = (s.bufMgr.numPages + 1, s.bufMgr.numPages + 2) ∧
    (splitNonMove ly firstID s).2.bufMgr.pages
      = upd (upd (upd s.bufMgr.pages (s.bufMgr.numPages + 1) Page.blank)
          (s.bufMgr.numPages + 2) (Page.node (copiedUpper s.nodeOccupancy N)))
          firstID (Page.node { N with slot := Int.tdiv s.nodeOccupancy 2 }) ∧
    (splitNonMove ly firstID s).2.bufMgr.numPages = s.bufMgr.numPages + 2 ∧
    (splitNonMove ly firstID s).2.headerPageNum = s.headerPageNum ∧
    (splitNonMove ly firstID s).2.rootPageNum = s.rootPageNum ∧
    (splitNonMove ly firstID s).2.nodeOccupancy = s.nodeOccupancy := by
  have a1 : s.bufMgr.numPages + 1 ≠ firstID := by omega
  have a2 : s.bufMgr.numPages + 2 ≠ firstID := by omega
  have e4 : setNodeSlot ly (s.readPage firstID).allocPage.2.allocPage.2
        (s.bufMgr.numPages + 2) 0
      = (s.readPage firstID).allocPage.2.allocPage.2.withPages
          (upd (upd s.bufMgr.pages (s.bufMgr.numPages + 1) Page.blank)
            (s.bufMgr.numPages + 2) (Page.node zeroNode)) := by
    simp [setNodeSlot, BTreeIndex.readPage, BTreeIndex.allocPage, BufMgr.readPage,
      BufMgr.allocPage, BTreeIndex.write, BufMgr.write, BTreeIndex.nodeAt, Page.asNode,
      BTreeIndex.withPages, zeroNode]
  have e4N : ((s.readPage firstID).allocPage.2.allocPage.2.withPages
      (upd (upd s.bufMgr.pages (s.bufMgr.numPages + 1) Page.blank)
        (s.bufMgr.numPages + 2) (Page.node zeroNode))).bufMgr.pages firstID = Page.node N := by
    show upd (upd s.bufMgr.pages _ _) _ _ firstID = _
    rw [upd_other _ _ _ _ (Ne.symm a2), upd_other _ _ _ _ (Ne.symm a1), hN]
  have e4R : ((s.readPage firstID).allocPage.2.allocPage.2.withPages
      (upd (upd s.bufMgr.pages (s.bufMgr.numPages + 1) Page.blank)
        (s.bufMgr.numPages + 2) (Page.node zeroNode))).bufMgr.pages (s.bufMgr.numPages + 2)
        = Page.node zeroNode := by
    show upd (upd s.bufMgr.pages _ _) _ _ (s.bufMgr.numPages + 2) = _
    rw [upd_same]
  have e4n : ((s.readPage firstID).allocPage.2.allocPage.2.withPages
      (upd (upd s.bufMgr.pages (s.bufMgr.numPages + 1) Page.blank)
        (s.bufMgr.numPages + 2) (Page.node zeroNode))).nodeAt ly firstID = N := by
    show Page.asNode ly _ = N
    rw [e4N]; rfl
  have hmove : splitNonMove ly firstID s
      = ((s.bufMgr.numPages + 1, s.bufMgr.numPages + 2),
          setNodeSlot ly
            (splitNonCopy ly firstID (s.bufMgr.numPages + 2)
              (((setNodeSlot ly (s.readPage firstID).allocPage.2.allocPage.2
                (s.bufMgr.numPages + 2) 0).nodeAt ly firstID).slot
                  - Int.tdiv s.nodeOccupancy 2).toNat
              (Int.tdiv s.nodeOccupancy 2)
              (setNodeSlot ly (s.readPage firstID).allocPage.2.allocPage.2
                (s.bufMgr.numPages + 2) 0))
            firstID (Int.tdiv s.nodeOccupancy 2)) := rfl
  rw [hmove, e4, e4n,
    splitNonCopy_eq ly firstID (s.bufMgr.numPages + 2) a2 N _ _ _ zeroNode e4N e4R]
  refine ⟨rfl, ?_, rfl, rfl, rfl, rfl⟩
  simp [setNodeSlot, BTreeIndex.write, BufMgr.write, BTreeIndex.withPages, BTreeIndex.nodeAt,
    Page.asNode, upd_other _ _ _ _ (Ne.symm a2), upd_other _ _ _ _ (Ne.symm a1), hN,
    copiedUpper]

theorem copiedUpper_slot (occ : Int) (N : NonLeafNodeInt) :
    (copiedUpper occ N).slot = ((N.slot - Int.tdiv occ 2).toNat : Int) := by
  simp [copiedUpper, nodeCopyResult, zeroNode]

theorem copiedUpper_level (occ : Int) (N : NonLeafNodeInt) :
    (copiedUpper occ N).level = 0 := rfl

theorem copiedUpper_keyArray (occ : Int) (N : NonLeafNodeInt) (x : Int) :
    (copiedUpper occ N).keyArray x
      = if 0 ≤ x ∧ x < ((N.slot - Int.tdiv occ 2).toNat : Int) then
          N.keyArray (Int.tdiv occ 2 + x) else 0 := by
  simp [copiedUpper, nodeCopyResult, zeroNode]

theorem copiedUpper_pageNoArray (occ : Int) (N : NonLeafNodeInt) (x : Int) :
    (copiedUpper occ N).pageNoArray x
      = if 0 ≤ x ∧ x < ((N.slot - Int.tdiv occ 2).toNat : Int) then
          N.pageNoArray (Int.tdiv occ 2 + x) else 0 := by
  simp [copiedUpper, nodeCopyResult, zeroNode]

/-- C18 (evaluated on the code): for a full non-leaf node `N`
(`slot = nodeOccupancy >= 2`), the first part of `splitNon` (lines 425-451)
copies the entries of `N` from index `nodeOccupancy/2` on, not from
`nodeOccupancy/2 + 1`: the new sibling `N'` (page `numPages + 2`) has
`slot = nodeOccupancy - nodeOccupancy/2 >= 1` and the middle key
`M = N.keyArray[nodeOccupancy/2]` at `keyArray[0]`, so `M` is a live key of
`N'`. Each key is copied with the page number at the same index, so `N'`
receives child `nodeOccupancy/2`, the one left of `M`, and the entry after its
last key stays 0: the last child of `N` is not handed over. `N` keeps its
arrays and has `slot = nodeOccupancy/2`. -/
theorem C18_splitNon_copies_middle_key (ly : Layout) (s : BTreeIndex) (firstID : Nat)
    (N : NonLeafNodeInt) (hN : s.bufMgr.pages firstID = Page.node N)
    (h1 : firstID ≤ s.bufMgr.numPages) (hocc : 2 ≤ s.nodeOccupancy)
    (hfull : N.slot = s.nodeOccupancy) :
    (splitNonMove ly firstID s).1 = (s.bufMgr.numPages + 1, s.bufMgr.numPages + 2) ∧
    (splitNonMove ly firstID s).2.nodeAt ly firstID
      = { N with slot := Int.tdiv s.nodeOccupancy 2 } ∧
    ((splitNonMove ly firstID s).2.nodeAt ly (s.bufMgr.numPages + 2)).slot
      = s.nodeOccupancy - Int.tdiv s.nodeOccupancy 2 ∧
    0 < ((splitNonMove ly firstID s).2.nodeAt ly (s.bufMgr.numPages + 2)).slot ∧
    ((splitNonMove ly firstID s).2.nodeAt ly (s.bufMgr.numPages + 2)).keyArray 0
      = N.keyArray (Int.tdiv s.nodeOccupancy 2) ∧
    (∀ j, 0 ≤ j →
      j < ((splitNonMove ly firstID s).2.nodeAt ly (s.bufMgr.numPages + 2)).slot →
      ((splitNonMove ly firstID s).2.nodeAt ly (s.bufMgr.numPages + 2)).keyArray j
        = N.keyArray (Int.tdiv s.nodeOccupancy 2 + j) ∧
      ((splitNonMove ly firstID s).2.nodeAt ly (s.bufMgr.numPages + 2)).pageNoArray j
        = N.pageNoArray (Int.tdiv s.nodeOccupancy 2 + j)) ∧
    ((splitNonMove ly firstID s).2.nodeAt ly (s.bufMgr.numPages + 2)).pageNoArray
      ((splitNonMove ly firstID s).2.nodeAt ly (s.bufMgr.numPages + 2)).slot = 0 := by
  have a2 : s.bufMgr.numPages + 2 ≠ firstID := by omega
  have hb := tdiv_two_bounds s.nodeOccupancy (by omega)
  have hb4 := hb.2.2.2 hocc
  obtain ⟨p1, p2, _⟩ := splitNonMove_pages ly s firstID N hN h1
  have eN : (splitNonMove ly firstID s).2.nodeAt ly firstID
      = { N with slot := Int.tdiv s.nodeOccupancy 2 } := by
    show Page.asNode ly ((splitNonMove ly firstID s).2.bufMgr.pages firstID) = _
    rw [p2, upd_same]; rfl
  have eR : (splitNonMove ly firstID s).2.nodeAt ly (s.bufMgr.numPages + 2)
      = copiedUpper s.nodeOccupancy N := by
    show Page.asNode ly ((splitNonMove ly firstID s).2.bufMgr.pages _) = _
    rw [p2, upd_other _ _ _ _ a2, upd_same]; rfl
  have hn : ((N.slot - Int.tdiv s.nodeOccupancy 2).toNat : Int)
      = s.nodeOccupancy - Int.tdiv s.nodeOccupancy 2 := by omega
  rw [eN, eR, copiedUpper_slot, hn]
  refine ⟨p1, rfl, rfl, by omega, ?_, ?_, ?_⟩
  · rw [copiedUpper_keyArray, if_pos ⟨le_refl _, by omega⟩]; simp
  · intro j hj0 hj
    rw [copiedUpper_keyArray, copiedUpper_pageNoArray, if_pos ⟨hj0, by omega⟩,
      if_pos ⟨hj0, by omega⟩]
    exact ⟨rfl, rfl⟩
  · rw [copiedUpper_pageNoArray, if_neg (by omega)]

/-- C18 on the full root node with keys 10, 20, 30 (page 4, `nodeOccupancy = 3`)
and the entry of page 8 (key 5): the middle key is 20. Under every struct
layout `splitNon` returns, and the new sibling (page 10) has `slot = 2` and
key 20 at `keyArray[0]`. -/
theorem C18_splitNon_copies_middle_key_witness :
    (fullRootNode.nodeAt Layout.zeros 4).keyArray (Int.tdiv fullRootNode.nodeOccupancy 2)
      = 20 ∧
    ((splitNonMove Layout.zeros 4 fullRootNode).2.nodeAt Layout.zeros 10).keyArray 0 = 20 ∧
    0 < ((splitNonMove Layout.zeros 4 fullRootNode).2.nodeAt Layout.zeros 10).slot ∧
    (∀ (ly : Layout) (fuel : Nat),
      (splitNon ly (insertNonLeaf ly (fuel + 1)) 4 8 fullRootNode).1 = Res.ok () ∧
      ((splitNon ly (insertNonLeaf ly (fuel + 1)) 4 8 fullRootNode).2.nodeAt ly 10).slot = 2 ∧
      ((splitNon ly (insertNonLeaf ly (fuel + 1)) 4 8 fullRootNode).2.nodeAt ly 10).keyArray 0
        = 20) := by
  have h := C18_splitNon_copies_middle_key Layout.zeros fullRootNode 4
    (fullRootNode.nodeAt Layout.zeros 4) rfl (by decide) (by decide) (by decide)
  exact ⟨by decide, h.2.2.2.2.1.trans (by decide), h.2.2.2.1,
    fun _ _ => ⟨rfl, rfl, rfl⟩⟩

/-! ## Theorems: the parent built by a non-leaf split -/

/-- The parent page after the second part of `splitNon` (lines 454-461), from a
state in which the parent page is blank: `insertNodeData` stores the first key
and the first page number of the second node at index `slot = 0`, over the page
number of the first node. -/
theorem splitNonParent_parent (ly : Layout) (t : BTreeIndex) (firstID parentID secondID : Nat)
    (N1 N2 : NonLeafNodeInt) (hP : t.bufMgr.pages parentID = Page.blank)
    (h1 : t.bufMgr.pages firstID = Page.node N1)
    (h2 : t.bufMgr.pages secondID = Page.node N2) :
    (splitNonParent ly firstID parentID secondID t).bufMgr.pages parentID
      = Page.node { level := N1.level + 1, slot := 0,
                    keyArray := upd (fun _ => 0) 0 (N2.keyArray 0),
                    pageNoArray := upd (fun _ => 0) 0 (N2.pageNoArray 0) } := by
  have hpf : parentID ≠ firstID := by
    intro hc; rw [hc, h1] at hP; cases hP
  have hps : parentID ≠ secondID := by
    intro hc; rw [hc, h2] at hP; cases hP
  simp [splitNonParent, setNodeSlot, setNodePageNo, insertNodeData, setNodeLevel,
    BTreeIndex.write, BufMgr.write, BTreeIndex.unPinPage, BufMgr.unPinPage,
    BTreeIndex.nodeAt, Page.asNode, hP, h1, h2, zeroNode,
    upd_other _ _ _ _ (Ne.symm hpf), upd_other _ _ _ _ (Ne.symm hps)]

/-- C19 (evaluated on the code): when `splitNon` splits the full non-leaf node
`N` (page `firstID`, `slot = nodeOccupancy >= 2`) into `N` and `N'` (page
`numPages + 2`), the parent page it fills in (page `numPages + 1`, lines
454-461) has `level = N.level + 1` and `keyArray[0] = M`, the middle key, but
its `slot` is 0, not 1; `pageNoArray[0]` is `N'.pageNoArray[0]`, the child of
`N` left of `M`, not the page number of `N` (line 456 stores `firstID` there
and `insertNodeData`, called with `slot = 0`, overwrites it); and
`pageNoArray[1]` is 0, not the page number of `N'`. -/
theorem C19_parent_of_split_root (ly : Layout) (s : BTreeIndex) (firstID : Nat)
    (N : NonLeafNodeInt) (hN : s.bufMgr.pages firstID = Page.node N)
    (h1 : firstID ≤ s.bufMgr.numPages) (hocc : 2 ≤ s.nodeOccupancy)
    (hfull : N.slot = s.nodeOccupancy) :
    (splitNonMove ly firstID s).1 = (s.bufMgr.numPages + 1, s.bufMgr.numPages + 2) ∧
    (parentAfterSplit ly s firstID).level = N.level + 1 ∧
    (parentAfterSplit ly s firstID).keyArray 0 = N.keyArray (Int.tdiv s.nodeOccupancy 2) ∧
    (parentAfterSplit ly s firstID).slot = 0 ∧
    (parentAfterSplit ly s firstID).pageNoArray 0
      = N.pageNoArray (Int.tdiv s.nodeOccupancy 2) ∧
    (parentAfterSplit ly s firstID).pageNoArray 1 = 0 ∧
    (parentAfterSplit ly s firstID).pageNoArray 1 ≠ s.bufMgr.numPages + 2 := by
  have a1 : s.bufMgr.numPages + 1 ≠ firstID := by omega
  have a2 : s.bufMgr.numPages + 2 ≠ firstID := by omega
  have a3 : s.bufMgr.numPages + 1 ≠ s.bufMgr.numPages + 2 := by omega
  have hb := tdiv_two_bounds s.nodeOccupancy (by omega)
  have hb4 := hb.2.2.2 hocc
  obtain ⟨p1, p2, _⟩ := splitNonMove_pages ly s firstID N hN h1
  have hP := splitNonParent_parent ly (splitNonMove ly firstID s).2 firstID
    (s.bufMgr.numPages + 1) (s.bufMgr.numPages + 2)
    { N with slot := Int.tdiv s.nodeOccupancy 2 } (copiedUpper s.nodeOccupancy N)
    (by rw [p2, upd_other _ _ _ _ a1, upd_other _ _ _ _ a3, upd_same])
    (by rw [p2, upd_same])
    (by rw [p2, upd_other _ _ _ _ a2, upd_same])
  have eP : parentAfterSplit ly s firstID
      = { level := N.level + 1, slot := 0,
          keyArray := upd (fun _ => 0) 0 ((copiedUpper s.nodeOccupancy N).keyArray 0),
          pageNoArray := upd (fun _ => 0) 0 ((copiedUpper s.nodeOccupancy N).pageNoArray 0) } := by
    unfold parentAfterSplit
    rw [p1]
    show Page.asNode ly _ = _
    rw [hP]; rfl
  have hk : (copiedUpper s.nodeOccupancy N).keyArray 0
      = N.keyArray (Int.tdiv s.nodeOccupancy 2) := by
    rw [copiedUpper_keyArray, if_pos ⟨le_refl _, by omega⟩]; simp
  have hp : (copiedUpper s.nodeOccupancy N).pageNoArray 0
      = N.pageNoArray (Int.tdiv s.nodeOccupancy 2) := by
    rw [copiedUpper_pageNoArray, if_pos ⟨le_refl _, by omega⟩]; simp
  rw [eP, hk, hp]
  refine ⟨p1, rfl, by simp [upd], rfl, by simp [upd], by simp [upd], by simp [upd]⟩

/-- C19 on the full root node with keys 10, 20, 30 and children 2, 3, 5, 6
(page 4, level 1): under every struct layout `splitNon` returns with the
header's `rootPageNo` set to the parent, page 9, which has `level = 2` and
`keyArray[0] = 20`, but `slot = 0`, `pageNoArray[0] = 3` (a leaf) and
`pageNoArray[1] = 0`; the split nodes are pages 4 and 10. -/
theorem C19_parent_of_split_root_witness :
    (parentAfterSplit Layout.zeros fullRootNode 4).slot = 0 ∧
    (parentAfterSplit Layout.zeros fullRootNode 4).pageNoArray 0 = 3 ∧
    (∀ (ly : Layout) (fuel : Nat),
      (splitNon ly (insertNonLeaf ly (fuel + 1)) 4 8 fullRootNode).1 = Res.ok () ∧
      ((splitNon ly (insertNonLeaf ly (fuel + 1)) 4 8 fullRootNode).2.metaAt ly 1).rootPageNo
        = 9 ∧
      (splitNon ly (insertNonLeaf ly (fuel + 1)) 4 8 fullRootNode).2.rootPageNum = 9 ∧
      ((splitNon ly (insertNonLeaf ly (fuel + 1)) 4 8 fullRootNode).2.nodeAt ly 9).level = 2 ∧
      ((splitNon ly (insertNonLeaf ly (fuel + 1)) 4 8 fullRootNode).2.nodeAt ly 9).keyArray 0
        = 20 ∧
      ((splitNon ly (insertNonLeaf ly (fuel + 1)) 4 8 fullRootNode).2.nodeAt ly 9).slot = 0 ∧
      ((splitNon ly (insertNonLeaf ly (fuel + 1)) 4 8 fullRootNode).2.nodeAt ly 9).pageNoArray 0
        = 3 ∧
      ((splitNon ly (insertNonLeaf ly (fuel + 1)) 4 8 fullRootNode).2.nodeAt ly 9).pageNoArray 1
        = 0) := by
  have h := C19_parent_of_split_root Layout.zeros fullRootNode 4
    (fullRootNode.nodeAt Layout.zeros 4) rfl (by decide) (by decide) (by decide)
  exact ⟨h.2.2.2.1, h.2.2.2.2.1.trans (by decide),
    fun _ _ => ⟨rfl, rfl, rfl, rfl, rfl, rfl, rfl, rfl⟩⟩

/-! ## Theorems: where `startScan` positions the scan -/

/-- Whenever the descent of `startScan` returns, it has set `nextEntry` to 0. -/
theorem startScanDescend_nextEntry (ly : Layout) (fuel : Nat) :
    ∀ s : BTreeIndex, (startScanDescend ly fuel s).1 = Res.ok () →
      (startScanDescend ly fuel s).2.nextEntry = 0 := by
  induction fuel with
  | zero => intro s h; simp [startScanDescend] at h
  | succ n ih =>
    intro s
    rw [startScanDescend]
    simp only []
    split_ifs
    · exact ih _
    · intro _; rfl

/-- After an operator test that passed, `startScan` is the descent from the
state `scanEntryState`. -/
theorem startScan_eq_descend (ly : Layout) (fuel : Nat) (lowVal highVal : Int)
    (lowOp highOp : Operator) (s : BTreeIndex) (hb : badOpcodes lowOp highOp = false) :
    startScan ly fuel lowVal lowOp highVal highOp s
      = startScanDescend ly fuel (scanEntryState s lowVal lowOp highVal highOp) := by
  unfold startScan
  simp only [hb]
  rfl

/-- The descent of `startScan` does not read `rootPageNum`. -/
theorem startScanDescend_rootPageNum (ly : Layout) (fuel : Nat) :
    ∀ (t : BTreeIndex) (r : Nat),
      startScanDescend ly fuel { t with rootPageNum := r }
        = ((startScanDescend ly fuel t).1,
            { (startScanDescend ly fuel t).2 with rootPageNum := r }) := by
  induction fuel with
  | zero => intro t r; rfl
  | succ n ih =>
    intro t r
    rw [startScanDescend, startScanDescend]
    simp only []
    by_cases h : (t.nodeAt ly t.currentPageData).level ≠ 1
    · rw [if_pos h, if_pos (show (BTreeIndex.nodeAt ly { t with rootPageNum := r }
        ({ t with rootPageNum := r } : BTreeIndex).currentPageData).level ≠ 1 from h)]
      exact ih (scanMoveTo t ((t.nodeAt ly t.currentPageData).pageNoArray
        (startScanUpperIdx (t.nodeAt ly t.currentPageData) t.lowValInt t.nodeOccupancy
          t.nodeOccupancy.toNat 0))) r
    · rw [if_neg h, if_neg (show ¬ (BTreeIndex.nodeAt ly { t with rootPageNum := r }
        ({ t with rootPageNum := r } : BTreeIndex).currentPageData).level ≠ 1 from h)]
      rfl

/-- Under a layout that reads every page of another type as zero bytes, a
descent that stands on a page read as zero bytes, with page 0 blank, goes to
page 0 and stays there. -/
theorem startScanDescend_zeros_stuck (fuel : Nat) :
    ∀ s : BTreeIndex, s.nodeAt Layout.zeros s.currentPageData = zeroNode →
      s.bufMgr.pages 0 = Page.blank →
      (startScanDescend Layout.zeros fuel s).1 = Res.timeout := by
  induction fuel with
  | zero => intro s _ _; rfl
  | succ n ih =>
    intro s h0 hb
    rw [startScanDescend]
    simp only [h0]
    rw [if_pos (by show (0 : Int) ≠ 1; decide)]
    have hz : ∀ i, zeroNode.pageNoArray i = 0 := fun _ => rfl
    rw [hz]
    apply ih
    · show Page.asNode Layout.zeros (s.bufMgr.pages 0) = zeroNode
      rw [hb]; rfl
    · exact hb

/-- C20 (evaluated on the code): `startScan` does not start at the root. It
sets `currentPageNum = headerPageNum` (line 737) and descends from the header
page read as a non-leaf node; `rootPageNum` and the header's `rootPageNo` are
not read. Whenever it returns, `nextEntry` is 0 (line 786), whatever the keys
of the leaf are. Even from a state positioned on the root, the level-1 step
(line 772) advances while `keyArray[j] > lowVal`: on the two-leaf tree with
separator 3 and `lowVal = 4` the rule gives child 1 (page 3, where the first
key `>= 4` is at index 1), the code ends on child 0 (page 2) with
`nextEntry = 0`. On that tree `startScan` with `lowVal = 4` therefore never
ends on page 3 with `nextEntry = 1`, under any struct layout; under a layout
that reads the header as zero bytes it never returns. -/
theorem C20_startScan_descends_from_header (ly : Layout) (fuel : Nat) :
    (∀ (s : BTreeIndex) (lowVal highVal : Int) (lowOp highOp : Operator),
      badOpcodes lowOp highOp = false →
      startScan ly fuel lowVal lowOp highVal highOp s
        = startScanDescend ly fuel (scanEntryState s lowVal lowOp highVal highOp) ∧
      (scanEntryState s lowVal lowOp highVal highOp).currentPageNum = s.headerPageNum ∧
      (scanEntryState s lowVal lowOp highVal highOp).currentPageData = s.headerPageNum ∧
      (scanEntryState s lowVal lowOp highVal highOp).bufMgr.pages = s.bufMgr.pages ∧
      ∀ r, startScan ly fuel lowVal lowOp highVal highOp { s with rootPageNum := r }
        = ((startScan ly fuel lowVal lowOp highVal highOp s).1,
            { (startScan ly fuel lowVal lowOp highVal highOp s).2 with rootPageNum := r })) ∧
    (∀ (s : BTreeIndex) (lowVal highVal : Int) (lowOp highOp : Operator),
      (startScan ly fuel lowVal lowOp highVal highOp s).1 = Res.ok () →
      (startScan ly fuel lowVal lowOp highVal highOp s).2.nextEntry = 0) ∧
    (chosenChild (sixKeysLinked.nodeAt Layout.zeros 4) 4 = 3 ∧
      (sixKeysLinked.leafAt Layout.zeros 3).keyArray 0 = 3 ∧
      (sixKeysLinked.leafAt Layout.zeros 3).keyArray 1 = 4 ∧
      (startScanDescend ly (fuel + 1)
        (positioned sixKeysLinked 4 4 Operator.GTE 100 Operator.LT)).1 = Res.ok () ∧
      (startScanDescend ly (fuel + 1)
        (positioned sixKeysLinked 4 4 Operator.GTE 100 Operator.LT)).2.currentPageNum = 2 ∧
      (startScanDescend ly (fuel + 1)
        (positioned sixKeysLinked 4 4 Operator.GTE 100 Operator.LT)).2.nextEntry = 0) ∧
    ¬ ((startScan ly fuel 4 Operator.GTE 100 Operator.LT sixKeysLinked).1 = Res.ok () ∧
       (startScan ly fuel 4 Operator.GTE 100 Operator.LT sixKeysLinked).2.currentPageNum = 3 ∧
       (startScan ly fuel 4 Operator.GTE 100 Operator.LT sixKeysLinked).2.nextEntry = 1) ∧
    (startScan Layout.zeros fuel 4 Operator.GTE 100 Operator.LT sixKeysLinked).1
      = Res.timeout := by
  have hB : ∀ (s : BTreeIndex) (lowVal highVal : Int) (lowOp highOp : Operator),
      (startScan ly fuel lowVal lowOp highVal highOp s).1 = Res.ok () →
      (startScan ly fuel lowVal lowOp highVal highOp s).2.nextEntry = 0 := by
    intro s lowVal highVal lowOp highOp h
    unfold startScan at h ⊢
    simp only [] at h ⊢
    split_ifs at h ⊢ with hb
    · exact startScanDescend_nextEntry ly fuel _ h
  refine ⟨?_, hB, ⟨by decide, by decide, by decide, rfl, rfl, rfl⟩, ?_, ?_⟩
  · intro s lowVal highVal lowOp highOp hb
    have he : ∀ t : BTreeIndex, startScan ly fuel lowVal lowOp highVal highOp t
        = startScanDescend ly fuel (scanEntryState t lowVal lowOp highVal highOp) :=
      fun t => startScan_eq_descend ly fuel lowVal highVal lowOp highOp t hb
    refine ⟨he s, rfl, rfl, rfl, ?_⟩
    intro r
    rw [he, he]
    exact startScanDescend_rootPageNum ly fuel (scanEntryState s lowVal lowOp highVal highOp) r
  · rintro ⟨h1, _, h3⟩
    rw [hB _ _ _ _ _ h1] at h3
    exact absurd h3 (by decide)
  · rw [startScan_eq_descend Layout.zeros fuel 4 100 Operator.GTE Operator.LT sixKeysLinked rfl]
    exact startScanDescend_zeros_stuck fuel _ rfl rfl

end BTree
